import Mathlib

/-!
# FFSI, the Feed-Forward Stochastic Inferrer (`lib/ffsi.c`)

A shallow embedding of the learning, inference and betting code of `lib/ffsi.c`
together with theorems about it.

Conventions of the embedding.

* C `unsigned int` values are natural numbers below `2 ^ 32`; every operation that
  can wrap is reduced with `u32`.  C `int` values are integers, obtained from a
  32-bit pattern with `s32`.
* `struct tpdf` keeps its table `qtbl` as a list; `ffsi_tpdf_tabling` allocates
  exactly `qlvl` entries for it, so `qlvl` is the length of the list.
* The intrusive list `tpdf_cascade` is the list of its entries in traversal order
  (the order in which `list_for_each_entry` visits them).
* `linux/ffsi.h` and `d2u_decl_cmtpdf.h` are not part of the sources at hand.  Their
  constants and the tailoring macro are parameters (`ffsi_header`), the reference
  table is a parameter of the functions which read it.
-/

namespace FFSI

/-! ## Machine arithmetic -/

/-- Reduction of a natural number to an `unsigned int`. -/
def u32 (n : Nat) : Nat := n % 4294967296

/-- Subtraction of two `unsigned int` values, wrapping below zero. -/
def usub (a b : Nat) : Nat := (u32 a + (4294967296 - u32 b)) % 4294967296

/-- The `int` with the 32-bit pattern `n` (two's complement). -/
def s32 (n : Nat) : Int :=
  if u32 n < 2147483648 then (u32 n : Int) else (u32 n : Int) - 4294967296

/-- The 32-bit pattern of an integer (conversion of `int` to `unsigned int`). -/
def of_int (x : Int) : Nat := (x % 4294967296).toNat

/-- The number of halvings, at most `fuel`, which bring `n` below 2. -/
def ilog2_aux : Nat → Nat → Nat
  | 0, _ => 0
  | fuel + 1, n => if 2 ≤ n then ilog2_aux fuel (n / 2) + 1 else 0

/-- Modelled from the spec: the kernel helper `ilog2` of `linux/log2.h`, which is not
in the sources at hand; the spec writes it `floor(log2(x))`.  On a non-zero 32-bit
value it is the position of the highest set bit. -/
def ilog2 (n : Nat) : Nat := ilog2_aux 32 n

/-- Modelled from the spec: the kernel helper `mult_frac(x, numer, denom)` of
`linux/kernel.h`, which is not in the sources at hand; the spec calls it a
fixed-point multiply-then-divide.  The kernel macro computes
`quot = x / denom; rem = x % denom; quot * numer + (rem * numer) / denom`
in the type of `x`, here `unsigned int`. -/
def mult_frac (x numer denom : Nat) : Nat :=
  u32 (u32 (x / denom * numer) + u32 (x % denom * numer) / denom)

/-- The sentinel `__INFTY` (0xEFEFEFEF). -/
def __INFTY : Nat := 4025479151

/-- The shift `LOG_UPSCALE_SHIFT`. -/
def LOG_UPSCALE_SHIFT : Nat := 9

/-- The resolution `ONE2TWO_RES` of the logarithm table. -/
def ONE2TWO_RES : Nat := 64

/-- The table `__lb2`: 512 * log2 (1 + (i + 1) / 64), rounded. -/
def __lb2 : List Nat :=
  [ 11,  22,  33,  44,  54,  65,  75,  85,  95, 105, 115, 125, 134, 144,
   153, 162, 171, 180, 189, 198, 206, 215, 223, 232, 240, 248, 256, 264,
   272, 280, 288, 295, 303, 310, 318, 325, 332, 340, 347, 354, 361, 368,
   375, 381, 388, 395, 401, 408, 414, 421, 427, 434, 440, 446, 452, 459,
   465, 471, 477, 483, 488, 494, 500, 506]

/-- The two planes of the asymmetric divergence. -/
inductive kld_plane where
  | KLD_LPLANE
  | KLD_RPLANE
deriving DecidableEq

/-! ## Data model -/

/-- Modelled from the spec: a sample of the observed random variable
(`struct rand_var`, declared in `linux/ffsi.h`, not in the sources at hand): its value
and its upper bound. -/
structure rand_var where
  nval : Nat
  ubound : Nat
deriving DecidableEq

/-- Modelled from the spec: one level of the cascade (`struct tpdf`).  The structure,
the layout of its field `win_size` and the type `tfifo` are declared in
`linux/ffsi.h`, which is not in the sources at hand.  Following the data model of the
spec, `win_size` is kept as its parts: the unbounded-window sentinel
(`win_infty`, read by `is_ffsi_window_infty`), the window size (`window_size`, read by
`ffsi_window_size`), the running count (`window_count`, read by `ffsi_windowing_cnt`,
advanced by `win_size++`) and the pending-rescale mark (`need_rescale`, read by
`ffsi_window_need_rescale`, cleared by `ffsi_window_rescale_done`).  The ring buffer
`cache` is the list of the recorded buckets, oldest first. -/
structure tpdf where
  qtbl : List Nat
  weight : Nat
  win_infty : Bool
  window_size : Nat
  window_count : Nat
  need_rescale : Bool
  pc_cnt : Nat
  cache : List Nat
  irand : Nat
deriving DecidableEq

/-- The number of quantization levels: the number of entries of `qtbl`. -/
def tpdf.qlvl (self : tpdf) : Nat := self.qtbl.length

/-- Modelled from the spec: the elasticity ratios (`struct elasticity`, declared in
`linux/ffsi.h`, not in the sources at hand); the fields are those the bettors read. -/
structure elasticity where
  theta_numer : Nat
  theta_denom : Nat
  gamma_numer : Nat
  gamma_denom : Nat
deriving DecidableEq

/-- Modelled from the spec: the running statistics of a vessel (the field `stats`,
declared in `linux/ffsi.h`, not in the sources at hand), in the order of its
initializer in `ffsi_obj_creator`.  `choke_cnt` and `rand_neutral` are 32-bit,
`save_total` is a `long long`. -/
structure ffsi_stats where
  choke_cnt : Nat
  save_total : Int
  rand_neutral : Nat
  throttling : Nat
deriving DecidableEq

/-- Modelled from the spec: a vessel (`struct ffsi_class`, declared in `linux/ffsi.h`,
not in the sources at hand), restricted to the fields the modelled code reads or
writes. -/
structure ffsi_class where
  resilience : Nat
  epsilon : Nat
  max_capa : Nat
  min_capa : Nat
  elasticity : elasticity
  tpdf_cascade : List tpdf
  capa_denom : Nat
  stats : ffsi_stats
deriving DecidableEq

/-- The constants and the tailoring macro of `linux/ffsi.h`, which is not in the
sources at hand; they are parameters of the model.  `RV_TAILORED level v` is the
bucket a sample is mapped to. -/
structure ffsi_header where
  FFSI_TPDF_CUMSUM : Nat
  FFSI_QUANT_STEP : Nat
  FFSI_DIVERGING : Nat
  RV_TAILORED : tpdf → rand_var → Nat

/-! ## Histogram learning -/

/-- The statement `qtbl[scope]++`.  (An index outside the table leaves it unchanged.) -/
def qtbl_incr (qtbl : List Nat) (scope : Nat) : List Nat :=
  qtbl.set scope (u32 (qtbl.getD scope 0 + 1))

/-- The statement `qtbl[scope] = qtbl[scope] ? qtbl[scope] - 1 : 0`. -/
def qtbl_decr (qtbl : List Nat) (scope : Nat) : List Nat :=
  qtbl.set scope (if qtbl.getD scope 0 ≠ 0 then qtbl.getD scope 0 - 1 else 0)

/-- Modelled from the spec: `tfifo_in` of `linux/ffsi.h` (not in the sources at hand)
records a bucket at the young end of the ring buffer. -/
def tfifo_in (cache : List Nat) (scope : Nat) : List Nat := cache ++ [scope]

/-- Modelled from the spec: `tfifo_out` of `linux/ffsi.h` (not in the sources at hand)
removes and returns the oldest recorded bucket. -/
def tfifo_out (cache : List Nat) : Nat × List Nat := (cache.headD 0, cache.tail)

/-- The function `ffsi_tpdf_equilibrator`: count the call, and halve every bucket once
`FFSI_TPDF_CUMSUM` calls have been counted. -/
def ffsi_tpdf_equilibrator (H : ffsi_header) (self : tpdf) : tpdf :=
  let pc := u32 (self.pc_cnt + 1)
  if pc = H.FFSI_TPDF_CUMSUM then
    { self with qtbl := self.qtbl.map (fun q => q / 2), pc_cnt := 0 }
  else
    { self with pc_cnt := pc }

/-- The function `ffsi_tpdf_rescaler`: when a rescale is pending, scale every bucket
by `FFSI_TPDF_CUMSUM / ffsi_window_size` and clear the mark. -/
def ffsi_tpdf_rescaler (H : ffsi_header) (self : tpdf) : tpdf :=
  let denom := u32 self.window_size
  if self.need_rescale then
    { self with
      qtbl := self.qtbl.map (fun q => mult_frac q H.FFSI_TPDF_CUMSUM denom),
      need_rescale := false }
  else self

/-- The function `ffsi_tpdf_carving_out`; `self->rescaler` is the default rescaler
`ffsi_tpdf_rescaler`. -/
def ffsi_tpdf_carving_out (H : ffsi_header) (self : tpdf) : tpdf :=
  let self := ffsi_tpdf_rescaler H self
  let out := tfifo_out self.cache
  { self with cache := out.2, qtbl := qtbl_decr self.qtbl out.1 }

/-- The body of the loop of `ffsi_job_probability_collapse` for one level, compiled
with `ASYMMETRIC_INFERENCE` defined (as the file defines it); `level->equilibrator`
is the default equilibrator `ffsi_tpdf_equilibrator`. -/
def collapse_level (H : ffsi_header) (v : rand_var) (level : tpdf) : tpdf :=
  let scope := u32 (H.RV_TAILORED level v)
  if scope < level.qlvl / 2 then level
  else
    let level := { level with qtbl := qtbl_incr level.qtbl scope }
    if level.win_infty then
      if level.window_count ≥ H.FFSI_TPDF_CUMSUM then ffsi_tpdf_equilibrator H level
      else { level with window_count := level.window_count + 1 }
    else
      let level := { level with cache := tfifo_in level.cache scope }
      if level.window_count ≥ level.window_size then ffsi_tpdf_carving_out H level
      else { level with window_count := level.window_count + 1 }

/-- The function `ffsi_job_probability_collapse` (the operation `learn`). -/
def ffsi_job_probability_collapse (H : ffsi_header) (self : ffsi_class) (v : rand_var) :
    ffsi_class :=
  if self.tpdf_cascade.isEmpty then self
  else if v.nval = v.ubound then
    { self with stats := { self.stats with choke_cnt := u32 (self.stats.choke_cnt + 1) } }
  else
    { self with tpdf_cascade := self.tpdf_cascade.map (collapse_level H v) }

/-- A sequence of `learn` calls, one per sample, in order. -/
def learn_all (H : ffsi_header) (self : ffsi_class) (vs : List rand_var) : ffsi_class :=
  vs.foldl (ffsi_job_probability_collapse H) self

/-- A level in its initial learning state: every bucket zero, nothing counted yet. -/
def tpdf.fresh (self : tpdf) : Prop :=
  (∀ q ∈ self.qtbl, q = 0) ∧ self.window_count = 0 ∧ self.pc_cnt = 0

/-! ## Divergence engine -/

/-- The expression the divergence functions compute for `entp` (with `x = p`) and for
`entq` (with `x = q`): `p * log2 x`, to which the table term is added when `x` is not a
power of two.  Both entropies are multiplied by `p`, as in the source. -/
def kl_ent (p x : Nat) : Nat :=
  let log2x := ilog2 x
  let xbase := u32 (2 ^ log2x)
  if x = xbase then u32 (p * log2x)
  else
    u32 (u32 (p * log2x) +
      u32 (p * __lb2.getD (mult_frac (usub x xbase) ONE2TWO_RES xbase) 0)
        >>> LOG_UPSCALE_SHIFT)

/-- The contribution `entp - entq` of one bucket with counts `p` and `q`; a bucket with
`p == 0 || q == 0` is skipped. -/
def kl_term (p q : Nat) : Nat :=
  if p = 0 ∨ q = 0 then 0 else usub (kl_ent p p) (kl_ent p q)

/-- One round of the loop body of the divergence functions: `kl_div += entp - entq`
for bucket `idx`. -/
def kl_step (qtbl comparee : List Nat) (kl_div idx : Nat) : Nat :=
  u32 (kl_div + kl_term (qtbl.getD idx 0) (comparee.getD idx 0))

/-- The function `kl_diversity` (the operation `kl_divergence`): the loop runs over
`idx = 0, ..., qlvl - 1`. -/
def kl_diversity (comparer : tpdf) (comparee : List Nat) : Int :=
  s32 ((List.range comparer.qlvl).foldl (kl_step comparer.qtbl comparee) 0)

/-- The function `kl_asymm_diversity` (the operation `kl_asymm_divergence`): the loop
runs over `idx = head, ..., foot`, both ends included.  For an empty table and the
right plane `foot` wraps to `2 ^ 32 - 1` and the C loop does not terminate; the
model is meant for tables with at least one bucket. -/
def kl_asymm_diversity (comparer : tpdf) (comparee : List Nat) (side : kld_plane) : Int :=
  let mean := comparer.qlvl / 2
  let head := if side = kld_plane.KLD_LPLANE then 0 else mean
  let foot := if side = kld_plane.KLD_LPLANE then mean else usub comparer.qlvl 1
  s32 ((List.range' head (foot + 1 - head)).foldl (kl_step comparer.qtbl comparee) 0)

/-! ## Nearest-reference search -/

/-- Modelled from the spec: the kernel macro `abs` of `linux/kernel.h`, which is not in
the sources at hand; the spec writes it `|divergence|`.  On an `int` it is
`x < 0 ? -x : x`, here in wrapping 32-bit arithmetic; an `unsigned int` argument is
converted to `int` first. -/
def abs_int (x : Int) : Int := if x < 0 then s32 (of_int (-x)) else x

/-- The value of an `int` all of whose bytes are 0xEF (what `memset` leaves in
`kld_ref`); it is the `int` which compares equal to `__INFTY`. -/
def kld_unset : Int := s32 __INFTY

/-- The inner `for` loop of `__gs_on_kld`: starting at `cur`, probe every
`hop_width`-th index up to `rmost`, evaluating `kl` at the indices whose memo entry
still holds the sentinel.  `none` when the fuel runs out. -/
def gs_probe (kl : Nat → Int) (rmost hop_width : Nat) :
    Nat → Nat → List Int → Option (List Int)
  | 0, _, _ => none
  | fuel + 1, cur, kld_ref =>
    if cur ≤ u32 (rmost + 1) then
      let cur := min cur rmost
      let kld_ref :=
        if kld_ref.getD cur 0 = kld_unset then kld_ref.set cur (kl cur) else kld_ref
      gs_probe kl rmost hop_width fuel (u32 (cur + hop_width)) kld_ref
    else some kld_ref

/-- The state of the `do ... while` loop of `__gs_on_kld`. -/
structure gs_state where
  lmost : Nat
  rmost : Nat
  hop_width : Nat
  kld_ref : List Int
deriving DecidableEq

/-- The statements of the `do ... while` body of `__gs_on_kld` which follow the probe
loop; `min_idx` is the variable of that name, which the loop reads and never
writes. -/
def gs_narrow (min_idx : Nat) (s : gs_state) (kld_ref : List Int) : gs_state :=
  let lmost := of_int (max (s32 min_idx - s32 s.hop_width + 1) (s32 s.lmost))
  let rmost := of_int (min (s32 min_idx + s32 s.hop_width - 1) (s32 s.rmost))
  let width := u32 (usub rmost lmost + 1)
  let hop_total := ilog2 (u32 (width + 1))
  let hop_width := u32 (2 ^ hop_total) / hop_total
  let lmost := u32 (lmost + (if kld_ref.getD lmost 0 ≠ kld_unset then 1 else 0))
  { lmost := lmost, rmost := rmost, hop_width := hop_width, kld_ref := kld_ref }

/-- The `do ... while (rmost > lmost)` loop of `__gs_on_kld`; the result is the memo
table `kld_ref` at the exit of the loop.  `none` when the fuel runs out (every pass
gets `fuel` rounds for its probe loop). -/
def gs_descend (kl : Nat → Int) (min_idx : Nat) (pfuel : Nat) :
    Nat → gs_state → Option (List Int)
  | 0, _ => none
  | fuel + 1, s =>
    match gs_probe kl s.rmost s.hop_width pfuel s.lmost s.kld_ref with
    | none => none
    | some kld_ref =>
      let s := gs_narrow min_idx s kld_ref
      if s.rmost > s.lmost then gs_descend kl min_idx pfuel fuel s else some s.kld_ref

/-- One round of the final scan of `__gs_on_kld`; the state is `(min_kld, min_idx)`,
`min_kld` being read through `abs`, that is as an `int`. -/
def gs_scan_step (kld_ref : List Int) (st : Int × Nat) (cur : Nat) : Int × Nat :=
  if abs_int (kld_ref.getD cur 0) < abs_int st.1 then (kld_ref.getD cur 0, cur) else st

/-- The final scan of `__gs_on_kld` over `cur = 0, ..., max_var - 1`. -/
def gs_scan (kld_ref : List Int) (max_var : Nat) : Nat :=
  ((List.range max_var).foldl (gs_scan_step kld_ref) (kld_unset, 0)).2

/-- The search `__gs_on_kld` with the divergence against reference `cur` given by
`kl cur`. -/
def gs_on (kl : Nat → Int) (max_var fuel : Nat) : Option Nat :=
  let hop_total := ilog2 max_var
  let hop_width := u32 (2 ^ hop_total) / hop_total
  let s : gs_state :=
    { lmost := 0, rmost := usub max_var 1, hop_width := hop_width,
      kld_ref := List.replicate 16 kld_unset }
  (gs_descend kl 0 fuel fuel s).map (fun kld_ref => gs_scan kld_ref max_var)

/-- The function `__gs_on_kld`, compiled with `ASYMMETRIC_INFERENCE` defined: the
divergence is `kl_asymm_diversity` on the right plane, reference `cur` being the row
of `mold` which starts at `cur * FFSI_QUANT_STEP`. -/
def __gs_on_kld (H : ffsi_header) (targ : tpdf) (mold : List Nat) (max_var fuel : Nat) :
    Option Nat :=
  gs_on
    (fun cur =>
      kl_asymm_diversity targ (mold.drop (cur * H.FFSI_QUANT_STEP)) kld_plane.KLD_RPLANE)
    max_var fuel

/-- The function `is_tpdf_prepared`. -/
def is_tpdf_prepared (H : ffsi_header) (self : tpdf) : Bool :=
  if self.win_infty then decide (self.window_count ≥ H.FFSI_TPDF_CUMSUM)
  else decide (self.window_count ≥ self.window_size)

/-- The body of the loop of `ffsi_search_nearest_job_tpdf` for one level. -/
def search_level (H : ffsi_header) (mold : List Nat) (resilience fuel : Nat)
    (level : tpdf) : Option tpdf :=
  if is_tpdf_prepared H level = false then some level
  else if level.pc_cnt ≠ 0 then some level
  else
    match __gs_on_kld H level mold resilience fuel with
    | none => none
    | some i => some { level with irand := i }

/-- The loop of `ffsi_search_nearest_job_tpdf` over the cascade. -/
def search_levels (H : ffsi_header) (mold : List Nat) (resilience fuel : Nat) :
    List tpdf → Option (List tpdf)
  | [] => some []
  | level :: rest =>
    match search_level H mold resilience fuel level with
    | none => none
    | some level =>
      match search_levels H mold resilience fuel rest with
      | none => none
      | some rest => some (level :: rest)

/-- The function `ffsi_search_nearest_job_tpdf` (the operation `infer`) on the
reference table `mold` (`d2u_decl_cmtpdf`): the value returned and the vessel
afterwards.  `none` when the fuel of a search runs out. -/
def ffsi_search_nearest_job_tpdf (H : ffsi_header) (mold : List Nat) (fuel : Nat)
    (self : ffsi_class) : Option (Nat × ffsi_class) :=
  if self.tpdf_cascade.isEmpty then some (H.FFSI_DIVERGING, self)
  else
    match search_levels H mold self.resilience fuel self.tpdf_cascade with
    | none => none
    | some [] => none
    | some (level :: rest) =>
      some (level.irand, { self with tpdf_cascade := level :: rest })

/-! ## The cascade -/

/-- The kernel function `list_add` of `linux/list.h` (which is not in the sources at
hand), on the list of entries in traversal order: it links the new entry right behind
the list head, so that the new entry becomes the first one of every traversal
(`list_add_tail` is the kernel function which appends).  The callers agree with it:
`ffsi_build_tpdf_cascade` adds its levels l3, l2, l1 in that order, and
`tpdf_cascade_show` numbers the entries from 1 in traversal order. -/
def list_add (element : tpdf) (head : List tpdf) : List tpdf := element :: head

/-- The function `ffsi_tpdf_cascading`. -/
def ffsi_tpdf_cascading (vessel : ffsi_class) (element : tpdf) : ffsi_class :=
  { vessel with tpdf_cascade := list_add element vessel.tpdf_cascade }

/-- The function `ffsi_build_tpdf_cascade` for `FFSI_TPDF_CASCADE_LEVEL > 1`, after its
three allocations succeeded; the three levels are given as initialized by
`ffsi_l3_pdf_init`, `ffsi_l2_pdf_init` and `ffsi_l1_pdf_init` (which are not in the
sources at hand). -/
def ffsi_build_tpdf_cascade (vessel : ffsi_class) (tpdf_inf tpdf_fin tpdf_ins : tpdf) :
    ffsi_class :=
  let vessel := ffsi_tpdf_cascading vessel tpdf_inf
  let vessel := ffsi_tpdf_cascading vessel tpdf_fin
  let vessel := ffsi_tpdf_cascading vessel tpdf_ins
  let weight_sum := u32 (u32 (tpdf_inf.weight + tpdf_fin.weight) + tpdf_ins.weight)
  { vessel with capa_denom := ilog2 (u32 (weight_sum + 1)) }

/-! ## Capacity bettors -/

/-- The 64-bit `long long` with the value of an integer reduced modulo `2 ^ 64`. -/
def s64 (x : Int) : Int :=
  (x + 9223372036854775808) % 18446744073709551616 - 9223372036854775808

/-- The statement `self->stats.save_total += ((long long)cap_legacy - (long long)new_cap) / 1000`,
the division rounding towards zero. -/
def save_total_add (self : ffsi_class) (cap_legacy new_cap : Nat) : ffsi_class :=
  { self with stats :=
      { self.stats with
        save_total :=
          s64 (self.stats.save_total + Int.tdiv ((cap_legacy : Int) - (new_cap : Int)) 1000) } }

/-- The body of the loop of `ffsi_cap_soft_bettor` for one level: the value of
`new_cap` after the round. -/
def soft_level (H : ffsi_header) (self : ffsi_class) (cap_legacy min_cap max_cap : Nat)
    (new_cap : Nat) (level : tpdf) : Nat :=
  if level.irand = H.FFSI_DIVERGING then cap_legacy
  else if level.irand < self.stats.rand_neutral then
    u32 (new_cap + u32 (level.weight *
      (u32 (min_cap + mult_frac (usub cap_legacy min_cap) level.irand
          self.stats.rand_neutral) >>> self.capa_denom)))
  else if level.irand > self.stats.rand_neutral then
    u32 (new_cap + u32 (level.weight *
      (usub max_cap (mult_frac (usub max_cap cap_legacy)
          (usub (usub self.resilience level.irand) 1)
          (usub (usub self.resilience self.stats.rand_neutral) 1)) >>> self.capa_denom)))
  else
    u32 (new_cap + u32 (level.weight * (cap_legacy >>> self.capa_denom)))

/-- The function `ffsi_cap_soft_bettor`: the capacity returned and the vessel
afterwards.  (The sample `v` of the source is not read.) -/
def ffsi_cap_soft_bettor (H : ffsi_header) (self : ffsi_class) (_v : rand_var)
    (cap_legacy : Nat) : Nat × ffsi_class :=
  let min_cap := mult_frac cap_legacy self.elasticity.theta_numer self.elasticity.theta_denom
  let max_cap := mult_frac cap_legacy self.elasticity.gamma_numer self.elasticity.gamma_denom
  if self.tpdf_cascade.isEmpty then (cap_legacy, self)
  else if cap_legacy = 0 then (0, self)
  else
    let new_cap := self.tpdf_cascade.foldl (soft_level H self cap_legacy min_cap max_cap) 0
    (new_cap, save_total_add self cap_legacy new_cap)

/-- The function `__integral_schi2m` on the reference table `d2u` (`d2u_decl_cmtpdf`,
rows of `FFSI_QUANT_STEP` entries): the sum of row `r` from bucket `i` upwards. -/
def __integral_schi2m (H : ffsi_header) (d2u : List Nat) (r i : Nat) : Nat :=
  (List.range' i (H.FFSI_QUANT_STEP - i)).foldl
    (fun total x => u32 (total + d2u.getD (r * H.FFSI_QUANT_STEP + x) 0)) 0

/-- The cost `run_hmny` the strict bettor computes for a candidate `skew`. -/
def strict_cost (H : ffsi_header) (d2u : List Nat) (self : ffsi_class)
    (cap_legacy cap_unit scope irand skew : Nat) : Nat :=
  let __cap := u32 (cap_legacy + u32 (cap_unit * usub irand skew))
  u32 (u32 (self.epsilon * __integral_schi2m H d2u skew scope) + __cap)

/-- One round of the loop over `skew` of the strict bettor; the state is
`(min_hmny, opt_skew)`. -/
def strict_skew_step (H : ffsi_header) (d2u : List Nat) (self : ffsi_class)
    (cap_legacy cap_unit scope irand : Nat) (st : Nat × Nat) (skew : Nat) : Nat × Nat :=
  let run_hmny := strict_cost H d2u self cap_legacy cap_unit scope irand skew
  if st.1 > run_hmny then (run_hmny, skew) else st

/-- The value of `opt_skew` after the loop over `skew = 0, ..., resilience - 1`. -/
def strict_opt_skew (H : ffsi_header) (d2u : List Nat) (self : ffsi_class)
    (cap_legacy cap_unit scope irand : Nat) : Nat :=
  ((List.range self.resilience).foldl
    (strict_skew_step H d2u self cap_legacy cap_unit scope irand) (__INFTY, __INFTY)).2

/-- The body of the loop of `ffsi_cap_strict_bettor` for one level: the value of
`new_cap` after the round. -/
def strict_level (H : ffsi_header) (d2u : List Nat) (self : ffsi_class) (v : rand_var)
    (cap_legacy cap_unit : Nat) (new_cap : Nat) (level : tpdf) : Nat :=
  let scope := u32 (H.RV_TAILORED level v)
  if level.irand = H.FFSI_DIVERGING then new_cap
  else
    let opt_skew := strict_opt_skew H d2u self cap_legacy cap_unit scope level.irand
    let cap_delta := s32 (u32 (cap_unit * usub level.irand opt_skew))
    u32 (new_cap + of_int (cap_delta * (level.weight : Int)))

/-- The function `ffsi_cap_strict_bettor` on the reference table `d2u`: the capacity
returned and the vessel afterwards. -/
def ffsi_cap_strict_bettor (H : ffsi_header) (d2u : List Nat) (self : ffsi_class)
    (v : rand_var) (cap_legacy : Nat) : Nat × ffsi_class :=
  let new_cap := mult_frac cap_legacy self.elasticity.theta_numer self.elasticity.theta_denom
  let max_cap := mult_frac cap_legacy self.elasticity.gamma_numer self.elasticity.gamma_denom
  let cap_unit := usub max_cap new_cap >>> self.capa_denom
  if self.tpdf_cascade.isEmpty then (cap_legacy, self)
  else if cap_legacy = 0 then (0, self)
  else
    let new_cap := self.tpdf_cascade.foldl (strict_level H d2u self v cap_legacy cap_unit) new_cap
    (new_cap, save_total_add self cap_legacy new_cap)

/-! ## Lifecycle -/

/-- The body of the loop of `ffsi_stopper` for one level.  A finite-window level gets its
table zeroed (`memset` over its `qlvl` entries), its ring buffer freed and allocated
anew, `pc_cnt = 0` and the count of `win_size` cleared.

Modelled from the spec: `tfifo_free`, `tfifo_alloc` and `FFSI_WINDOW_CNT_MASK` are in
`linux/ffsi.h`, which is not in the sources at hand.  The spec has the ring buffer
discarded and reallocated (it is empty afterwards) and the window occupancy reset;
clearing the count leaves the window size and the pending-rescale mark as they are. -/
def stop_level (cur : tpdf) : tpdf :=
  if cur.win_infty = false then
    { cur with qtbl := List.replicate cur.qlvl 0, cache := [], pc_cnt := 0, window_count := 0 }
  else cur

/-- The function `ffsi_stopper` (the operation `stop`). -/
def ffsi_stopper (self : ffsi_class) : ffsi_class :=
  { self with tpdf_cascade := self.tpdf_cascade.map stop_level }

/-! ## The code with its checks -/

/-- The macro `mult_frac` with its three divisions checked: `none` when the divisor
`denom` is zero. -/
def mult_frac_chk (x numer denom : Nat) : Option Nat :=
  if denom = 0 then none else some (mult_frac x numer denom)

/-- The body of the loop of `ffsi_cap_soft_bettor` for one level with its divisions
checked: `none` when a divisor is zero, else the value of `new_cap` after the round. -/
def soft_level_chk (H : ffsi_header) (self : ffsi_class) (cap_legacy min_cap max_cap : Nat)
    (new_cap : Nat) (level : tpdf) : Option Nat :=
  if level.irand = H.FFSI_DIVERGING then some cap_legacy
  else if level.irand < self.stats.rand_neutral then
    (mult_frac_chk (usub cap_legacy min_cap) level.irand self.stats.rand_neutral).map
      (fun m => u32 (new_cap + u32 (level.weight * (u32 (min_cap + m) >>> self.capa_denom))))
  else if level.irand > self.stats.rand_neutral then
    (mult_frac_chk (usub max_cap cap_legacy) (usub (usub self.resilience level.irand) 1)
        (usub (usub self.resilience self.stats.rand_neutral) 1)).map
      (fun m => u32 (new_cap + u32 (level.weight * (usub max_cap m >>> self.capa_denom))))
  else
    some (u32 (new_cap + u32 (level.weight * (cap_legacy >>> self.capa_denom))))

/-- The loop of `ffsi_cap_soft_bettor` over the cascade with its divisions checked. -/
def soft_levels_chk (H : ffsi_header) (self : ffsi_class) (cap_legacy min_cap max_cap : Nat) :
    Nat → List tpdf → Option Nat
  | new_cap, [] => some new_cap
  | new_cap, level :: rest =>
    match soft_level_chk H self cap_legacy min_cap max_cap new_cap level with
    | none => none
    | some new_cap => soft_levels_chk H self cap_legacy min_cap max_cap new_cap rest

/-- The function `ffsi_cap_soft_bettor` with its divisions checked: `none` when a
division has a zero divisor, else the capacity returned and the vessel afterwards. -/
def ffsi_cap_soft_bettor_chk (H : ffsi_header) (self : ffsi_class) (_v : rand_var)
    (cap_legacy : Nat) : Option (Nat × ffsi_class) :=
  match mult_frac_chk cap_legacy self.elasticity.theta_numer self.elasticity.theta_denom with
  | none => none
  | some min_cap =>
    match mult_frac_chk cap_legacy self.elasticity.gamma_numer self.elasticity.gamma_denom with
    | none => none
    | some max_cap =>
      if self.tpdf_cascade.isEmpty then some (cap_legacy, self)
      else if cap_legacy = 0 then some (0, self)
      else
        match soft_levels_chk H self cap_legacy min_cap max_cap 0 self.tpdf_cascade with
        | none => none
        | some new_cap => some (new_cap, save_total_add self cap_legacy new_cap)

/-- How a run of the loops of `__gs_on_kld` with its checks ends: the loops are left
with the memo table `kld_ref`; the `do ... while` loop has not ended within the fuel; a
probe loop has not ended within the fuel; or a check has failed (`hop_total` is zero
where it divides, `hop_width` is below 2, or a memo index is not below `max_var`). -/
inductive gs_run where
  | done (kld_ref : List Int)
  | more
  | stall
  | fault
deriving DecidableEq

/-- The inner `for` loop of `__gs_on_kld` as `gs_probe`, with the check that the index
at which `kld_ref` is read and written is below `max_var`. -/
def gs_probe_chk (kl : Nat → Int) (max_var rmost hop_width : Nat) :
    Nat → Nat → List Int → gs_run
  | 0, _, _ => gs_run.stall
  | fuel + 1, cur, kld_ref =>
    if cur ≤ u32 (rmost + 1) then
      let cur := min cur rmost
      if cur < max_var then
        let kld_ref :=
          if kld_ref.getD cur 0 = kld_unset then kld_ref.set cur (kl cur) else kld_ref
        gs_probe_chk kl max_var rmost hop_width fuel (u32 (cur + hop_width)) kld_ref
      else gs_run.fault
    else gs_run.done kld_ref

/-- The statements which follow the probe loop as `gs_narrow`, with the checks that
`hop_total` is not zero where `hop_width` is computed, that the new `hop_width` is at
least 2 and that the index `lmost` at which `kld_ref` is read is below `max_var`;
`none` when a check fails. -/
def gs_narrow_chk (max_var min_idx : Nat) (s : gs_state) (kld_ref : List Int) :
    Option gs_state :=
  let lmost := of_int (max (s32 min_idx - s32 s.hop_width + 1) (s32 s.lmost))
  let rmost := of_int (min (s32 min_idx + s32 s.hop_width - 1) (s32 s.rmost))
  let width := u32 (usub rmost lmost + 1)
  let hop_total := ilog2 (u32 (width + 1))
  if hop_total = 0 then none
  else if u32 (2 ^ hop_total) / hop_total < 2 then none
  else if max_var ≤ lmost then none
  else some (gs_narrow min_idx s kld_ref)

/-- The `do ... while` loop of `__gs_on_kld` as `gs_descend`, with the checks. -/
def gs_descend_chk (kl : Nat → Int) (max_var min_idx pfuel : Nat) :
    Nat → gs_state → gs_run
  | 0, _ => gs_run.more
  | fuel + 1, s =>
    match gs_probe_chk kl max_var s.rmost s.hop_width pfuel s.lmost s.kld_ref with
    | gs_run.done kld_ref =>
      match gs_narrow_chk max_var min_idx s kld_ref with
      | none => gs_run.fault
      | some s =>
        if s.rmost > s.lmost then gs_descend_chk kl max_var min_idx pfuel fuel s
        else gs_run.done s.kld_ref
    | out => out

/-- The loops of `__gs_on_kld` from its initial state, as `gs_memo`, with the checks. -/
def gs_memo_chk (kl : Nat → Int) (max_var fuel : Nat) : gs_run :=
  let hop_total := ilog2 max_var
  let hop_width := u32 (2 ^ hop_total) / hop_total
  if hop_total = 0 then gs_run.fault
  else if hop_width < 2 then gs_run.fault
  else
    gs_descend_chk kl max_var 0 fuel fuel
      { lmost := 0, rmost := usub max_var 1, hop_width := hop_width,
        kld_ref := List.replicate 16 kld_unset }

/-! ## Auxiliary definitions of the statements -/

/-- The invariant of an unbounded-window level under `learn`: the buckets add up to at
most the samples counted by `window_count` and `pc_cnt`. -/
def inf_ok (H : ffsi_header) (t : tpdf) : Prop :=
  t.qtbl.sum ≤ t.window_count + t.pc_cnt ∧ t.window_count ≤ H.FFSI_TPDF_CUMSUM ∧
    t.pc_cnt < H.FFSI_TPDF_CUMSUM

/-- The invariant of a finite-window level while its window fills, after `n` calls of
`learn`. -/
def fin_ok (n : Nat) (t : tpdf) : Prop :=
  n ≤ t.window_size → t.qtbl.sum ≤ t.window_count ∧ t.window_count ≤ n

/-- The divergence as the spec words it for one half of the domain: the per-bucket
contributions of `kl_diversity` summed over the buckets `lo, ..., hi - 1`. -/
def kl_over (comparer : tpdf) (comparee : List Nat) (lo hi : Nat) : Int :=
  s32 ((List.range' lo (hi - lo)).foldl (kl_step comparer.qtbl comparee) 0)

/-- The number of weighted unit steps the strict bettor adds to its baseline: the sum,
over the levels which are not diverging, of `weight * (irand - opt_skew)`, the
difference being the 32-bit one. -/
def strict_steps (H : ffsi_header) (d2u : List Nat) (self : ffsi_class) (v : rand_var)
    (cap_legacy cap_unit : Nat) (levels : List tpdf) : Nat :=
  (levels.map (fun level =>
    if level.irand = H.FFSI_DIVERGING then 0
    else level.weight * usub level.irand
      (strict_opt_skew H d2u self cap_legacy cap_unit (u32 (H.RV_TAILORED level v))
        level.irand))).sum

/-- The contribution of a level which is not diverging to the result of the soft
bettor: what the level adds to a `new_cap` of 0. -/
def soft_contrib (H : ffsi_header) (self : ffsi_class) (cap_legacy min_cap max_cap : Nat)
    (level : tpdf) : Nat :=
  soft_level H self cap_legacy min_cap max_cap 0 level

/-- The memo table `kld_ref` of the search at the exit of its `do ... while` loop. -/
def gs_memo (kl : Nat → Int) (max_var fuel : Nat) : Option (List Int) :=
  gs_descend kl 0 fuel fuel
    { lmost := 0, rmost := usub max_var 1,
      hop_width := u32 (2 ^ ilog2 max_var) / ilog2 max_var,
      kld_ref := List.replicate 16 kld_unset }

/-- The threshold of the final scan of the search: `abs` of the sentinel, 269488145. -/
def kld_top : Int := abs_int kld_unset

/-- The divergence which `__gs_on_kld` evaluates at reference `cur`. -/
def kld_at (H : ffsi_header) (targ : tpdf) (mold : List Nat) (cur : Nat) : Int :=
  kl_asymm_diversity targ (mold.drop (cur * H.FFSI_QUANT_STEP)) kld_plane.KLD_RPLANE

/-- Every entry of the memo table holds the sentinel or the divergence of its index. -/
def memo_ok (kl : Nat → Int) (kld : List Int) : Prop :=
  kld.length = 16 ∧ ∀ j, j < 16 → kld.getD j 0 = kld_unset ∨ kld.getD j 0 = kl j

/-- What the final scan of the search has found after the indices below `n`: nothing
below the threshold, or the lowest index of the least `abs` value. -/
def scan_inv (kld : List Int) (n : Nat) (st : Int × Nat) : Prop :=
  (st = (kld_unset, 0) ∧ ∀ j, j < n → ¬ abs_int (kld.getD j 0) < kld_top) ∨
  (st.2 < n ∧ st.1 = kld.getD st.2 0 ∧ abs_int (kld.getD st.2 0) < kld_top ∧
    ∀ j, j < n → abs_int (kld.getD st.2 0) ≤ abs_int (kld.getD j 0) ∧
      (abs_int (kld.getD j 0) = abs_int (kld.getD st.2 0) → st.2 ≤ j))

/-- A sequence of rounds of the loop of `learn` on one level, one per sample. -/
def learn_level (H : ffsi_header) (level : tpdf) (vs : List rand_var) : tpdf :=
  vs.foldl (fun t v => collapse_level H v t) level

/-- The window occupancy of a level is insufficient for a search. -/
def short_of_samples (H : ffsi_header) (l : tpdf) : Prop :=
  (l.win_infty = false ∧ l.window_count < l.window_size) ∨
    (l.win_infty = true ∧ l.window_count < H.FFSI_TPDF_CUMSUM)

/-- What `infer` may change of a level: nothing but `irand`, and not even that when the
window occupancy is insufficient. -/
def infer_keeps (H : ffsi_header) (l l' : tpdf) : Prop :=
  l' = { l with irand := l'.irand } ∧ (short_of_samples H l → l' = l)

/-- No 32-bit product of the round of the soft bettor wraps for a level of weight `w` at
index `i`: the two products inside `mult_frac` (quotient times numerator, remainder
times numerator) and the product with the weight. -/
def soft_no_wrap (self : ffsi_class) (cap_legacy min_cap max_cap w i : Nat) : Prop :=
  if i < self.stats.rand_neutral then
    usub cap_legacy min_cap / self.stats.rand_neutral * i < 4294967296 ∧
    usub cap_legacy min_cap % self.stats.rand_neutral * i < 4294967296 ∧
    w * (u32 (min_cap + mult_frac (usub cap_legacy min_cap) i self.stats.rand_neutral) >>>
      self.capa_denom) < 4294967296
  else if i > self.stats.rand_neutral then
    usub max_cap cap_legacy / usub (usub self.resilience self.stats.rand_neutral) 1 *
      usub (usub self.resilience i) 1 < 4294967296 ∧
    usub max_cap cap_legacy % usub (usub self.resilience self.stats.rand_neutral) 1 *
      usub (usub self.resilience i) 1 < 4294967296 ∧
    w * (usub max_cap (mult_frac (usub max_cap cap_legacy) (usub (usub self.resilience i) 1)
      (usub (usub self.resilience self.stats.rand_neutral) 1)) >>> self.capa_denom) < 4294967296
  else
    w * (cap_legacy >>> self.capa_denom) < 4294967296

/-- The capacity which the soft bettor interpolates for a level at index `i`, before the
shift and the weight, in exact arithmetic. -/
def soft_cap_exact (self : ffsi_class) (cap_legacy min_cap max_cap i : Nat) : Nat :=
  if i < self.stats.rand_neutral then
    min_cap + (cap_legacy - min_cap) * i / self.stats.rand_neutral
  else if i > self.stats.rand_neutral then
    max_cap - (max_cap - cap_legacy) * (self.resilience - i - 1) /
      (self.resilience - self.stats.rand_neutral - 1)
  else cap_legacy

/-- The invariant of a finite-window level under `learn`, for `FFSI_TPDF_CUMSUM = C` and a
bound `B`: the ring buffer holds `window_count` buckets, at most `window_size`; every
bucket count is at most an offset plus the number of times the bucket is recorded in the
ring buffer, where the offsets add up to at most `B` and are all zero as long as the
rescale is pending; and `B` is at least `(window_size + 1) * C / window_size` as long as
the rescale is pending. -/
def fin_inv (C B : Nat) (t : tpdf) : Prop :=
  t.cache.length = t.window_count ∧ t.window_count ≤ t.window_size ∧
  (t.need_rescale = true → (t.window_size + 1) * C / t.window_size ≤ B) ∧
  ∃ K : List Nat, K.length = t.qtbl.length ∧
    (∀ b, t.qtbl.getD b 0 ≤ K.getD b 0 + t.cache.count b) ∧
    K.sum ≤ B ∧ (t.need_rescale = true → K.sum = 0)

/-! ## Concrete inputs -/

/-- A header with `FFSI_TPDF_CUMSUM = 4`, rows of 4 buckets, `FFSI_DIVERGING` the
all-ones pattern, and the bucket of a sample being its value. -/
def ex_header : ffsi_header :=
  { FFSI_TPDF_CUMSUM := 4, FFSI_QUANT_STEP := 4, FFSI_DIVERGING := 4294967295,
    RV_TAILORED := fun _ v => v.nval }

/-- A fresh unbounded-window level with 4 buckets. -/
def ex_level_inf : tpdf :=
  { qtbl := [0, 0, 0, 0], weight := 1, win_infty := true, window_size := 0,
    window_count := 0, need_rescale := false, pc_cnt := 0, cache := [],
    irand := 4294967295 }

/-- A fresh level with 4 buckets and a window of 2 samples, its rescale pending. -/
def ex_level_fin : tpdf :=
  { qtbl := [0, 0, 0, 0], weight := 2, win_infty := false, window_size := 2,
    window_count := 0, need_rescale := true, pc_cnt := 0, cache := [],
    irand := 4294967295 }

/-- A vessel of resilience 8 with the two fresh levels, theta = 1/2 and gamma = 2/1. -/
def ex_vessel : ffsi_class :=
  { resilience := 8, epsilon := 43000, max_capa := 0, min_capa := 0,
    elasticity := { theta_numer := 1, theta_denom := 2, gamma_numer := 2, gamma_denom := 1 },
    tpdf_cascade := [ex_level_inf, ex_level_fin], capa_denom := 1,
    stats := { choke_cnt := 0, save_total := 0, rand_neutral := 4, throttling := 0 } }

/-- A sample which is not saturated and falls into bucket 3. -/
def ex_sample : rand_var := { nval := 3, ubound := 4 }

/-- A saturated sample. -/
def ex_choke : rand_var := { nval := 4, ubound := 4 }

/-- A histogram with 4 buckets, one of them with the largest 32-bit count. -/
def ex_hist : tpdf :=
  { qtbl := [5, 0, 1024, 4294967295], weight := 1, win_infty := true, window_size := 0,
    window_count := 0, need_rescale := false, pc_cnt := 0, cache := [], irand := 0 }

/-- A histogram whose only count is in bucket `qlvl / 2 = 2`. -/
def ex_mid : tpdf :=
  { qtbl := [0, 0, 2, 0], weight := 1, win_infty := true, window_size := 0,
    window_count := 0, need_rescale := false, pc_cnt := 0, cache := [], irand := 0 }

/-- An unbounded-window level which has learned 4 samples and is ready for a search. -/
def ex_ready : tpdf :=
  { qtbl := [0, 0, 1, 3], weight := 1, win_infty := true, window_size := 0,
    window_count := 4, need_rescale := false, pc_cnt := 0, cache := [],
    irand := 4294967295 }

/-- A reference table of 8 rows of 4 buckets. -/
def ex_mold : List Nat :=
  [4, 0, 0, 0,  3, 1, 0, 0,  2, 2, 0, 0,  1, 2, 1, 0,
   1, 1, 1, 1,  0, 1, 2, 1,  0, 0, 2, 2,  0, 0, 1, 3]

/-- A vessel of resilience 8 whose first level is ready for a search. -/
def ex_ready_vessel : ffsi_class := { ex_vessel with tpdf_cascade := [ex_ready, ex_level_fin] }

/-- A header with rows of 2 buckets, for the histogram `hit_level`. -/
def hit_header : ffsi_header :=
  { FFSI_TPDF_CUMSUM := 4, FFSI_QUANT_STEP := 2, FFSI_DIVERGING := 4294967295,
    RV_TAILORED := fun _ v => v.nval }

/-- A level with 2 buckets whose divergence against the first row of `hit_mold` is the
value of the sentinel `__INFTY`. -/
def hit_level : tpdf :=
  { qtbl := [0, 53356034], weight := 1, win_infty := true, window_size := 0,
    window_count := 4, need_rescale := false, pc_cnt := 0, cache := [],
    irand := 4294967295 }

/-- A reference table of 2 rows of 2 buckets. -/
def hit_mold : List Nat := [0, 1124073472, 0, 1]

/-- A reference table of 8 rows of 4 buckets: rows 0 and 1 have no mass in bucket 3,
the other rows have mass 1 there. -/
def bet_table : List Nat :=
  [4, 0, 0, 0,  4, 0, 0, 0,  1, 1, 1, 1,  1, 1, 1, 1,
   1, 1, 1, 1,  1, 1, 1, 1,  1, 1, 1, 1,  1, 1, 1, 1]

/-- A level with inferred index `i` and weight `w`. -/
def bet_level (i w : Nat) : tpdf :=
  { qtbl := [0, 0, 0, 0], weight := w, win_infty := true, window_size := 0,
    window_count := 4, need_rescale := false, pc_cnt := 0, cache := [], irand := i }

/-- A vessel of resilience 8 with theta = 1/2, gamma = 2/1 and `capa_denom = 2`, with
one level at index 3 and one diverging level. -/
def bet_vessel : ffsi_class :=
  { resilience := 8, epsilon := 43000, max_capa := 0, min_capa := 0,
    elasticity := { theta_numer := 1, theta_denom := 2, gamma_numer := 2, gamma_denom := 1 },
    tpdf_cascade := [bet_level 3 1, bet_level 4294967295 2], capa_denom := 2,
    stats := { choke_cnt := 0, save_total := 0, rand_neutral := 4, throttling := 0 } }

/-- A vessel of resilience 8 with theta = 1/2, gamma = 1/1 and `capa_denom = 0`, with
one level of weight 1 at index `i`. -/
def tight_vessel (i : Nat) : ffsi_class :=
  { resilience := 8, epsilon := 43000, max_capa := 0, min_capa := 0,
    elasticity := { theta_numer := 1, theta_denom := 2, gamma_numer := 1, gamma_denom := 1 },
    tpdf_cascade := [bet_level i 1], capa_denom := 0,
    stats := { choke_cnt := 0, save_total := 0, rand_neutral := 4, throttling := 0 } }

/-- A reference table of 8 rows of 4 buckets none of which has mass in bucket 3. -/
def flat_table : List Nat :=
  [1, 0, 0, 0,  1, 0, 0, 0,  1, 0, 0, 0,  1, 0, 0, 0,
   1, 0, 0, 0,  1, 0, 0, 0,  1, 0, 0, 0,  1, 0, 0, 0]

/-- A reference table of 8 rows of 4 buckets: only row 0 has no mass in bucket 3. -/
def steep_table : List Nat :=
  [1, 0, 0, 0,  0, 0, 0, 1,  0, 0, 0, 1,  0, 0, 0, 1,
   0, 0, 0, 1,  0, 0, 0, 1,  0, 0, 0, 1,  0, 0, 0, 1]

/-- A vessel as `ffsi_obj_creator` leaves it, for a resilience of 8: an empty cascade,
`epsilon = 43000`, `capa_denom = 0` and zeroed statistics (the neutral index being 4). -/
def new_vessel : ffsi_class := { ex_vessel with tpdf_cascade := [], capa_denom := 0 }

/-- Three levels which differ in their weight and inferred index; none of them has
learned a sample yet. -/
def lvl_a : tpdf := { ex_level_inf with weight := 1, irand := 1 }

/-- The second of the three levels. -/
def lvl_b : tpdf := { ex_level_inf with weight := 2, irand := 2 }

/-- The third of the three levels. -/
def lvl_c : tpdf := { ex_level_inf with weight := 3, irand := 3 }

/-- A fresh level with 16 buckets and a window of 4 samples, its rescale pending. -/
def ring_level : tpdf :=
  { qtbl := List.replicate 16 0, weight := 1, win_infty := false, window_size := 4,
    window_count := 0, need_rescale := true, pc_cnt := 0, cache := [],
    irand := 4294967295 }

/-- A vessel whose cascade is the level `ring_level`. -/
def ring_vessel : ffsi_class := { ex_vessel with tpdf_cascade := [ring_level] }

/-- A sample with upper bound 16 which falls into bucket `b`. -/
def ring_sample (b : Nat) : rand_var := { nval := b, ubound := 16 }

/-- The level `ring_level` after the samples of the buckets 8, 9, 10 and 11. -/
def ring_full : tpdf :=
  { ring_level with
    qtbl := [0, 0, 0, 0, 0, 0, 0, 0, 1, 1, 1, 1, 0, 0, 0, 0], window_count := 4,
    cache := [8, 9, 10, 11] }

/-- A vessel with `capa_denom = 2` whose cascade is a diverging level followed by a level
at index 3. -/
def late_vessel : ffsi_class :=
  { bet_vessel with tpdf_cascade := [bet_level 4294967295 2, bet_level 3 1] }

/-- A level with 2 buckets whose divergences against the rows of `big_mold` are
402653184 and 285212672, both above the threshold 269488145 of the final scan. -/
def big_level : tpdf :=
  { qtbl := [0, 16777216], weight := 1, win_infty := true, window_size := 0,
    window_count := 4, need_rescale := false, pc_cnt := 0, cache := [],
    irand := 4294967295 }

/-- A reference table of 2 rows of 2 buckets. -/
def big_mold : List Nat := [0, 1, 0, 128]

/-- A reference table of 8 rows of 4 buckets; the divergences of `ex_ready` against its
rows are -24, -20, -16, -12, -8, -4, 0 and -4. -/
def probe_mold : List Nat :=
  [0, 0, 64, 192,  0, 0, 32, 96,  0, 0, 16, 48,  0, 0, 8, 24,
   0, 0, 4, 12,  0, 0, 2, 6,  0, 0, 1, 3,  0, 0, 2, 6]

/-- A vessel built from three levels at the neutral index 4 with the weights 2, 1 and 1. -/
def pow_vessel : ffsi_class :=
  ffsi_build_tpdf_cascade new_vessel (bet_level 4 2) (bet_level 4 1) (bet_level 4 1)

/-- A vessel built from three levels at the neutral index 4 with the weights 4, 2 and 1. -/
def odd_vessel : ffsi_class :=
  ffsi_build_tpdf_cascade new_vessel (bet_level 4 4) (bet_level 4 2) (bet_level 4 1)

/-- The memo table of the search of `ex_ready` in `probe_mold`: the indices 0, 2, 4, 6 and
7 are evaluated. -/
def probe_memo : List Int :=
  [-24, kld_unset, -16, kld_unset, -8, kld_unset, 0, -4,
   kld_unset, kld_unset, kld_unset, kld_unset, kld_unset, kld_unset, kld_unset, kld_unset]

/-- A vessel of resilience 8 and neutral index 4 with levels at the indices 0, 3, 4, 5
and 7 and a diverging level. -/
def span_vessel : ffsi_class :=
  { bet_vessel with
    tpdf_cascade := [bet_level 0 1, bet_level 3 1, bet_level 4 1, bet_level 5 1, bet_level 7 1,
      bet_level 4294967295 1] }

/-- A vessel of resilience 8 and neutral index 7 whose level is at index 8, which is not
below the resilience. -/
def edge_vessel : ffsi_class :=
  { bet_vessel with
    stats := { choke_cnt := 0, save_total := 0, rand_neutral := 7, throttling := 0 },
    tpdf_cascade := [bet_level 8 1] }

/-- The state of the `do ... while` loop of the search of `hit_level` in `hit_mold` after
a pass: the entry of index 0 still holds the sentinel. -/
def hit_state : gs_state :=
  { lmost := 0, rmost := 1, hop_width := 2,
    kld_ref := kld_unset :: kld_at hit_header hit_level hit_mold 1 ::
      List.replicate 14 kld_unset }

/-- A sample which is not saturated and falls into bucket 1. -/
def low_sample : rand_var := { nval := 1, ubound := 4 }

/-! ## Lemmas on the machine arithmetic and on lists -/

theorem u32_le (n : Nat) : u32 n ≤ n := Nat.mod_le _ _

theorem u32_of_lt {n : Nat} (h : n < 4294967296) : u32 n = n := Nat.mod_eq_of_lt h

theorem sum_set_getD_le (l : List Nat) (i v : Nat) (hv : v ≤ l.getD i 0 + 1) :
    (l.set i v).sum ≤ l.sum + 1 := by
  induction l generalizing i with
  | nil => simp
  | cons a l ih =>
    cases i with
    | zero =>
      simp only [List.set_cons_zero, List.sum_cons]
      simp only [List.getD_cons_zero] at hv
      omega
    | succ i =>
      simp only [List.set_cons_succ, List.sum_cons]
      simp only [List.getD_cons_succ] at hv
      have := ih i hv
      omega

theorem sum_qtbl_incr_le (l : List Nat) (i : Nat) : (qtbl_incr l i).sum ≤ l.sum + 1 :=
  sum_set_getD_le l i _ (u32_le _)

theorem sum_map_half_le (l : List Nat) : 2 * (l.map (fun q => q / 2)).sum ≤ l.sum := by
  induction l with
  | nil => simp
  | cons a l ih =>
    simp only [List.map_cons, List.sum_cons]
    omega

theorem sum_eq_zero_of_all_zero (l : List Nat) (h : ∀ q ∈ l, q = 0) : l.sum = 0 := by
  induction l with
  | nil => rfl
  | cons a l ih =>
    simp only [List.sum_cons]
    have h1 := h a (List.mem_cons_self a l)
    have h2 := ih (fun q hq => h q (List.mem_cons_of_mem a hq))
    omega

theorem u32_lt (n : Nat) : u32 n < 4294967296 := Nat.mod_lt _ (by decide)

theorem u32_add_u32 (a b : Nat) : u32 (a + u32 b) = u32 (a + b) := by
  unfold u32; omega

theorem u32_u32_add (a b : Nat) : u32 (u32 a + b) = u32 (a + b) := by
  unfold u32; omega

theorem mult_frac_lt (x n d : Nat) : mult_frac x n d < 4294967296 := u32_lt _

theorem of_int_s32_mul (x w : Nat) : of_int (s32 (u32 x) * (w : Int)) = u32 (x * w) := by
  have key : (s32 (u32 x) * (w : Int)) % 4294967296 = ((x * w : Nat) : Int) % 4294967296 := by
    have h1 : s32 (u32 x) % 4294967296 = (x : Int) % 4294967296 := by
      unfold s32 u32
      split_ifs <;> omega
    rw [Int.mul_emod, h1, ← Int.mul_emod]
    push_cast
    rfl
  unfold of_int
  rw [key]
  unfold u32
  omega

theorem isEmpty_false_of_ne {α : Type} {l : List α} (h : l ≠ []) : l.isEmpty = false := by
  cases l with
  | nil => exact absurd rfl h
  | cons a l => rfl

theorem usub_of_le {a b : Nat} (ha : a < 4294967296) (hb : b ≤ a) : usub a b = a - b := by
  unfold usub u32
  omega

theorem mult_frac_chk_some (x n d : Nat) (hd : d ≠ 0) :
    mult_frac_chk x n d = some (mult_frac x n d) := by
  unfold mult_frac_chk
  rw [if_neg hd]

theorem ilog2_aux_spec : ∀ (fuel n : Nat), 1 ≤ n → n < 2 ^ fuel →
    2 ^ ilog2_aux fuel n ≤ n ∧ n < 2 ^ (ilog2_aux fuel n + 1) := by
  intro fuel
  induction fuel with
  | zero => intro n h1 h2; simp at h2; omega
  | succ fuel ih =>
    intro n h1 h2
    by_cases h : 2 ≤ n
    · have hstep : ilog2_aux (fuel + 1) n = ilog2_aux fuel (n / 2) + 1 := by
        simp only [ilog2_aux, h, if_true]
      have hlt : n / 2 < 2 ^ fuel := by
        rw [Nat.pow_succ] at h2
        omega
      obtain ⟨a, b⟩ := ih (n / 2) (by omega) hlt
      rw [hstep]
      constructor
      · rw [Nat.pow_succ]; omega
      · rw [Nat.pow_succ] at b ⊢
        rw [Nat.pow_succ]
        omega
    · have hstep : ilog2_aux (fuel + 1) n = 0 := by
        simp only [ilog2_aux, h, if_false]
      rw [hstep]
      constructor <;> simp <;> omega

theorem ilog2_spec (p : Nat) (h1 : 1 ≤ p) (h32 : p < 4294967296) :
    2 ^ ilog2 p ≤ p ∧ p < 2 * 2 ^ ilog2 p ∧ u32 (2 ^ ilog2 p) = 2 ^ ilog2 p := by
  obtain ⟨a, b⟩ := ilog2_aux_spec 32 p h1 (by norm_num; exact h32)
  refine ⟨a, ?_, u32_of_lt (by unfold ilog2; omega)⟩
  rw [Nat.pow_succ] at b
  unfold ilog2
  omega

theorem mult_frac_below (x b : Nat) (hx : x < b) (hb : b < 4294967296) :
    mult_frac x 64 b < 64 := by
  unfold mult_frac
  have hq : x / b = 0 := Nat.div_eq_of_lt hx
  have hm : x % b = x := Nat.mod_eq_of_lt hx
  rw [hq, hm, Nat.zero_mul]
  have h0 : u32 0 = 0 := rfl
  rw [h0, Nat.zero_add]
  have hd : u32 (x * 64) / b < 64 := by
    rw [Nat.div_lt_iff_lt_mul (by omega)]
    by_cases hw : x * 64 < 4294967296
    · rw [u32_of_lt hw]; omega
    · have := u32_lt (x * 64)
      omega
  rw [u32_of_lt (by omega)]
  exact hd

theorem s64_of_range (x : Int) (h1 : -9223372036854775808 ≤ x) (h2 : x < 9223372036854775808) :
    s64 x = x := by
  unfold s64
  omega

theorem mult_frac_exact (x n d : Nat) (hd : 0 < d) (h1 : x / d * n < 4294967296)
    (h2 : x % d * n < 4294967296) (h3 : x * n / d < 4294967296) :
    mult_frac x n d = x * n / d := by
  have e : x * n = d * (x / d * n) + x % d * n := by
    conv_lhs => rw [← Nat.div_add_mod x d]
    rw [Nat.add_mul, Nat.mul_assoc]
  have e3 : x * n / d = x / d * n + x % d * n / d := by
    conv_lhs => rw [e, Nat.mul_add_div hd]
  unfold mult_frac
  rw [u32_of_lt h1, u32_of_lt h2, ← e3, u32_of_lt h3]

theorem sum_le_of_getD_le : ∀ (q K : List Nat), q.length = K.length →
    (∀ b, q.getD b 0 ≤ K.getD b 0) → q.sum ≤ K.sum := by
  intro q
  induction q with
  | nil => intro K _ _; simp
  | cons a q ih =>
    intro K hl hp
    cases K with
    | nil => simp at hl
    | cons k K =>
      have h0 := hp 0
      simp only [List.getD_cons_zero] at h0
      have := ih K (by simpa using hl) (fun b => by simpa using hp (b + 1))
      simp only [List.sum_cons]
      omega

theorem getD_set_le (K : List Nat) (c b : Nat) :
    (K.set c (K.getD c 0 + 1)).getD b 0 ≤ K.getD b 0 + (if b = c then 1 else 0) ∧
    (c < K.length → (K.set c (K.getD c 0 + 1)).getD c 0 = K.getD c 0 + 1) := by
  constructor
  · by_cases hbc : b = c
    · subst hbc
      simp only [List.getD_eq_getElem?_getD, List.getElem?_set, if_true]
      split_ifs <;> simp
    · simp [List.getD_eq_getElem?_getD, List.getElem?_set, Ne.symm hbc, hbc]
  · intro hc
    simp [List.getD_eq_getElem?_getD, List.getElem?_set, hc]

theorem sum_le_add_count : ∀ (l : List Nat) (q K : List Nat), q.length = K.length →
    (∀ b, q.getD b 0 ≤ K.getD b 0 + l.count b) → q.sum ≤ K.sum + l.length := by
  intro l
  induction l with
  | nil =>
    intro q K hl hp
    have := sum_le_of_getD_le q K hl (fun b => by simpa using hp b)
    simpa using this
  | cons c l ih =>
    intro q K hl hp
    by_cases hc : c < K.length
    · have hs := sum_set_getD_le K c (K.getD c 0 + 1) (Nat.le_refl _)
      have := ih q (K.set c (K.getD c 0 + 1)) (by simpa using hl) (fun b => by
        have h1 := hp b
        rw [List.count_cons] at h1
        by_cases hbc : b = c
        · subst hbc
          rw [(getD_set_le K b b).2 hc]
          simp only [beq_self_eq_true, if_true] at h1
          omega
        · have e : (K.set c (K.getD c 0 + 1)).getD b 0 = K.getD b 0 := by
            simp [List.getD_eq_getElem?_getD, List.getElem?_set, Ne.symm hbc]
          have e2 : (c == b) = false := by simp [Ne.symm hbc]
          rw [e]
          simp only [e2] at h1
          simpa using h1)
      simp only [List.length_cons]
      omega
    · have := ih q K hl (fun b => by
        have h1 := hp b
        rw [List.count_cons] at h1
        by_cases hbc : b = c
        · subst hbc
          have e : q.getD b 0 = 0 := List.getD_eq_default _ _ (by omega)
          rw [e]
          omega
        · have e2 : (c == b) = false := by simp [Ne.symm hbc]
          simp only [e2] at h1
          simpa using h1)
      simp only [List.length_cons]
      omega

theorem mult_frac_le (q C W : Nat) (hW : 0 < W) : mult_frac q C W ≤ q * C / W := by
  have e : q * C = W * (q / W * C) + q % W * C := by
    conv_lhs => rw [← Nat.div_add_mod q W]
    rw [Nat.add_mul, Nat.mul_assoc]
  have e3 : q * C / W = q / W * C + q % W * C / W := by
    conv_lhs => rw [e, Nat.mul_add_div hW]
  unfold mult_frac
  have h1 := u32_le (u32 (q / W * C) + u32 (q % W * C) / W)
  have h2 := u32_le (q / W * C)
  have h3 : u32 (q % W * C) / W ≤ q % W * C / W := Nat.div_le_div_right (u32_le _)
  omega

theorem sum_rescaled_le (C W : Nat) (hW : 0 < W) : ∀ (q : List Nat),
    (q.map (fun x => mult_frac x C W)).sum ≤ q.sum * C / W := by
  intro q
  induction q with
  | nil => simp
  | cons a q ih =>
    simp only [List.map_cons, List.sum_cons]
    have h1 := mult_frac_le a C W hW
    have h2 : a * C / W + q.sum * C / W ≤ (a + q.sum) * C / W := by
      rw [Nat.le_div_iff_mul_le hW, Nat.add_mul, Nat.add_mul]
      have := Nat.div_mul_le_self (a * C) W
      have := Nat.div_mul_le_self (q.sum * C) W
      omega
    omega

theorem collapse_level_win_infty (H : ffsi_header) (v : rand_var) (t : tpdf) :
    (collapse_level H v t).win_infty = t.win_infty := by
  unfold collapse_level ffsi_tpdf_equilibrator ffsi_tpdf_carving_out ffsi_tpdf_rescaler
  simp only []
  split_ifs <;> rfl

theorem collapse_level_window_size (H : ffsi_header) (v : rand_var) (t : tpdf) :
    (collapse_level H v t).window_size = t.window_size := by
  unfold collapse_level ffsi_tpdf_equilibrator ffsi_tpdf_carving_out ffsi_tpdf_rescaler
  simp only []
  split_ifs <;> rfl

theorem collapse_level_inf_ok (H : ffsi_header) (hC : H.FFSI_TPDF_CUMSUM < 4294967296)
    (v : rand_var) (t : tpdf) (hin : t.win_infty = true) (h : inf_ok H t) :
    inf_ok H (collapse_level H v t) := by
  obtain ⟨h1, h2, h3⟩ := h
  have hs := sum_qtbl_incr_le t.qtbl (u32 (H.RV_TAILORED t v))
  have hh := sum_map_half_le (qtbl_incr t.qtbl (u32 (H.RV_TAILORED t v)))
  have hpc : u32 (t.pc_cnt + 1) = t.pc_cnt + 1 := u32_of_lt (by omega)
  unfold collapse_level
  simp only [hin, if_true]
  split_ifs with hsc hcnt
  · exact ⟨h1, h2, h3⟩
  · unfold ffsi_tpdf_equilibrator
    simp only [hpc]
    split_ifs with heq
    · refine ⟨?_, ?_, ?_⟩ <;> dsimp only <;> omega
    · refine ⟨?_, ?_, ?_⟩ <;> dsimp only <;> omega
  · refine ⟨?_, ?_, ?_⟩ <;> dsimp only <;> omega

theorem learn_cascade (H : ffsi_header) (self : ffsi_class) (v : rand_var) :
    (ffsi_job_probability_collapse H self v).tpdf_cascade = self.tpdf_cascade ∨
    (ffsi_job_probability_collapse H self v).tpdf_cascade =
      self.tpdf_cascade.map (collapse_level H v) := by
  unfold ffsi_job_probability_collapse
  split_ifs
  · exact Or.inl rfl
  · exact Or.inl rfl
  · exact Or.inr rfl

theorem learn_all_append (H : ffsi_header) (self : ffsi_class) (vs : List rand_var)
    (v : rand_var) :
    learn_all H self (vs ++ [v]) = ffsi_job_probability_collapse H (learn_all H self vs) v := by
  simp [learn_all, List.foldl_append]

theorem learn_all_inf_ok (H : ffsi_header) (hC : H.FFSI_TPDF_CUMSUM < 4294967296)
    (self : ffsi_class) (vs : List rand_var)
    (h0 : ∀ t ∈ self.tpdf_cascade, t.win_infty = true → inf_ok H t) :
    ∀ t ∈ (learn_all H self vs).tpdf_cascade, t.win_infty = true → inf_ok H t := by
  induction vs using List.reverseRecOn with
  | nil => exact h0
  | append_singleton vs v ih =>
    rw [learn_all_append]
    intro t ht hin
    rcases learn_cascade H (learn_all H self vs) v with h | h
    · rw [h] at ht
      exact ih t ht hin
    · rw [h, List.mem_map] at ht
      obtain ⟨t0, ht0, rfl⟩ := ht
      rw [collapse_level_win_infty] at hin
      exact collapse_level_inf_ok H hC v t0 hin (ih t0 ht0 hin)

theorem collapse_level_fin_ok (H : ffsi_header) (v : rand_var) (t : tpdf) (n : Nat)
    (hin : t.win_infty = false) (h : fin_ok n t) : fin_ok (n + 1) (collapse_level H v t) := by
  intro hn
  rw [collapse_level_window_size] at hn
  obtain ⟨h1, h2⟩ := h (by omega)
  have hs := sum_qtbl_incr_le t.qtbl (u32 (H.RV_TAILORED t v))
  unfold collapse_level
  simp only [hin, Bool.false_eq_true, if_false]
  split_ifs with hsc hcnt
  · exact ⟨h1, by omega⟩
  · exact absurd hcnt (by omega)
  · refine ⟨?_, ?_⟩ <;> dsimp only <;> omega

theorem fin_ok_mono {n : Nat} {t : tpdf} (h : fin_ok n t) : fin_ok (n + 1) t := by
  intro hn
  obtain ⟨h1, h2⟩ := h (by omega)
  exact ⟨h1, by omega⟩

theorem learn_all_fin_ok (H : ffsi_header) (self : ffsi_class) (vs : List rand_var)
    (h0 : ∀ t ∈ self.tpdf_cascade, t.win_infty = false → fin_ok 0 t) :
    ∀ t ∈ (learn_all H self vs).tpdf_cascade, t.win_infty = false → fin_ok vs.length t := by
  induction vs using List.reverseRecOn with
  | nil => exact h0
  | append_singleton vs v ih =>
    rw [learn_all_append, List.length_append, List.length_singleton]
    intro t ht hin
    rcases learn_cascade H (learn_all H self vs) v with h | h
    · rw [h] at ht
      exact fin_ok_mono (ih t ht hin)
    · rw [h, List.mem_map] at ht
      obtain ⟨t0, ht0, rfl⟩ := ht
      rw [collapse_level_win_infty] at hin
      exact collapse_level_fin_ok H v t0 vs.length hin (ih t0 ht0 hin)

theorem fresh_inf_ok (H : ffsi_header) (hC : 0 < H.FFSI_TPDF_CUMSUM) (t : tpdf)
    (h : t.fresh) : inf_ok H t := by
  obtain ⟨h1, h2, h3⟩ := h
  have := sum_eq_zero_of_all_zero t.qtbl h1
  refine ⟨?_, ?_, ?_⟩ <;> omega

theorem fresh_fin_ok (t : tpdf) (h : t.fresh) : fin_ok 0 t := by
  obtain ⟨h1, h2, h3⟩ := h
  have := sum_eq_zero_of_all_zero t.qtbl h1
  intro _
  refine ⟨?_, ?_⟩ <;> omega

/-- A fresh one-bucket level of an unbounded window after `n` samples, `n` at most
`FFSI_TPDF_CUMSUM`: the bucket and the window count are `n`. -/
theorem learn_fills (C D : Nat) (vessel : ffsi_class) (t : tpdf)
    (ht : t.win_infty = true ∧ t.pc_cnt = 0) (hC : C < 4294967295) :
    ∀ n, n ≤ C →
      (learn_all ⟨C, 1, D, fun _ _ => 0⟩
          { vessel with tpdf_cascade := [{ t with qtbl := [0], window_count := 0 }] }
          (List.replicate n ⟨0, 1⟩)).tpdf_cascade =
        [{ t with qtbl := [n], window_count := n }] := by
  intro n
  induction n with
  | zero => intro _; rfl
  | succ n ih =>
    intro hn
    rw [List.replicate_succ', learn_all_append]
    have e := ih (by omega)
    unfold ffsi_job_probability_collapse
    rw [e]
    simp only [List.isEmpty_cons, Bool.false_eq_true, if_false, List.map_cons, List.map_nil,
      show ¬ ((0 : Nat) = 1) by omega]
    have hstep : collapse_level ⟨C, 1, D, fun _ _ => 0⟩ ⟨0, 1⟩
        { t with qtbl := [n], window_count := n } =
        { t with qtbl := [n + 1], window_count := n + 1 } := by
      unfold collapse_level
      have hu : u32 (n + 1) = n + 1 := u32_of_lt (by omega)
      have hq : qtbl_incr [n] 0 = [n + 1] := by
        simp [qtbl_incr, hu]
      have hnC : ¬ (n ≥ C) := by omega
      simp [tpdf.qlvl, show u32 0 = 0 from rfl, ht.1, hq, hnC]
    rw [hstep]

/-- Whatever value at least 2 the constant `FFSI_TPDF_CUMSUM` has, `FFSI_TPDF_CUMSUM + 1`
samples bring the only bucket of a fresh unbounded-window level to
`FFSI_TPDF_CUMSUM + 1`. -/
theorem learn_overshoots (C D : Nat) (vessel : ffsi_class) (t : tpdf)
    (ht : t.win_infty = true ∧ t.pc_cnt = 0) (h2 : 2 ≤ C) (hC : C < 4294967295) :
    (learn_all ⟨C, 1, D, fun _ _ => 0⟩
        { vessel with tpdf_cascade := [{ t with qtbl := [0], window_count := 0 }] }
        (List.replicate (C + 1) ⟨0, 1⟩)).tpdf_cascade.map (fun l => l.qtbl.sum) = [C + 1] := by
  rw [List.replicate_succ', learn_all_append]
  have e := learn_fills C D vessel t ht hC C (Nat.le_refl C)
  unfold ffsi_job_probability_collapse
  rw [e]
  simp only [List.isEmpty_cons, Bool.false_eq_true, if_false, List.map_cons, List.map_nil,
    show ¬ ((0 : Nat) = 1) by omega]
  have hstep : collapse_level ⟨C, 1, D, fun _ _ => 0⟩ ⟨0, 1⟩
      { t with qtbl := [C], window_count := C } =
      { t with qtbl := [C + 1], window_count := C, pc_cnt := 1 } := by
    unfold collapse_level
    have hu : u32 (C + 1) = C + 1 := u32_of_lt (by omega)
    have hq : qtbl_incr [C] 0 = [C + 1] := by
      simp [qtbl_incr, hu]
    have h1 : ¬ (1 = C) := by omega
    simp [tpdf.qlvl, show u32 0 = 0 from rfl, show u32 1 = 1 from rfl, ht.1, ht.2, hq,
      ffsi_tpdf_equilibrator, h1]
  rw [hstep]
  simp

theorem collapse_level_count_le (H : ffsi_header) (v : rand_var) (t : tpdf)
    (hin : t.win_infty = false) (h : t.window_count ≤ t.window_size) :
    (collapse_level H v t).window_count ≤ (collapse_level H v t).window_size := by
  unfold collapse_level ffsi_tpdf_carving_out ffsi_tpdf_rescaler
  simp only [hin, Bool.false_eq_true, if_false]
  split_ifs <;> first | omega | (dsimp only; omega)

theorem learn_all_count_le (H : ffsi_header) (self : ffsi_class) (vs : List rand_var)
    (h0 : ∀ t ∈ self.tpdf_cascade, t.win_infty = false → t.window_count ≤ t.window_size) :
    ∀ t ∈ (learn_all H self vs).tpdf_cascade,
      t.win_infty = false → t.window_count ≤ t.window_size := by
  induction vs using List.reverseRecOn with
  | nil => exact h0
  | append_singleton vs v ih =>
    rw [learn_all_append]
    intro t ht hin
    rcases learn_cascade H (learn_all H self vs) v with h | h
    · rw [h] at ht
      exact ih t ht hin
    · rw [h, List.mem_map] at ht
      obtain ⟨t0, ht0, rfl⟩ := ht
      rw [collapse_level_win_infty] at hin
      exact collapse_level_count_le H v t0 hin (ih t0 ht0 hin)

theorem learn_all_map (H : ffsi_header) (vs : List rand_var) :
    ∀ self : ffsi_class, (∀ v ∈ vs, v.nval ≠ v.ubound) →
      (learn_all H self vs).tpdf_cascade =
        self.tpdf_cascade.map (fun t => learn_level H t vs) := by
  induction vs with
  | nil => intro self _; simp [learn_all, learn_level]
  | cons v vs ih =>
    intro self hv
    have h1 : learn_all H self (v :: vs) =
        learn_all H (ffsi_job_probability_collapse H self v) vs := rfl
    rw [h1, ih _ (fun w hw => hv w (List.mem_cons_of_mem _ hw))]
    have h2 : (ffsi_job_probability_collapse H self v).tpdf_cascade =
        self.tpdf_cascade.map (collapse_level H v) := by
      unfold ffsi_job_probability_collapse
      cases hc : self.tpdf_cascade with
      | nil => simp [hc]
      | cons a l => simp [hv v (List.mem_cons_self _ _)]
    rw [h2, List.map_map]
    rfl

theorem getD_set_self (l : List Nat) (b x : Nat) (h : b < l.length) :
    (l.set b x).getD b 0 = x := by
  simp [List.getD_eq_getElem?_getD, List.getElem?_set, h]

theorem getD_set_other (l : List Nat) (b j x : Nat) (h : j ≠ b) :
    (l.set b x).getD j 0 = l.getD j 0 := by
  simp [List.getD_eq_getElem?_getD, List.getElem?_set, Ne.symm h]

theorem incr_push (q K cache : List Nat) (s : Nat)
    (hp : ∀ b, q.getD b 0 ≤ K.getD b 0 + cache.count b) :
    ∀ b, (qtbl_incr q s).getD b 0 ≤ K.getD b 0 + (cache ++ [s]).count b := by
  intro b
  have h1 := hp b
  unfold qtbl_incr
  rw [List.count_append, List.count_singleton]
  by_cases hbs : b = s
  · subst hbs
    have hu := u32_le (q.getD b 0 + 1)
    simp only [beq_self_eq_true, if_true]
    by_cases hl : b < q.length
    · have : (q.set b (u32 (q.getD b 0 + 1))).getD b 0 = u32 (q.getD b 0 + 1) := by
        simp [List.getD_eq_getElem?_getD, List.getElem?_set, hl]
      omega
    · have : (q.set b (u32 (q.getD b 0 + 1))).getD b 0 = 0 :=
        List.getD_eq_default _ _ (by simp; omega)
      omega
  · have : (q.set s (u32 (q.getD s 0 + 1))).getD b 0 = q.getD b 0 := by
      simp [List.getD_eq_getElem?_getD, List.getElem?_set, Ne.symm hbs]
    omega

theorem decr_le (q : List Nat) (c b : Nat) : (qtbl_decr q c).getD b 0 ≤ q.getD b 0 := by
  unfold qtbl_decr
  by_cases hbc : b = c
  · subst hbc
    by_cases hl : b < q.length
    · have : (q.set b (if q.getD b 0 ≠ 0 then q.getD b 0 - 1 else 0)).getD b 0 =
          (if q.getD b 0 ≠ 0 then q.getD b 0 - 1 else 0) := by
        simp [List.getD_eq_getElem?_getD, List.getElem?_set, hl]
      rw [this]
      split_ifs <;> omega
    · have : (q.set b (if q.getD b 0 ≠ 0 then q.getD b 0 - 1 else 0)).getD b 0 = 0 :=
        List.getD_eq_default _ _ (by simp; omega)
      omega
  · have : (q.set c (if q.getD c 0 ≠ 0 then q.getD c 0 - 1 else 0)).getD b 0 =
        q.getD b 0 := by
      simp [List.getD_eq_getElem?_getD, List.getElem?_set, Ne.symm hbc]
    omega

theorem decr_pop (q K l : List Nat) (c : Nat)
    (hp : ∀ b, q.getD b 0 ≤ K.getD b 0 + (c :: l).count b) :
    ∀ b, (qtbl_decr q c).getD b 0 ≤ K.getD b 0 + l.count b := by
  intro b
  have h1 := hp b
  rw [List.count_cons] at h1
  by_cases hbc : b = c
  · subst hbc
    simp only [beq_self_eq_true, if_true] at h1
    unfold qtbl_decr
    by_cases hl : b < q.length
    · have : (q.set b (if q.getD b 0 ≠ 0 then q.getD b 0 - 1 else 0)).getD b 0 =
          (if q.getD b 0 ≠ 0 then q.getD b 0 - 1 else 0) := by
        simp [List.getD_eq_getElem?_getD, List.getElem?_set, hl]
      rw [this]
      split_ifs <;> omega
    · have : (q.set b (if q.getD b 0 ≠ 0 then q.getD b 0 - 1 else 0)).getD b 0 = 0 :=
        List.getD_eq_default _ _ (by simp; omega)
      omega
  · have e2 : (c == b) = false := by simp [Ne.symm hbc]
    simp only [e2, Bool.false_eq_true, if_false, Nat.add_zero] at h1
    have := decr_le q c b
    omega

theorem append_singleton_cons (cache : List Nat) (s : Nat) :
    ∃ c l, cache ++ [s] = c :: l ∧ l.length = cache.length := by
  cases cache with
  | nil => exact ⟨s, [], rfl, rfl⟩
  | cons c l => exact ⟨c, l ++ [s], rfl, by simp⟩

theorem collapse_level_fin_inv (H : ffsi_header) (B : Nat) (v : rand_var) (t : tpdf)
    (hin : t.win_infty = false) (hW : 0 < t.window_size) (hW32 : t.window_size < 4294967296)
    (h : fin_inv H.FFSI_TPDF_CUMSUM B t) :
    fin_inv H.FFSI_TPDF_CUMSUM B (collapse_level H v t) ∧
    ((collapse_level H v t).need_rescale = true → t.need_rescale = true) := by
  obtain ⟨hlen, hcnt, hB, K, hK, hp, hKB, hK0⟩ := h
  have hpush := incr_push t.qtbl K t.cache (u32 (H.RV_TAILORED t v)) hp
  have hql : (qtbl_incr t.qtbl (u32 (H.RV_TAILORED t v))).length = t.qtbl.length := by
    simp [qtbl_incr]
  unfold collapse_level
  simp only [hin, Bool.false_eq_true, if_false]
  split_ifs with hsc hfull
  · exact ⟨⟨hlen, hcnt, hB, K, hK, hp, hKB, hK0⟩, fun h => h⟩
  · obtain ⟨c, l, hcl, hll⟩ := append_singleton_cons t.cache (u32 (H.RV_TAILORED t v))
    unfold ffsi_tpdf_carving_out ffsi_tpdf_rescaler tfifo_out tfifo_in
    simp only [hcl]
    rw [hcl] at hpush
    by_cases hn : t.need_rescale = true
    · simp only [hn, if_true]
      have hsum : ((qtbl_incr t.qtbl (u32 (H.RV_TAILORED t v))).map
          (fun q => mult_frac q H.FFSI_TPDF_CUMSUM (u32 t.window_size))).sum ≤ B := by
        rw [u32_of_lt hW32]
        have h1 := sum_rescaled_le H.FFSI_TPDF_CUMSUM t.window_size hW
          (qtbl_incr t.qtbl (u32 (H.RV_TAILORED t v)))
        have h2 := sum_le_add_count (c :: l) (qtbl_incr t.qtbl (u32 (H.RV_TAILORED t v))) K
          (by rw [hql, hK]) hpush
        rw [hK0 hn, List.length_cons, hll, hlen] at h2
        have h3 : (qtbl_incr t.qtbl (u32 (H.RV_TAILORED t v))).sum * H.FFSI_TPDF_CUMSUM /
            t.window_size ≤ (t.window_size + 1) * H.FFSI_TPDF_CUMSUM / t.window_size :=
          Nat.div_le_div_right (Nat.mul_le_mul_right _ (by omega))
        have := hB hn
        omega
      refine ⟨⟨?_, hcnt, (fun h => by cases h),
        (qtbl_incr t.qtbl (u32 (H.RV_TAILORED t v))).map
          (fun q => mult_frac q H.FFSI_TPDF_CUMSUM (u32 t.window_size)),
        (by simp [qtbl_decr]), (fun b => ?_), hsum, (fun h => by cases h)⟩,
        (fun h => by cases h)⟩
      · show l.length = t.window_count
        rw [hll]; exact hlen
      · exact Nat.le_trans (decr_le _ c b) (Nat.le_add_right _ _)
    · have hn' : t.need_rescale = false := by simpa using hn
      simp only [hn', Bool.false_eq_true, if_false]
      refine ⟨⟨?_, hcnt, (fun h => by cases h), K,
        (by simp [qtbl_decr, qtbl_incr, hK]), decr_pop _ K l c hpush, hKB,
        (fun h => by cases h)⟩, (fun h => by cases h)⟩
      show l.length = t.window_count
      rw [hll]; exact hlen
  · refine ⟨⟨by simp [tfifo_in, hlen], by dsimp only; omega, hB, K, by rw [hql, hK], hpush,
      hKB, hK0⟩, fun h => h⟩

theorem learn_all_fin_inv (H : ffsi_header) (B : Nat → Nat) (self : ffsi_class)
    (vs : List rand_var)
    (h0 : ∀ t ∈ self.tpdf_cascade, t.win_infty = false →
      0 < t.window_size ∧ t.window_size < 4294967296 ∧
        fin_inv H.FFSI_TPDF_CUMSUM (B t.window_size) t) :
    ∀ t ∈ (learn_all H self vs).tpdf_cascade, t.win_infty = false →
      0 < t.window_size ∧ t.window_size < 4294967296 ∧
        fin_inv H.FFSI_TPDF_CUMSUM (B t.window_size) t := by
  induction vs using List.reverseRecOn with
  | nil => exact h0
  | append_singleton vs v ih =>
    rw [learn_all_append]
    intro t ht hin
    rcases learn_cascade H (learn_all H self vs) v with h | h
    · rw [h] at ht
      exact ih t ht hin
    · rw [h, List.mem_map] at ht
      obtain ⟨t0, ht0, rfl⟩ := ht
      rw [collapse_level_win_infty] at hin
      obtain ⟨a, b, c⟩ := ih t0 ht0 hin
      rw [collapse_level_window_size]
      exact ⟨a, b, (collapse_level_fin_inv H _ v t0 hin a b c).1⟩

theorem fresh_fin_inv (C B : Nat) (t : tpdf) (h : t.fresh) (hc : t.cache = [])
    (hB : t.need_rescale = true → (t.window_size + 1) * C / t.window_size ≤ B) :
    fin_inv C B t := by
  obtain ⟨h1, h2, _⟩ := h
  refine ⟨by rw [hc, h2]; rfl, by omega, hB, List.replicate t.qtbl.length 0, by simp,
    fun b => ?_, by simp, fun _ => by simp⟩
  have : t.qtbl.getD b 0 = 0 := by
    by_cases hb : b < t.qtbl.length
    · rw [List.getD_eq_getElem?_getD, List.getElem?_eq_getElem hb]
      exact h1 _ (List.getElem_mem hb)
    · exact List.getD_eq_default _ _ (by omega)
  omega

theorem fin_inv_sum (C B : Nat) (t : tpdf) (h : fin_inv C B t) :
    t.qtbl.sum ≤ t.window_count + B ∧ (t.need_rescale = true → t.qtbl.sum ≤ t.window_count) ∧
      (B = 0 → t.qtbl.sum ≤ t.window_count) := by
  obtain ⟨hlen, _, _, K, hK, hp, hKB, hK0⟩ := h
  have := sum_le_add_count t.cache t.qtbl K hK.symm hp
  rw [hlen] at this
  refine ⟨by omega, fun hn => by have := hK0 hn; omega, fun hb => by omega⟩

theorem usub_self (a : Nat) : usub a a = 0 := by
  unfold usub u32
  have := Nat.mod_lt a (show 0 < 4294967296 by decide)
  omega

theorem kl_term_self (p : Nat) : kl_term p p = 0 := by
  unfold kl_term
  split_ifs
  · rfl
  · exact usub_self _

theorem kl_fold_self (qtbl : List Nat) (idxs : List Nat) :
    idxs.foldl (kl_step qtbl qtbl) 0 = 0 := by
  induction idxs with
  | nil => rfl
  | cons i idxs ih =>
    have h : kl_step qtbl qtbl 0 i = 0 := by
      unfold kl_step
      rw [kl_term_self]
      rfl
    rw [List.foldl_cons, h, ih]

/-- What the two planes of `kl_asymm_diversity` cover, for a table with at least one
bucket: the left plane sums the buckets `0, ..., qlvl / 2` (the bucket `qlvl / 2`
included), the right plane the buckets `qlvl / 2, ..., qlvl - 1`. -/
theorem kl_asymm_planes (comparer : tpdf) (comparee : List Nat) (h0 : 0 < comparer.qlvl)
    (h32 : comparer.qlvl < 4294967296) :
    kl_asymm_diversity comparer comparee kld_plane.KLD_LPLANE =
      kl_over comparer comparee 0 (comparer.qlvl / 2 + 1) ∧
    kl_asymm_diversity comparer comparee kld_plane.KLD_RPLANE =
      kl_over comparer comparee (comparer.qlvl / 2) comparer.qlvl := by
  have hs : usub comparer.qlvl 1 + 1 = comparer.qlvl := by
    unfold usub u32
    omega
  constructor
  · simp [kl_asymm_diversity, kl_over]
  · simp [kl_asymm_diversity, kl_over, hs]

theorem kld_unset_ne_zero : (0 : Int) ≠ kld_unset := by decide

theorem getD_zero_memo (kl : Nat → Int) (kld : List Int) (c : Nat)
    (h0 : kl 0 ≠ kld_unset) (h : c = 0 ∨ kld.getD 0 0 ≠ kld_unset) :
    (if kld.getD c 0 = kld_unset then kld.set c (kl c) else kld).getD 0 0 ≠ kld_unset := by
  split_ifs with hc
  · cases kld with
    | nil => simpa using kld_unset_ne_zero
    | cons a l =>
      cases c with
      | zero => simpa using h0
      | succ c =>
        rcases h with h | h
        · exact absurd h (by omega)
        · simpa using h
  · rcases h with h | h
    · subst h
      exact hc
    · exact h

theorem length_memo (kl : Nat → Int) (kld : List Int) (c : Nat) :
    (if kld.getD c 0 = kld_unset then kld.set c (kl c) else kld).length = kld.length := by
  split_ifs <;> simp

theorem gs_probe_spec (kl : Nat → Int) (rm hw : Nat) (hhw : 2 ≤ hw) (hrm : rm + hw < 4294967296)
    (h0 : kl 0 ≠ kld_unset) :
    ∀ (fuel cur : Nat) (kld : List Int), rm + 2 - cur < fuel →
      ∃ kld', gs_probe kl rm hw fuel cur kld = some kld' ∧ kld'.length = kld.length ∧
        (cur = 0 ∨ kld.getD 0 0 ≠ kld_unset → kld'.getD 0 0 ≠ kld_unset) := by
  intro fuel
  induction fuel with
  | zero => intro cur kld h; omega
  | succ fuel ih =>
    intro cur kld hf
    have hu : u32 (rm + 1) = rm + 1 := u32_of_lt (by omega)
    by_cases hc : cur ≤ rm + 1
    · have hu2 : u32 (min cur rm + hw) = min cur rm + hw :=
        u32_of_lt (by have := Nat.min_le_right cur rm; omega)
      have hstep : gs_probe kl rm hw (fuel + 1) cur kld =
          gs_probe kl rm hw fuel (min cur rm + hw)
            (if kld.getD (min cur rm) 0 = kld_unset then kld.set (min cur rm) (kl (min cur rm))
              else kld) := by
        simp only [gs_probe, hu, hc, if_true, hu2]
      have hm : rm + 2 - (min cur rm + hw) < fuel := by
        rcases Nat.lt_or_ge cur rm with h | h
        · rw [Nat.min_eq_left (by omega)]; omega
        · rw [Nat.min_eq_right h]; omega
      obtain ⟨kld', h1, h2, h3⟩ := ih (min cur rm + hw) _ hm
      refine ⟨kld', by rw [hstep, h1], by rw [h2, length_memo], fun hz => h3 (Or.inr ?_)⟩
      apply getD_zero_memo kl kld _ h0
      rcases hz with hz | hz
      · left; subst hz; simp
      · right; exact hz
    · refine ⟨kld, ?_, rfl, fun hz => ?_⟩
      · simp only [gs_probe, hu, hc, if_false]
      · rcases hz with hz | hz
        · omega
        · exact hz

theorem gs_narrow_rmost (mi : Nat) (s : gs_state) (kld : List Int) :
    (gs_narrow mi s kld).rmost = of_int (min (s32 mi + s32 s.hop_width - 1) (s32 s.rmost)) :=
  rfl

theorem gs_narrow_kld_ref (mi : Nat) (s : gs_state) (kld : List Int) :
    (gs_narrow mi s kld).kld_ref = kld := rfl

theorem gs_narrow_lmost (mi : Nat) (s : gs_state) (kld : List Int) :
    (gs_narrow mi s kld).lmost =
      u32 (of_int (max (s32 mi - s32 s.hop_width + 1) (s32 s.lmost)) +
        (if kld.getD (of_int (max (s32 mi - s32 s.hop_width + 1) (s32 s.lmost))) 0 ≠ kld_unset
          then 1 else 0)) := rfl

theorem gs_narrow_hop_width (mi : Nat) (s : gs_state) (kld : List Int) :
    (gs_narrow mi s kld).hop_width =
      u32 (2 ^ ilog2 (u32 (u32 (usub
          (of_int (min (s32 mi + s32 s.hop_width - 1) (s32 s.rmost)))
          (of_int (max (s32 mi - s32 s.hop_width + 1) (s32 s.lmost))) + 1) + 1))) /
        ilog2 (u32 (u32 (usub
          (of_int (min (s32 mi + s32 s.hop_width - 1) (s32 s.rmost)))
          (of_int (max (s32 mi - s32 s.hop_width + 1) (s32 s.lmost))) + 1) + 1)) := rfl

theorem narrow_rmost_two (rm : Nat) (h1 : 1 ≤ rm) (h2 : rm ≤ 15) :
    of_int (min (s32 0 + s32 2 - 1) (s32 rm)) = 1 := by
  interval_cases rm <;> decide

theorem narrow_lmost_two (lm : Nat) (h : lm ≤ 1) :
    of_int (max (s32 0 - s32 2 + 1) (s32 lm)) = lm := by
  interval_cases lm <;> decide

/-- A pass with hops of width 2 whose left end is 0 or 1 is the last one. -/
theorem gs_descend_last (kl : Nat → Int) (h0 : kl 0 ≠ kld_unset) (pf f : Nat) (hpf : 18 ≤ pf)
    (s : gs_state) (hhw : s.hop_width = 2) (hl : s.lmost ≤ 1) (hr1 : 1 ≤ s.rmost)
    (hr2 : s.rmost ≤ 15) :
    ∃ kld, gs_descend kl 0 pf (f + 1) s = some kld := by
  obtain ⟨kld1, hp, _, hz⟩ := gs_probe_spec kl s.rmost s.hop_width (by omega) (by omega) h0
    pf s.lmost s.kld_ref (by omega)
  have hrm : (gs_narrow 0 s kld1).rmost = 1 := by
    rw [gs_narrow_rmost, hhw, narrow_rmost_two s.rmost hr1 hr2]
  have hlm : 1 ≤ (gs_narrow 0 s kld1).lmost := by
    rw [gs_narrow_lmost, hhw, narrow_lmost_two s.lmost hl]
    rcases Nat.eq_zero_or_pos s.lmost with h | h
    · have := hz (Or.inl h)
      rw [h]
      simp only [ne_eq, this, not_false_eq_true, if_true]
      decide
    · have h1 : s.lmost = 1 := by omega
      rw [h1]
      split_ifs <;> decide
  refine ⟨kld1, ?_⟩
  simp only [gs_descend, hp]
  rw [if_neg (by omega)]
  rfl

theorem ilog2_cases (r : Nat) (h2 : 2 ≤ r) (h15 : r ≤ 15) :
    u32 (2 ^ ilog2 r) / ilog2 r = 2 ∧ usub r 1 = r - 1 := by
  interval_cases r <;> decide

/-- The loop of the search ends when the divergence against reference 0 is not the
sentinel. -/
theorem gs_descend_some (kl : Nat → Int) (h0 : kl 0 ≠ kld_unset) (r fuel : Nat) (h2 : 2 ≤ r)
    (h16 : r ≤ 16) (hf : 18 ≤ fuel) :
    ∃ kld, gs_descend kl 0 fuel fuel
      { lmost := 0, rmost := usub r 1, hop_width := u32 (2 ^ ilog2 r) / ilog2 r,
        kld_ref := List.replicate 16 kld_unset } = some kld := by
  obtain ⟨f, rfl⟩ : ∃ f, fuel = f + 2 := ⟨fuel - 2, by omega⟩
  rcases Nat.lt_or_ge r 16 with h | h
  · obtain ⟨e1, e2⟩ := ilog2_cases r h2 (by omega)
    rw [e1, e2]
    exact gs_descend_last kl h0 (f + 2) (f + 1) hf _ rfl (Nat.zero_le 1)
      (by show 1 ≤ r - 1; omega) (by show r - 1 ≤ 15; omega)
  · have hr : r = 16 := by omega
    subst hr
    have e1 : u32 (2 ^ ilog2 16) / ilog2 16 = 4 := by decide
    have e2 : usub 16 1 = 15 := by decide
    rw [e1, e2]
    obtain ⟨kld1, hp, _, hz⟩ := gs_probe_spec kl 15 4 (by omega) (by omega) h0
      (f + 2) 0 (List.replicate 16 kld_unset) (by omega)
    have hz := hz (Or.inl rfl)
    simp only [gs_descend, hp]
    have hrm : (gs_narrow 0 ⟨0, 15, 4, List.replicate 16 kld_unset⟩ kld1).rmost = 3 := by
      rw [gs_narrow_rmost]; decide
    have hhw : (gs_narrow 0 ⟨0, 15, 4, List.replicate 16 kld_unset⟩ kld1).hop_width = 2 := by
      rw [gs_narrow_hop_width]; decide
    have hlm : (gs_narrow 0 ⟨0, 15, 4, List.replicate 16 kld_unset⟩ kld1).lmost = 1 := by
      rw [gs_narrow_lmost]
      have e : of_int (max (s32 0 - s32 (4 : Nat) + 1) (s32 (0 : Nat))) = 0 := by decide
      simp only [e, ne_eq, hz, not_false_eq_true, if_true]
      decide
    rw [if_pos (by rw [hrm, hlm]; omega)]
    exact gs_descend_last kl h0 (f + 2) f hf _ hhw (by omega) (by omega) (by omega)

theorem gs_scan_fold_lt (kld : List Int) (r : Nat) (l : List Nat) (hl : ∀ x ∈ l, x < r) :
    ∀ st : Int × Nat, st.2 < r → (l.foldl (gs_scan_step kld) st).2 < r := by
  induction l with
  | nil => intro st h; exact h
  | cons x l ih =>
    intro st h
    rw [List.foldl_cons]
    apply ih (fun y hy => hl y (List.mem_cons_of_mem x hy))
    unfold gs_scan_step
    split_ifs
    · exact hl x (List.mem_cons_self x l)
    · exact h

theorem gs_scan_lt (kld : List Int) (r : Nat) (h : 0 < r) : gs_scan kld r < r :=
  gs_scan_fold_lt kld r (List.range r) (fun _ hx => List.mem_range.mp hx) _ h

theorem gs_on_some (kl : Nat → Int) (h0 : kl 0 ≠ kld_unset) (r fuel : Nat) (h2 : 2 ≤ r)
    (h16 : r ≤ 16) (hf : 18 ≤ fuel) : ∃ i, gs_on kl r fuel = some i ∧ i < r := by
  obtain ⟨kld, hk⟩ := gs_descend_some kl h0 r fuel h2 h16 hf
  refine ⟨gs_scan kld r, ?_, gs_scan_lt kld r (by omega)⟩
  unfold gs_on
  simp only [hk, Option.map_some']

theorem getD_zero_memo_unset (kl : Nat → Int) (kld : List Int) (c : Nat)
    (h0 : kl 0 = kld_unset) (h : kld.getD 0 0 = kld_unset) :
    (if kld.getD c 0 = kld_unset then kld.set c (kl c) else kld).getD 0 0 = kld_unset := by
  split_ifs with hc
  · cases kld with
    | nil => simpa using h
    | cons a l =>
      cases c with
      | zero => simpa using h0
      | succ c => simpa using h
  · exact h

theorem gs_probe_unset (kl : Nat → Int) (rm hw : Nat) (h0 : kl 0 = kld_unset) :
    ∀ (fuel cur : Nat) (kld kld' : List Int), kld.getD 0 0 = kld_unset →
      gs_probe kl rm hw fuel cur kld = some kld' → kld'.getD 0 0 = kld_unset := by
  intro fuel
  induction fuel with
  | zero => intro cur kld kld' _ h; simp [gs_probe] at h
  | succ fuel ih =>
    intro cur kld kld' hk h
    by_cases hc : cur ≤ u32 (rm + 1)
    · have hstep : gs_probe kl rm hw (fuel + 1) cur kld =
          gs_probe kl rm hw fuel (u32 (min cur rm + hw))
            (if kld.getD (min cur rm) 0 = kld_unset then kld.set (min cur rm) (kl (min cur rm))
              else kld) := by
        simp only [gs_probe, hc, if_true]
      rw [hstep] at h
      exact ih _ _ kld' (getD_zero_memo_unset kl kld _ h0 hk) h
    · have hstep : gs_probe kl rm hw (fuel + 1) cur kld = some kld := by
        simp only [gs_probe, hc, if_false]
      rw [hstep] at h
      injection h with h
      rw [← h]
      exact hk

theorem narrow_stuck (hw rm : Nat) (h1 : 2 ≤ hw) (h2 : hw ≤ 4) (h3 : 1 ≤ rm) (h4 : rm ≤ 15) :
    of_int (max (s32 0 - s32 hw + 1) (s32 0)) = 0 ∧
    1 ≤ of_int (min (s32 0 + s32 hw - 1) (s32 rm)) ∧
    of_int (min (s32 0 + s32 hw - 1) (s32 rm)) ≤ 15 := by
  interval_cases hw <;> interval_cases rm <;> decide

theorem narrow_hop (rm : Nat) (h3 : 1 ≤ rm) (h4 : rm ≤ 15) :
    2 ≤ u32 (2 ^ ilog2 (u32 (u32 (usub rm 0 + 1) + 1))) / ilog2 (u32 (u32 (usub rm 0 + 1) + 1)) ∧
    u32 (2 ^ ilog2 (u32 (u32 (usub rm 0 + 1) + 1))) / ilog2 (u32 (u32 (usub rm 0 + 1) + 1)) ≤ 4 := by
  interval_cases rm <;> decide

/-- When the divergence against reference 0 is the sentinel, the left end of the
bracket never leaves 0 and the loop of the search never ends. -/
theorem gs_descend_none (kl : Nat → Int) (h0 : kl 0 = kld_unset) (pf : Nat) :
    ∀ (f : Nat) (s : gs_state), s.lmost = 0 → 1 ≤ s.rmost → s.rmost ≤ 15 →
      2 ≤ s.hop_width → s.hop_width ≤ 4 → s.kld_ref.getD 0 0 = kld_unset →
      gs_descend kl 0 pf f s = none := by
  intro f
  induction f with
  | zero => intro s _ _ _ _ _ _; rfl
  | succ f ih =>
    intro s hl hr1 hr2 hw1 hw2 hk
    simp only [gs_descend]
    cases hp : gs_probe kl s.rmost s.hop_width pf s.lmost s.kld_ref with
    | none => rfl
    | some kld1 =>
      have hk1 := gs_probe_unset kl _ _ h0 _ _ _ _ hk hp
      obtain ⟨e1, e2, e3⟩ := narrow_stuck s.hop_width s.rmost hw1 hw2 hr1 hr2
      have hlm : (gs_narrow 0 s kld1).lmost = 0 := by
        rw [gs_narrow_lmost, hl, e1]
        simp only [ne_eq, hk1, not_true_eq_false, if_false]
        decide
      have hrm : (gs_narrow 0 s kld1).rmost =
          of_int (min (s32 0 + s32 s.hop_width - 1) (s32 s.rmost)) := rfl
      have hhw := narrow_hop _ e2 e3
      have hhw' : (gs_narrow 0 s kld1).hop_width =
          u32 (2 ^ ilog2 (u32 (u32 (usub (of_int (min (s32 0 + s32 s.hop_width - 1)
            (s32 s.rmost))) 0 + 1) + 1))) /
          ilog2 (u32 (u32 (usub (of_int (min (s32 0 + s32 s.hop_width - 1)
            (s32 s.rmost))) 0 + 1) + 1)) := by
        rw [gs_narrow_hop_width, hl, e1]
      simp only []
      rw [if_pos (by rw [hrm, hlm]; omega)]
      exact ih _ hlm (by rw [hrm]; exact e2) (by rw [hrm]; exact e3)
        (by rw [hhw']; exact hhw.1) (by rw [hhw']; exact hhw.2)
        (by rw [gs_narrow_kld_ref]; exact hk1)

theorem ilog2_cases16 (r : Nat) (h2 : 2 ≤ r) (h16 : r ≤ 16) :
    2 ≤ u32 (2 ^ ilog2 r) / ilog2 r ∧ u32 (2 ^ ilog2 r) / ilog2 r ≤ 4 ∧
      1 ≤ usub r 1 ∧ usub r 1 ≤ 15 := by
  interval_cases r <;> decide

theorem gs_on_none (kl : Nat → Int) (h0 : kl 0 = kld_unset) (r fuel : Nat) (h2 : 2 ≤ r)
    (h16 : r ≤ 16) : gs_on kl r fuel = none := by
  obtain ⟨e1, e2, e3, e4⟩ := ilog2_cases16 r h2 h16
  have hk : (List.replicate 16 kld_unset).getD 0 0 = kld_unset := by
    simp [List.replicate]
  have h := gs_descend_none kl h0 fuel fuel
    { lmost := 0, rmost := usub r 1, hop_width := u32 (2 ^ ilog2 r) / ilog2 r,
      kld_ref := List.replicate 16 kld_unset } rfl e3 e4 e1 e2 hk
  unfold gs_on
  simp only [h, Option.map_none']

theorem gs_on_kld_some (H : ffsi_header) (targ : tpdf) (mold : List Nat) (r fuel : Nat)
    (h2 : 2 ≤ r) (h16 : r ≤ 16) (hf : 18 ≤ fuel)
    (h0 : kl_asymm_diversity targ mold kld_plane.KLD_RPLANE ≠ kld_unset) :
    ∃ i, __gs_on_kld H targ mold r fuel = some i ∧ i < r := by
  unfold __gs_on_kld
  apply gs_on_some _ _ r fuel h2 h16 hf
  simpa using h0

theorem search_level_some (H : ffsi_header) (mold : List Nat) (r fuel : Nat)
    (h2 : 2 ≤ r) (h16 : r ≤ 16) (hf : 18 ≤ fuel) (level : tpdf)
    (h0 : is_tpdf_prepared H level = true → level.pc_cnt = 0 →
      kl_asymm_diversity level mold kld_plane.KLD_RPLANE ≠ kld_unset) :
    ∃ level', search_level H mold r fuel level = some level' ∧
      (level' = level ∨ ∃ i, i < r ∧ level' = { level with irand := i }) := by
  unfold search_level
  split_ifs with hp hc
  · exact ⟨level, rfl, Or.inl rfl⟩
  · exact ⟨level, rfl, Or.inl rfl⟩
  · have hp' : is_tpdf_prepared H level = true := by simpa using hp
    have hc' : level.pc_cnt = 0 := by simpa using hc
    obtain ⟨i, hg, hlt⟩ := gs_on_kld_some H level mold r fuel h2 h16 hf (h0 hp' hc')
    rw [hg]
    exact ⟨_, rfl, Or.inr ⟨i, hlt, rfl⟩⟩

theorem search_level_ok (H : ffsi_header) (mold : List Nat) (r fuel : Nat)
    (h2 : 2 ≤ r) (h16 : r ≤ 16) (hf : 18 ≤ fuel) (level : tpdf)
    (h0 : is_tpdf_prepared H level = true → level.pc_cnt = 0 →
      kl_asymm_diversity level mold kld_plane.KLD_RPLANE ≠ kld_unset)
    (hi : level.irand < r ∨ level.irand = H.FFSI_DIVERGING) :
    ∃ level', search_level H mold r fuel level = some level' ∧
      (level'.irand < r ∨ level'.irand = H.FFSI_DIVERGING) := by
  unfold search_level
  split_ifs with hp hc
  · exact ⟨level, rfl, hi⟩
  · exact ⟨level, rfl, hi⟩
  · have hp' : is_tpdf_prepared H level = true := by simpa using hp
    have hc' : level.pc_cnt = 0 := by simpa using hc
    obtain ⟨i, hg, hlt⟩ := gs_on_kld_some H level mold r fuel h2 h16 hf (h0 hp' hc')
    rw [hg]
    exact ⟨_, rfl, Or.inl hlt⟩

theorem search_levels_ok (H : ffsi_header) (mold : List Nat) (r fuel : Nat)
    (h2 : 2 ≤ r) (h16 : r ≤ 16) (hf : 18 ≤ fuel) :
    ∀ levels : List tpdf,
      (∀ level ∈ levels, is_tpdf_prepared H level = true → level.pc_cnt = 0 →
        kl_asymm_diversity level mold kld_plane.KLD_RPLANE ≠ kld_unset) →
      (∀ level ∈ levels, level.irand < r ∨ level.irand = H.FFSI_DIVERGING) →
      ∃ levels', search_levels H mold r fuel levels = some levels' ∧
        levels'.length = levels.length ∧
        ∀ level ∈ levels', level.irand < r ∨ level.irand = H.FFSI_DIVERGING := by
  intro levels
  induction levels with
  | nil => intro _ _; exact ⟨[], rfl, rfl, fun _ h => absurd h (List.not_mem_nil _)⟩
  | cons level rest ih =>
    intro h0 hi
    obtain ⟨level', e1, o1⟩ := search_level_ok H mold r fuel h2 h16 hf level
      (h0 level (List.mem_cons_self _ _)) (hi level (List.mem_cons_self _ _))
    obtain ⟨rest', e2, l2, o2⟩ := ih (fun l hl => h0 l (List.mem_cons_of_mem _ hl))
      (fun l hl => hi l (List.mem_cons_of_mem _ hl))
    refine ⟨level' :: rest', ?_, by simp [l2], ?_⟩
    · simp only [search_levels, e1, e2]
    · intro l hl
      rcases List.mem_cons.mp hl with h | h
      · rw [h]; exact o1
      · exact o2 l h

theorem not_prepared_of_short (H : ffsi_header) (l : tpdf) (h : short_of_samples H l) :
    is_tpdf_prepared H l = false := by
  unfold is_tpdf_prepared
  rcases h with ⟨h1, h2⟩ | ⟨h1, h2⟩
  · simp [h1]; omega
  · simp [h1]; omega

theorem search_level_frame (H : ffsi_header) (mold : List Nat) (r fuel : Nat) (l l' : tpdf)
    (h : search_level H mold r fuel l = some l') : infer_keeps H l l' := by
  unfold search_level at h
  by_cases hp : is_tpdf_prepared H l = false
  · rw [if_pos hp] at h
    injection h with h
    subst h
    exact ⟨rfl, fun _ => rfl⟩
  · rw [if_neg hp] at h
    have hns : ¬ short_of_samples H l := fun hs => hp (not_prepared_of_short H l hs)
    by_cases hc : l.pc_cnt ≠ 0
    · rw [if_pos hc] at h
      injection h with h
      subst h
      exact ⟨rfl, fun _ => rfl⟩
    · rw [if_neg hc] at h
      cases hg : __gs_on_kld H l mold r fuel with
      | none => rw [hg] at h; cases h
      | some i =>
        rw [hg] at h
        injection h with h
        subst h
        exact ⟨rfl, fun hs => absurd hs hns⟩

theorem search_levels_frame (H : ffsi_header) (mold : List Nat) (r fuel : Nat) :
    ∀ (ls ls' : List tpdf), search_levels H mold r fuel ls = some ls' →
      List.Forall₂ (infer_keeps H) ls ls' := by
  intro ls
  induction ls with
  | nil =>
    intro ls' h
    simp only [search_levels] at h
    injection h with h
    subst h
    exact List.Forall₂.nil
  | cons l rest ih =>
    intro ls' h
    simp only [search_levels] at h
    cases h1 : search_level H mold r fuel l with
    | none => rw [h1] at h; cases h
    | some l1 =>
      rw [h1] at h
      cases h2 : search_levels H mold r fuel rest with
      | none => rw [h2] at h; cases h
      | some rest1 =>
        rw [h2] at h
        injection h with h
        subst h
        exact List.Forall₂.cons (search_level_frame H mold r fuel l l1 h1) (ih rest1 h2)

theorem search_levels_idle (H : ffsi_header) (mold : List Nat) (r fuel : Nat) :
    ∀ (ls : List tpdf), (∀ l ∈ ls, short_of_samples H l) →
      search_levels H mold r fuel ls = some ls := by
  intro ls
  induction ls with
  | nil => intro _; rfl
  | cons l rest ih =>
    intro h
    have h1 : search_level H mold r fuel l = some l := by
      unfold search_level
      rw [if_pos (not_prepared_of_short H l (h l (List.mem_cons_self _ _)))]
    simp only [search_levels, h1, ih (fun x hx => h x (List.mem_cons_of_mem _ hx))]

theorem search_levels_some (H : ffsi_header) (mold : List Nat) (r fuel : Nat)
    (h2 : 2 ≤ r) (h16 : r ≤ 16) (hf : 18 ≤ fuel) :
    ∀ levels : List tpdf,
      (∀ level ∈ levels, is_tpdf_prepared H level = true → level.pc_cnt = 0 →
        kl_asymm_diversity level mold kld_plane.KLD_RPLANE ≠ kld_unset) →
      ∃ levels', search_levels H mold r fuel levels = some levels' := by
  intro levels
  induction levels with
  | nil => intro _; exact ⟨[], rfl⟩
  | cons level rest ih =>
    intro h0
    obtain ⟨level', e1, _⟩ := search_level_some H mold r fuel h2 h16 hf level
      (h0 level (List.mem_cons_self _ _))
    obtain ⟨rest', e2⟩ := ih (fun l hl => h0 l (List.mem_cons_of_mem _ hl))
    exact ⟨level' :: rest', by simp only [search_levels, e1, e2]⟩

theorem scan_inv_step (kld : List Int) (n : Nat) (st : Int × Nat) (h : scan_inv kld n st) :
    scan_inv kld (n + 1) (gs_scan_step kld st n) := by
  unfold gs_scan_step
  rcases h with ⟨hst, hall⟩ | ⟨hlt, hval, htop, hmin⟩
  · subst hst
    by_cases hc : abs_int (kld.getD n 0) < abs_int kld_unset
    · rw [if_pos hc]
      right
      refine ⟨Nat.lt_succ_self n, rfl, hc, fun j hj => ?_⟩
      rcases Nat.lt_succ_iff_lt_or_eq.mp hj with hjn | hjn
      · have := hall j hjn
        unfold kld_top at this
        dsimp only
        constructor
        · omega
        · intro he; omega
      · subst hjn
        exact ⟨le_refl _, fun _ => le_refl _⟩
    · rw [if_neg hc]
      left
      refine ⟨rfl, fun j hj => ?_⟩
      rcases Nat.lt_succ_iff_lt_or_eq.mp hj with hjn | hjn
      · exact hall j hjn
      · subst hjn
        exact hc
  · by_cases hc : abs_int (kld.getD n 0) < abs_int st.1
    · rw [if_pos hc]
      right
      rw [hval] at hc
      refine ⟨Nat.lt_succ_self n, rfl, by dsimp only; omega, fun j hj => ?_⟩
      dsimp only
      rcases Nat.lt_succ_iff_lt_or_eq.mp hj with hjn | hjn
      · have := (hmin j hjn).1
        constructor
        · omega
        · intro he; omega
      · subst hjn
        exact ⟨le_refl _, fun _ => le_refl _⟩
    · rw [if_neg hc]
      right
      rw [hval] at hc
      refine ⟨Nat.lt_succ_of_lt hlt, hval, htop, fun j hj => ?_⟩
      rcases Nat.lt_succ_iff_lt_or_eq.mp hj with hjn | hjn
      · exact hmin j hjn
      · subst hjn
        exact ⟨by omega, fun _ => Nat.le_of_lt hlt⟩

theorem scan_inv_fold (kld : List Int) :
    ∀ n, scan_inv kld n ((List.range n).foldl (gs_scan_step kld) (kld_unset, 0)) := by
  intro n
  induction n with
  | zero => exact Or.inl ⟨rfl, fun j hj => absurd hj (Nat.not_lt_zero j)⟩
  | succ n ih =>
    rw [List.range_succ, List.foldl_append, List.foldl_cons, List.foldl_nil]
    exact scan_inv_step kld n _ ih

/-- The final scan returns 0 or an index below the threshold, and the lowest index of
the least `abs` among the indices below the threshold. -/
theorem gs_scan_least (kld : List Int) (r : Nat) :
    (gs_scan kld r = 0 ∨ abs_int (kld.getD (gs_scan kld r) 0) < kld_top) ∧
    (∀ j, j < r → abs_int (kld.getD j 0) < kld_top →
      abs_int (kld.getD (gs_scan kld r) 0) ≤ abs_int (kld.getD j 0) ∧
      (abs_int (kld.getD j 0) = abs_int (kld.getD (gs_scan kld r) 0) → gs_scan kld r ≤ j)) := by
  unfold gs_scan
  rcases scan_inv_fold kld r with ⟨hst, hall⟩ | ⟨hlt, hval, htop, hmin⟩
  · rw [hst]
    exact ⟨Or.inl rfl, fun j hj ht => absurd ht (hall j hj)⟩
  · exact ⟨Or.inr htop, fun j hj _ => hmin j hj⟩

theorem memo_ok_step (kl : Nat → Int) (kld : List Int) (c : Nat) (h : memo_ok kl kld) :
    memo_ok kl (if kld.getD c 0 = kld_unset then kld.set c (kl c) else kld) := by
  obtain ⟨hl, hm⟩ := h
  split_ifs with hc
  · refine ⟨by simp [hl], fun j hj => ?_⟩
    by_cases hjc : j = c
    · subst hjc
      right
      simp [List.getD_eq_getElem?_getD, List.getElem?_set, hl, hj]
    · have : (kld.set c (kl c)).getD j 0 = kld.getD j 0 := by
        simp [List.getD_eq_getElem?_getD, List.getElem?_set, Ne.symm hjc]
      rw [this]
      exact hm j hj
  · exact ⟨hl, hm⟩

theorem gs_probe_inv (kl : Nat → Int) (rm hw : Nat) (Q : List Int → Prop)
    (hQ : ∀ kld c, Q kld → Q (if kld.getD c 0 = kld_unset then kld.set c (kl c) else kld)) :
    ∀ (fuel cur : Nat) (kld kld' : List Int), Q kld →
      gs_probe kl rm hw fuel cur kld = some kld' → Q kld' := by
  intro fuel
  induction fuel with
  | zero => intro cur kld kld' _ h; simp [gs_probe] at h
  | succ fuel ih =>
    intro cur kld kld' hk h
    by_cases hc : cur ≤ u32 (rm + 1)
    · have hstep : gs_probe kl rm hw (fuel + 1) cur kld =
          gs_probe kl rm hw fuel (u32 (min cur rm + hw))
            (if kld.getD (min cur rm) 0 = kld_unset then kld.set (min cur rm) (kl (min cur rm))
              else kld) := by
        simp only [gs_probe, hc, if_true]
      rw [hstep] at h
      exact ih _ _ kld' (hQ kld _ hk) h
    · have hstep : gs_probe kl rm hw (fuel + 1) cur kld = some kld := by
        simp only [gs_probe, hc, if_false]
      rw [hstep] at h
      injection h with h
      rw [← h]
      exact hk

theorem gs_probe_zero (kl : Nat → Int) (rm hw : Nat) (h0 : kl 0 ≠ kld_unset) :
    ∀ (fuel cur : Nat) (kld kld' : List Int), cur = 0 ∨ kld.getD 0 0 ≠ kld_unset →
      gs_probe kl rm hw fuel cur kld = some kld' → kld'.getD 0 0 ≠ kld_unset := by
  intro fuel cur kld kld' hz h
  rcases hz with hz | hz
  · subst hz
    cases fuel with
    | zero => simp [gs_probe] at h
    | succ fuel =>
      have hstep : gs_probe kl rm hw (fuel + 1) 0 kld =
          gs_probe kl rm hw fuel (u32 (min 0 rm + hw))
            (if kld.getD (min 0 rm) 0 = kld_unset then kld.set (min 0 rm) (kl (min 0 rm))
              else kld) := by
        simp only [gs_probe, Nat.zero_le, if_true]
      rw [hstep] at h
      exact gs_probe_inv kl rm hw (fun k => k.getD 0 0 ≠ kld_unset)
        (fun k c hk => getD_zero_memo kl k c h0 (Or.inr hk)) _ _ _ kld'
        (getD_zero_memo kl kld _ h0 (Or.inl (Nat.zero_min rm))) h
  · exact gs_probe_inv kl rm hw (fun k => k.getD 0 0 ≠ kld_unset)
      (fun k c hk => getD_zero_memo kl k c h0 (Or.inr hk)) _ _ _ kld' hz h

theorem gs_descend_inv (kl : Nat → Int) (mi pf : Nat) (Q : List Int → Prop)
    (hQ : ∀ kld c, Q kld → Q (if kld.getD c 0 = kld_unset then kld.set c (kl c) else kld)) :
    ∀ (f : Nat) (s : gs_state) (kld' : List Int), Q s.kld_ref →
      gs_descend kl mi pf f s = some kld' → Q kld' := by
  intro f
  induction f with
  | zero => intro s kld' _ h; simp [gs_descend] at h
  | succ f ih =>
    intro s kld' hk h
    simp only [gs_descend] at h
    cases hp : gs_probe kl s.rmost s.hop_width pf s.lmost s.kld_ref with
    | none => rw [hp] at h; cases h
    | some kld1 =>
      rw [hp] at h
      have hk1 := gs_probe_inv kl _ _ Q hQ _ _ _ _ hk hp
      simp only at h
      split_ifs at h with hc
      · exact ih _ kld' (by rw [gs_narrow_kld_ref]; exact hk1) h
      · injection h with h
        rw [← h, gs_narrow_kld_ref]
        exact hk1

theorem gs_descend_zero (kl : Nat → Int) (mi pf : Nat) (h0 : kl 0 ≠ kld_unset) :
    ∀ (f : Nat) (s : gs_state) (kld' : List Int),
      s.lmost = 0 ∨ s.kld_ref.getD 0 0 ≠ kld_unset →
      gs_descend kl mi pf f s = some kld' → kld'.getD 0 0 ≠ kld_unset := by
  intro f s kld' hz h
  cases f with
  | zero => simp [gs_descend] at h
  | succ f =>
    simp only [gs_descend] at h
    cases hp : gs_probe kl s.rmost s.hop_width pf s.lmost s.kld_ref with
    | none => rw [hp] at h; cases h
    | some kld1 =>
      rw [hp] at h
      have hk1 := gs_probe_zero kl _ _ h0 _ _ _ _ hz hp
      simp only at h
      split_ifs at h with hc
      · exact gs_descend_inv kl mi pf (fun k => k.getD 0 0 ≠ kld_unset)
          (fun k c hk => getD_zero_memo kl k c h0 (Or.inr hk)) _ _ kld'
          (by rw [gs_narrow_kld_ref]; exact hk1) h
      · injection h with h
        rw [← h, gs_narrow_kld_ref]
        exact hk1

theorem abs_unset_top : abs_int kld_unset = kld_top := rfl

/-- The search with the divergences `kl`: what it returns when the divergence against
reference 0 is not the sentinel. -/
theorem gs_on_least (kl : Nat → Int) (h0 : kl 0 ≠ kld_unset) (r fuel : Nat) (h2 : 2 ≤ r)
    (h16 : r ≤ 16) (hf : 18 ≤ fuel) :
    ∃ kld i, gs_memo kl r fuel = some kld ∧ gs_on kl r fuel = some i ∧ i < r ∧
      (∀ j, j < 16 → kld.getD j 0 = kld_unset ∨ kld.getD j 0 = kl j) ∧
      kld.getD 0 0 = kl 0 ∧
      kld.getD i 0 ≠ kld_unset ∧ kld.getD i 0 = kl i ∧
      (i = 0 ∨ abs_int (kl i) < kld_top) ∧
      (∀ j, j < r → kld.getD j 0 ≠ kld_unset → abs_int (kl j) < kld_top →
        abs_int (kl i) ≤ abs_int (kl j) ∧ (abs_int (kl j) = abs_int (kl i) → i ≤ j)) := by
  obtain ⟨kld, hk⟩ := gs_descend_some kl h0 r fuel h2 h16 hf
  have hmemo : memo_ok kl kld :=
    gs_descend_inv kl 0 fuel (memo_ok kl) (memo_ok_step kl) fuel _ kld
      ⟨by simp, fun j hj => Or.inl (by interval_cases j <;> rfl)⟩ hk
  have hz : kld.getD 0 0 ≠ kld_unset :=
    gs_descend_zero kl 0 fuel h0 fuel _ kld (Or.inl rfl) hk
  have hk0 : kld.getD 0 0 = kl 0 := by
    rcases hmemo.2 0 (by omega) with h | h
    · exact absurd h hz
    · exact h
  obtain ⟨hs1, hs2⟩ := gs_scan_least kld r
  have hlt := gs_scan_lt kld r (by omega)
  have hev : kld.getD (gs_scan kld r) 0 ≠ kld_unset := by
    rcases hs1 with h | h
    · rw [h]; exact hz
    · intro he
      rw [he, abs_unset_top] at h
      exact absurd h (lt_irrefl _)
  have hki : kld.getD (gs_scan kld r) 0 = kl (gs_scan kld r) := by
    rcases hmemo.2 (gs_scan kld r) (by omega) with h | h
    · exact absurd h hev
    · exact h
  refine ⟨kld, gs_scan kld r, hk, ?_, hlt, hmemo.2, hk0, hev, hki, ?_, ?_⟩
  · unfold gs_on
    simp only [hk, Option.map_some']
  · rcases hs1 with h | h
    · exact Or.inl h
    · right; rw [← hki]; exact h
  · intro j hj hej htop
    have hkj : kld.getD j 0 = kl j := by
      rcases hmemo.2 j (by omega) with h | h
      · exact absurd h hej
      · exact h
    have := hs2 j hj (by rw [hkj]; exact htop)
    rw [hkj, hki] at this
    exact this

theorem gs_probe_chk_done (kl : Nat → Int) (r rm hw : Nat) (hhw : 2 ≤ hw)
    (hrm : rm + hw < 4294967296) (hr : rm < r) :
    ∀ (fuel cur : Nat) (kld : List Int), rm + 2 - cur < fuel →
      ∃ kld', gs_probe_chk kl r rm hw fuel cur kld = gs_run.done kld' ∧
        gs_probe kl rm hw fuel cur kld = some kld' := by
  intro fuel
  induction fuel with
  | zero => intro cur kld h; omega
  | succ fuel ih =>
    intro cur kld hf
    have hu : u32 (rm + 1) = rm + 1 := u32_of_lt (by omega)
    by_cases hc : cur ≤ rm + 1
    · have hu2 : u32 (min cur rm + hw) = min cur rm + hw :=
        u32_of_lt (by have := Nat.min_le_right cur rm; omega)
      have hlt : min cur rm < r := lt_of_le_of_lt (Nat.min_le_right cur rm) hr
      have hm : rm + 2 - (min cur rm + hw) < fuel := by
        rcases Nat.lt_or_ge cur rm with h | h
        · rw [Nat.min_eq_left (by omega)]; omega
        · rw [Nat.min_eq_right h]; omega
      obtain ⟨kld', h1, h2⟩ := ih (min cur rm + hw)
        (if kld.getD (min cur rm) 0 = kld_unset then kld.set (min cur rm) (kl (min cur rm))
          else kld) hm
      refine ⟨kld', ?_, ?_⟩
      · simp only [gs_probe_chk, hu, hc, if_true, hu2, hlt]
        exact h1
      · simp only [gs_probe, hu, hc, if_true, hu2]
        exact h2
    · refine ⟨kld, ?_, ?_⟩
      · simp only [gs_probe_chk, hu, hc, if_false]
      · simp only [gs_probe, hu, hc, if_false]

theorem narrow_facts (lm rm hw : Nat) (hlm : lm ≤ 1) (hlr : lm < rm) (hrm : rm ≤ 15)
    (h2 : 2 ≤ hw) (h4 : hw ≤ 4) (h1 : lm = 1 → hw = 2) :
    of_int (max (s32 0 - s32 hw + 1) (s32 lm)) = lm ∧
    1 ≤ of_int (min (s32 0 + s32 hw - 1) (s32 rm)) ∧
    of_int (min (s32 0 + s32 hw - 1) (s32 rm)) ≤ rm ∧
    (lm = 1 → of_int (min (s32 0 + s32 hw - 1) (s32 rm)) = 1) ∧
    ilog2 (u32 (u32 (usub (of_int (min (s32 0 + s32 hw - 1) (s32 rm))) lm + 1) + 1)) ≠ 0 ∧
    u32 (2 ^ ilog2 (u32 (u32 (usub (of_int (min (s32 0 + s32 hw - 1) (s32 rm))) lm + 1) + 1))) /
      ilog2 (u32 (u32 (usub (of_int (min (s32 0 + s32 hw - 1) (s32 rm))) lm + 1) + 1)) = 2 := by
  interval_cases lm <;> interval_cases hw <;> interval_cases rm <;>
    first | omega | decide

theorem gs_descend_chk_succ (kl : Nat → Int) (r mi pf fuel : Nat) (s : gs_state) :
    gs_descend_chk kl r mi pf (fuel + 1) s =
      match gs_probe_chk kl r s.rmost s.hop_width pf s.lmost s.kld_ref with
      | gs_run.done kld_ref =>
        match gs_narrow_chk r mi s kld_ref with
        | none => gs_run.fault
        | some s =>
          if s.rmost > s.lmost then gs_descend_chk kl r mi pf fuel s
          else gs_run.done s.kld_ref
      | out => out := by
  rfl

theorem gs_descend_chk_step (kl : Nat → Int) (r mi pf fuel : Nat) (s : gs_state)
    (kld1 : List Int)
    (hp : gs_probe_chk kl r s.rmost s.hop_width pf s.lmost s.kld_ref = gs_run.done kld1)
    (hn : gs_narrow_chk r mi s kld1 = some (gs_narrow mi s kld1)) :
    gs_descend_chk kl r mi pf (fuel + 1) s =
      if (gs_narrow mi s kld1).rmost > (gs_narrow mi s kld1).lmost then
        gs_descend_chk kl r mi pf fuel (gs_narrow mi s kld1)
      else gs_run.done (gs_narrow mi s kld1).kld_ref := by
  rw [gs_descend_chk_succ, hp]
  simp only [hn]

theorem gs_descend_step (kl : Nat → Int) (mi pf fuel : Nat) (s : gs_state)
    (kld1 : List Int)
    (hp : gs_probe kl s.rmost s.hop_width pf s.lmost s.kld_ref = some kld1) :
    gs_descend kl mi pf (fuel + 1) s =
      if (gs_narrow mi s kld1).rmost > (gs_narrow mi s kld1).lmost then
        gs_descend kl mi pf fuel (gs_narrow mi s kld1)
      else some (gs_narrow mi s kld1).kld_ref := by
  simp only [gs_descend, hp]

theorem gs_descend_chk_ok (kl : Nat → Int) (r pf : Nat) (h16 : r ≤ 16) (hpf : 18 ≤ pf) :
    ∀ (fuel : Nat) (s : gs_state), s.lmost ≤ 1 → s.lmost < s.rmost → s.rmost < r →
      2 ≤ s.hop_width → s.hop_width ≤ 4 → (s.lmost = 1 → s.hop_width = 2) →
      (gs_descend_chk kl r 0 pf fuel s = gs_run.more ∧ gs_descend kl 0 pf fuel s = none) ∨
      ∃ kld, gs_descend_chk kl r 0 pf fuel s = gs_run.done kld ∧
        gs_descend kl 0 pf fuel s = some kld := by
  intro fuel
  induction fuel with
  | zero => intro s _ _ _ _ _ _; exact Or.inl ⟨rfl, rfl⟩
  | succ fuel ih =>
    intro s hlm hlr hrm h2 h4 h1
    obtain ⟨kld1, hp1, hp2⟩ := gs_probe_chk_done kl r s.rmost s.hop_width h2 (by omega) hrm
      pf s.lmost s.kld_ref (by omega)
    obtain ⟨f1, f2, f3, f4, f5, f6⟩ := narrow_facts s.lmost s.rmost s.hop_width hlm hlr
      (by omega) h2 h4 h1
    have hn : gs_narrow_chk r 0 s kld1 = some (gs_narrow 0 s kld1) := by
      unfold gs_narrow_chk
      simp only [f1]
      rw [if_neg f5, if_neg (by rw [f6]; omega), if_neg (by omega)]
    have e_rm : (gs_narrow 0 s kld1).rmost =
        of_int (min (s32 0 + s32 s.hop_width - 1) (s32 s.rmost)) := rfl
    have e_hw : (gs_narrow 0 s kld1).hop_width = 2 := by
      rw [gs_narrow_hop_width, f1]
      exact f6
    have e_lm : (gs_narrow 0 s kld1).lmost =
        u32 (s.lmost + (if kld1.getD s.lmost 0 ≠ kld_unset then 1 else 0)) := by
      rw [gs_narrow_lmost, f1]
    have e_lm1 : s.lmost ≤ (gs_narrow 0 s kld1).lmost ∧
        (gs_narrow 0 s kld1).lmost ≤ s.lmost + 1 := by
      rw [e_lm]
      split_ifs
      · rw [u32_of_lt (by omega)]; omega
      · rw [u32_of_lt (by omega)]; omega
    have hs1 := gs_descend_chk_step kl r 0 pf fuel s kld1 hp1 hn
    have hs2 := gs_descend_step kl 0 pf fuel s kld1 hp2
    rw [hs1, hs2]
    by_cases hc : (gs_narrow 0 s kld1).rmost > (gs_narrow 0 s kld1).lmost
    · rw [if_pos hc, if_pos hc]
      have hl0 : s.lmost = 0 := by
        rcases Nat.eq_zero_or_pos s.lmost with h | h
        · exact h
        · have := f4 (by omega)
          rw [e_rm, this] at hc
          omega
      exact ih _ (by omega) hc (by rw [e_rm]; omega) (by omega) (by omega) (fun _ => e_hw)
    · rw [if_neg hc, if_neg hc]
      exact Or.inr ⟨_, rfl, rfl⟩

/-! ## Strict bettor -/

theorem strict_level_mod (H : ffsi_header) (d2u : List Nat) (self : ffsi_class) (v : rand_var)
    (cap_legacy cap_unit acc : Nat) (level : tpdf) :
    u32 (strict_level H d2u self v cap_legacy cap_unit acc level) =
      u32 (acc + cap_unit * strict_steps H d2u self v cap_legacy cap_unit [level]) := by
  unfold strict_level strict_steps
  simp only [List.map_cons, List.map_nil, List.sum_cons, List.sum_nil, Nat.add_zero]
  split_ifs with hd
  · simp
  · rw [of_int_s32_mul, u32_add_u32]
    unfold u32
    rw [Nat.mod_mod, Nat.mul_assoc, Nat.mul_comm level.weight]

theorem strict_steps_cons (H : ffsi_header) (d2u : List Nat) (self : ffsi_class) (v : rand_var)
    (cap_legacy cap_unit : Nat) (level : tpdf) (rest : List tpdf) :
    strict_steps H d2u self v cap_legacy cap_unit (level :: rest) =
      strict_steps H d2u self v cap_legacy cap_unit [level] +
        strict_steps H d2u self v cap_legacy cap_unit rest := by
  simp [strict_steps]

theorem strict_fold_mod (H : ffsi_header) (d2u : List Nat) (self : ffsi_class) (v : rand_var)
    (cap_legacy cap_unit : Nat) :
    ∀ (levels : List tpdf) (acc : Nat),
      u32 (levels.foldl (strict_level H d2u self v cap_legacy cap_unit) acc) =
        u32 (acc + cap_unit * strict_steps H d2u self v cap_legacy cap_unit levels) := by
  intro levels
  induction levels with
  | nil => intro acc; simp [strict_steps]
  | cons level rest ih =>
    intro acc
    have e := strict_steps_cons H d2u self v cap_legacy cap_unit level rest
    rw [List.foldl_cons, ih, ← u32_u32_add, strict_level_mod, u32_u32_add, e, Nat.mul_add,
      Nat.add_assoc]

theorem strict_fold_lt (H : ffsi_header) (d2u : List Nat) (self : ffsi_class) (v : rand_var)
    (cap_legacy cap_unit : Nat) :
    ∀ (levels : List tpdf) (acc : Nat), acc < 4294967296 →
      levels.foldl (strict_level H d2u self v cap_legacy cap_unit) acc < 4294967296 := by
  intro levels
  induction levels with
  | nil => intro acc h; exact h
  | cons level rest ih =>
    intro acc h
    rw [List.foldl_cons]
    apply ih
    unfold strict_level
    simp only []
    split_ifs
    · exact h
    · exact u32_lt _

theorem strict_fold_diverging (H : ffsi_header) (d2u : List Nat) (self : ffsi_class)
    (v : rand_var) (cap_legacy cap_unit : Nat) :
    ∀ (levels : List tpdf), (∀ level ∈ levels, level.irand = H.FFSI_DIVERGING) →
      ∀ acc, levels.foldl (strict_level H d2u self v cap_legacy cap_unit) acc = acc := by
  intro levels
  induction levels with
  | nil => intro _ acc; rfl
  | cons level rest ih =>
    intro hd acc
    have h1 : strict_level H d2u self v cap_legacy cap_unit acc level = acc := by
      unfold strict_level
      simp only [if_pos (hd level (List.mem_cons_self _ _))]
    rw [List.foldl_cons, h1]
    exact ih (fun l hl => hd l (List.mem_cons_of_mem _ hl)) acc

/-! ## Soft bettor -/

theorem soft_fold_diverging (H : ffsi_header) (self : ffsi_class)
    (cap_legacy min_cap max_cap : Nat) :
    ∀ (levels : List tpdf), levels ≠ [] →
      (∀ level ∈ levels, level.irand = H.FFSI_DIVERGING) →
      ∀ acc, levels.foldl (soft_level H self cap_legacy min_cap max_cap) acc = cap_legacy := by
  intro levels
  induction levels with
  | nil => intro h; exact absurd rfl h
  | cons level rest ih =>
    intro _ hd acc
    have h1 : soft_level H self cap_legacy min_cap max_cap acc level = cap_legacy := by
      unfold soft_level
      rw [if_pos (hd level (List.mem_cons_self _ _))]
    rw [List.foldl_cons, h1]
    cases rest with
    | nil => rfl
    | cons l2 rest2 =>
      exact ih (List.cons_ne_nil _ _) (fun l hl => hd l (List.mem_cons_of_mem _ hl)) _

theorem u32_u32 (n : Nat) : u32 (u32 n) = u32 n := by
  unfold u32; omega

theorem soft_level_add (H : ffsi_header) (self : ffsi_class) (cap_legacy min_cap max_cap : Nat)
    (acc : Nat) (level : tpdf) (hd : level.irand ≠ H.FFSI_DIVERGING) :
    soft_level H self cap_legacy min_cap max_cap acc level =
      u32 (acc + soft_contrib H self cap_legacy min_cap max_cap level) := by
  unfold soft_contrib soft_level
  simp only [if_neg hd, Nat.zero_add, u32_u32]
  split_ifs <;> rw [u32_add_u32]

theorem soft_fold_sum (H : ffsi_header) (self : ffsi_class) (cap_legacy min_cap max_cap : Nat) :
    ∀ (levels : List tpdf), (∀ level ∈ levels, level.irand ≠ H.FFSI_DIVERGING) →
      ∀ acc, u32 (levels.foldl (soft_level H self cap_legacy min_cap max_cap) acc) =
        u32 (acc + (levels.map (soft_contrib H self cap_legacy min_cap max_cap)).sum) := by
  intro levels
  induction levels with
  | nil => intro _ acc; simp
  | cons level rest ih =>
    intro hd acc
    rw [List.foldl_cons, ih (fun l hl => hd l (List.mem_cons_of_mem _ hl)),
      soft_level_add H self cap_legacy min_cap max_cap acc level (hd level (List.mem_cons_self _ _)),
      u32_u32_add, List.map_cons, List.sum_cons, Nat.add_assoc]

theorem soft_fold_reduced (H : ffsi_header) (self : ffsi_class)
    (cap_legacy min_cap max_cap : Nat) :
    ∀ (levels : List tpdf), levels ≠ [] →
      (∀ level ∈ levels, level.irand ≠ H.FFSI_DIVERGING) →
      ∀ acc, levels.foldl (soft_level H self cap_legacy min_cap max_cap) acc < 4294967296 := by
  intro levels
  induction levels with
  | nil => intro h; exact absurd rfl h
  | cons level rest ih =>
    intro _ hd acc
    rw [List.foldl_cons]
    cases rest with
    | nil =>
      rw [List.foldl_nil, soft_level_add H self cap_legacy min_cap max_cap acc level
        (hd level (List.mem_cons_self _ _))]
      exact u32_lt _
    | cons l2 rest2 =>
      exact ih (List.cons_ne_nil _ _) (fun l hl => hd l (List.mem_cons_of_mem _ hl)) _

theorem soft_result (H : ffsi_header) (self : ffsi_class) (v : rand_var) (cap_legacy : Nat)
    (hne : self.tpdf_cascade ≠ []) (hpos : 0 < cap_legacy) :
    (ffsi_cap_soft_bettor H self v cap_legacy).1 =
      self.tpdf_cascade.foldl
        (soft_level H self cap_legacy
          (mult_frac cap_legacy self.elasticity.theta_numer self.elasticity.theta_denom)
          (mult_frac cap_legacy self.elasticity.gamma_numer self.elasticity.gamma_denom)) 0 := by
  unfold ffsi_cap_soft_bettor
  simp only [isEmpty_false_of_ne hne, Bool.false_eq_true, if_false,
    if_neg (Nat.pos_iff_ne_zero.mp hpos)]

theorem soft_sum_no_diverging (H : ffsi_header) (self : ffsi_class) (v : rand_var)
    (cap_legacy : Nat) (hne : self.tpdf_cascade ≠ []) (hpos : 0 < cap_legacy)
    (hd : ∀ level ∈ self.tpdf_cascade, level.irand ≠ H.FFSI_DIVERGING) :
    (ffsi_cap_soft_bettor H self v cap_legacy).1 =
      u32 ((self.tpdf_cascade.map (soft_contrib H self cap_legacy
        (mult_frac cap_legacy self.elasticity.theta_numer self.elasticity.theta_denom)
        (mult_frac cap_legacy self.elasticity.gamma_numer
          self.elasticity.gamma_denom))).sum) := by
  rw [soft_result H self v cap_legacy hne hpos]
  generalize mult_frac cap_legacy self.elasticity.theta_numer
    self.elasticity.theta_denom = min_cap
  generalize mult_frac cap_legacy self.elasticity.gamma_numer
    self.elasticity.gamma_denom = max_cap
  have h := soft_fold_sum H self cap_legacy min_cap max_cap self.tpdf_cascade hd 0
  rw [Nat.zero_add] at h
  rw [← h]
  exact (u32_of_lt
    (soft_fold_reduced H self cap_legacy min_cap max_cap self.tpdf_cascade hne hd 0)).symm

theorem soft_fold_after_diverging (H : ffsi_header) (self : ffsi_class)
    (cap_legacy min_cap max_cap : Nat) (pre post : List tpdf) (d : tpdf)
    (hdd : d.irand = H.FFSI_DIVERGING) :
    (pre ++ d :: post).foldl (soft_level H self cap_legacy min_cap max_cap) 0 =
      post.foldl (soft_level H self cap_legacy min_cap max_cap) cap_legacy := by
  rw [List.foldl_append, List.foldl_cons]
  congr 1
  unfold soft_level
  rw [if_pos hdd]

theorem sum_u32_mul (k : Nat) (levels : List tpdf) :
    u32 ((levels.map (fun l => u32 (l.weight * k))).sum) =
      u32 ((levels.map (fun l => l.weight)).sum * k) := by
  induction levels with
  | nil => simp
  | cons l rest ih =>
    simp only [List.map_cons, List.sum_cons]
    rw [← u32_add_u32, ih, u32_add_u32, u32_u32_add, Nat.add_mul]

theorem soft_contrib_neutral (H : ffsi_header) (self : ffsi_class)
    (cap_legacy min_cap max_cap : Nat) (level : tpdf)
    (hn : level.irand = self.stats.rand_neutral) (hd : level.irand ≠ H.FFSI_DIVERGING) :
    soft_contrib H self cap_legacy min_cap max_cap level =
      u32 (level.weight * (cap_legacy >>> self.capa_denom)) := by
  unfold soft_contrib soft_level
  rw [if_neg hd, if_neg (by omega), if_neg (by omega), Nat.zero_add, u32_u32]

theorem soft_divisor_pos (r n i : Nat) (hr : r < 4294967296) (hi : i < r) (hn : n < i) :
    1 ≤ usub (usub r n) 1 ∧ usub (usub r n) 1 = r - n - 1 := by
  have e1 : usub r n = r - n := usub_of_le hr (by omega)
  rw [e1, usub_of_le (by omega) (by omega)]
  omega

theorem soft_level_chk_some (H : ffsi_header) (self : ffsi_class)
    (cap_legacy min_cap max_cap new_cap : Nat) (level : tpdf)
    (hr : self.resilience < 4294967296)
    (hi : level.irand < self.resilience ∨ level.irand = H.FFSI_DIVERGING) :
    soft_level_chk H self cap_legacy min_cap max_cap new_cap level =
      some (soft_level H self cap_legacy min_cap max_cap new_cap level) := by
  unfold soft_level_chk soft_level
  by_cases hd : level.irand = H.FFSI_DIVERGING
  · rw [if_pos hd, if_pos hd]
  · have hi : level.irand < self.resilience := hi.resolve_right hd
    rw [if_neg hd, if_neg hd]
    by_cases h1 : level.irand < self.stats.rand_neutral
    · rw [if_pos h1, if_pos h1, mult_frac_chk_some _ _ _ (by omega)]
      rfl
    · rw [if_neg h1, if_neg h1]
      by_cases h2 : level.irand > self.stats.rand_neutral
      · rw [if_pos h2, if_pos h2, mult_frac_chk_some _ _ _
          (by have := (soft_divisor_pos _ _ _ hr hi h2).1; omega)]
        rfl
      · rw [if_neg h2, if_neg h2]

theorem soft_levels_chk_some (H : ffsi_header) (self : ffsi_class)
    (cap_legacy min_cap max_cap : Nat) (hr : self.resilience < 4294967296) :
    ∀ (levels : List tpdf) (new_cap : Nat),
      (∀ level ∈ levels, level.irand < self.resilience ∨ level.irand = H.FFSI_DIVERGING) →
      soft_levels_chk H self cap_legacy min_cap max_cap new_cap levels =
        some (levels.foldl (soft_level H self cap_legacy min_cap max_cap) new_cap) := by
  intro levels
  induction levels with
  | nil => intro _ _; rfl
  | cons level rest ih =>
    intro new_cap hi
    simp only [soft_levels_chk,
      soft_level_chk_some H self cap_legacy min_cap max_cap new_cap level hr
        (hi level (List.mem_cons_self _ _)), List.foldl_cons]
    exact ih _ (fun l hl => hi l (List.mem_cons_of_mem _ hl))

theorem soft_cap_exact_mono (self : ffsi_class) (cap_legacy min_cap max_cap : Nat)
    (hmin : min_cap ≤ cap_legacy) (hmax : cap_legacy ≤ max_cap) (i j : Nat) (hij : i ≤ j)
    (hj : j < self.resilience) :
    soft_cap_exact self cap_legacy min_cap max_cap i ≤
      soft_cap_exact self cap_legacy min_cap max_cap j := by
  have low : ∀ k, k < self.stats.rand_neutral →
      min_cap + (cap_legacy - min_cap) * k / self.stats.rand_neutral ≤ cap_legacy := by
    intro k hk
    have : (cap_legacy - min_cap) * k / self.stats.rand_neutral ≤ cap_legacy - min_cap := by
      apply Nat.div_le_of_le_mul
      rw [Nat.mul_comm self.stats.rand_neutral]
      exact Nat.mul_le_mul_left _ (Nat.le_of_lt hk)
    omega
  have high : ∀ k, self.stats.rand_neutral < k → k < self.resilience →
      cap_legacy ≤ max_cap - (max_cap - cap_legacy) * (self.resilience - k - 1) /
        (self.resilience - self.stats.rand_neutral - 1) := by
    intro k hk hkr
    have : (max_cap - cap_legacy) * (self.resilience - k - 1) /
        (self.resilience - self.stats.rand_neutral - 1) ≤ max_cap - cap_legacy := by
      apply Nat.div_le_of_le_mul
      rw [Nat.mul_comm (self.resilience - self.stats.rand_neutral - 1)]
      exact Nat.mul_le_mul_left _ (by omega)
    omega
  unfold soft_cap_exact
  by_cases hi1 : i < self.stats.rand_neutral
  · rw [if_pos hi1]
    by_cases hj1 : j < self.stats.rand_neutral
    · rw [if_pos hj1]
      exact Nat.add_le_add_left
        (Nat.div_le_div_right (Nat.mul_le_mul_left _ hij)) _
    · rw [if_neg hj1]
      by_cases hj2 : j > self.stats.rand_neutral
      · rw [if_pos hj2]
        exact Nat.le_trans (low i hi1) (high j hj2 hj)
      · rw [if_neg hj2]
        exact low i hi1
  · rw [if_neg hi1]
    by_cases hi2 : i > self.stats.rand_neutral
    · rw [if_pos hi2, if_neg (by omega), if_pos (by omega)]
      exact Nat.sub_le_sub_left
        (Nat.div_le_div_right (Nat.mul_le_mul_left _ (by omega))) _
    · rw [if_neg hi2]
      have hin : i = self.stats.rand_neutral := by omega
      by_cases hj2 : j > self.stats.rand_neutral
      · rw [if_neg (by omega), if_pos hj2]
        exact high j hj2 hj
      · rw [if_neg (by omega), if_neg hj2]

theorem soft_contrib_exact (H : ffsi_header) (self : ffsi_class)
    (cap_legacy min_cap max_cap : Nat) (level : tpdf) (i : Nat)
    (hmin : min_cap ≤ cap_legacy) (hmax : cap_legacy ≤ max_cap) (h32 : max_cap < 4294967296)
    (hr : self.resilience < 4294967296) (hdiv : self.resilience ≤ H.FFSI_DIVERGING)
    (hi : i < self.resilience)
    (hw : soft_no_wrap self cap_legacy min_cap max_cap level.weight i) :
    soft_contrib H self cap_legacy min_cap max_cap { level with irand := i } =
      level.weight * (soft_cap_exact self cap_legacy min_cap max_cap i >>> self.capa_denom) := by
  have hd : i ≠ H.FFSI_DIVERGING := by omega
  unfold soft_contrib soft_level soft_cap_exact
  unfold soft_no_wrap at hw
  simp only [if_neg hd, Nat.zero_add, u32_u32]
  by_cases h1 : i < self.stats.rand_neutral
  · rw [if_pos h1] at hw ⊢
    rw [if_pos h1]
    obtain ⟨a, b, c⟩ := hw
    have es : usub cap_legacy min_cap = cap_legacy - min_cap := usub_of_le (by omega) hmin
    have hle : (cap_legacy - min_cap) * i / self.stats.rand_neutral ≤ cap_legacy - min_cap := by
      apply Nat.div_le_of_le_mul
      rw [Nat.mul_comm self.stats.rand_neutral]
      exact Nat.mul_le_mul_left _ (Nat.le_of_lt h1)
    have em : mult_frac (usub cap_legacy min_cap) i self.stats.rand_neutral =
        (cap_legacy - min_cap) * i / self.stats.rand_neutral := by
      rw [es] at a b ⊢
      exact mult_frac_exact _ _ _ (by omega) a b (by omega)
    rw [em] at c ⊢
    have eu : u32 (min_cap + (cap_legacy - min_cap) * i / self.stats.rand_neutral) =
        min_cap + (cap_legacy - min_cap) * i / self.stats.rand_neutral := u32_of_lt (by omega)
    rw [eu] at c ⊢
    exact u32_of_lt c
  · rw [if_neg h1] at hw ⊢
    rw [if_neg h1]
    by_cases h2 : i > self.stats.rand_neutral
    · rw [if_pos h2] at hw ⊢
      rw [if_pos h2]
      obtain ⟨a, b, c⟩ := hw
      have es : usub max_cap cap_legacy = max_cap - cap_legacy := usub_of_le h32 hmax
      have ek : usub (usub self.resilience i) 1 = self.resilience - i - 1 := by
        rw [usub_of_le hr (Nat.le_of_lt hi), usub_of_le (by omega) (by omega)]
      have emm := (soft_divisor_pos self.resilience self.stats.rand_neutral i hr hi h2)
      have hle : (max_cap - cap_legacy) * (self.resilience - i - 1) /
          (self.resilience - self.stats.rand_neutral - 1) ≤ max_cap - cap_legacy := by
        apply Nat.div_le_of_le_mul
        rw [Nat.mul_comm (self.resilience - self.stats.rand_neutral - 1)]
        exact Nat.mul_le_mul_left _ (by omega)
      have em : mult_frac (usub max_cap cap_legacy) (usub (usub self.resilience i) 1)
          (usub (usub self.resilience self.stats.rand_neutral) 1) =
          (max_cap - cap_legacy) * (self.resilience - i - 1) /
            (self.resilience - self.stats.rand_neutral - 1) := by
        rw [es, ek, emm.2] at a b ⊢
        exact mult_frac_exact _ _ _ (by omega) a b (by omega)
      rw [em] at c ⊢
      have eu : usub max_cap ((max_cap - cap_legacy) * (self.resilience - i - 1) /
          (self.resilience - self.stats.rand_neutral - 1)) =
          max_cap - (max_cap - cap_legacy) * (self.resilience - i - 1) /
            (self.resilience - self.stats.rand_neutral - 1) := usub_of_le h32 (by omega)
      rw [eu] at c ⊢
      exact u32_of_lt c
    · rw [if_neg h2] at hw ⊢
      rw [if_neg h2]
      exact u32_of_lt hw

/-! ## The claims -/

theorem ex_fresh : ∀ t ∈ ex_vessel.tpdf_cascade, t.fresh := by
  intro t ht
  simp only [ex_vessel, List.mem_cons, List.mem_singleton, List.not_mem_nil, or_false] at ht
  rcases ht with rfl | rfl <;> exact ⟨by decide, rfl, rfl⟩

/-- Claim C1, as amended.  Take a cascade of fresh levels (all buckets zero, nothing
counted), `0 < FFSI_TPDF_CUMSUM < 2 ^ 32`, and any finite sequence of `learn` calls.  The
buckets of an unbounded-window level add up to at most `FFSI_TPDF_CUMSUM + pc_cnt`, with
`pc_cnt < FFSI_TPDF_CUMSUM`, hence to less than `2 * FFSI_TPDF_CUMSUM`.  The buckets of a
finite-window level add up to at most `window_count`, which is at most `window_size`, as
long as no more calls were made than the window holds.  When the finite-window levels
start with an empty ring buffer and a 32-bit window size above 0, the buckets of such a
level add up, after any number of calls, to at most `window_count` as long as its rescale
is pending, and to at most
`window_count + (window_size + 1) * FFSI_TPDF_CUMSUM / window_size` once its first
carve-out has rescaled it; a cascade whose finite-window levels have no rescale pending
at the start keeps their sums at most `window_count`. -/
theorem learn_sum_bound (H : ffsi_header) (hC0 : 0 < H.FFSI_TPDF_CUMSUM)
    (hC : H.FFSI_TPDF_CUMSUM < 4294967296) (self : ffsi_class) (vs : List rand_var)
    (hfresh : ∀ t ∈ self.tpdf_cascade, t.fresh) :
    ∀ t ∈ (learn_all H self vs).tpdf_cascade,
      (t.win_infty = true →
        t.qtbl.sum ≤ H.FFSI_TPDF_CUMSUM + t.pc_cnt ∧ t.pc_cnt < H.FFSI_TPDF_CUMSUM ∧
          t.qtbl.sum < 2 * H.FFSI_TPDF_CUMSUM) ∧
      (t.win_infty = false → vs.length ≤ t.window_size →
        t.qtbl.sum ≤ t.window_count ∧ t.window_count ≤ t.window_size) ∧
      (t.win_infty = false →
        (∀ t0 ∈ self.tpdf_cascade, t0.win_infty = false →
          t0.cache = [] ∧ 0 < t0.window_size ∧ t0.window_size < 4294967296) →
        t.window_count ≤ t.window_size ∧
        t.qtbl.sum ≤
          t.window_count + (t.window_size + 1) * H.FFSI_TPDF_CUMSUM / t.window_size ∧
        (t.need_rescale = true → t.qtbl.sum ≤ t.window_count) ∧
        ((∀ t0 ∈ self.tpdf_cascade, t0.win_infty = false → t0.need_rescale = false) →
          t.qtbl.sum ≤ t.window_count)) := by
  intro t ht
  refine ⟨?_, ?_, ?_⟩
  · intro hin
    obtain ⟨h1, h2, h3⟩ := learn_all_inf_ok H hC self vs
      (fun t ht _ => fresh_inf_ok H hC0 t (hfresh t ht)) t ht hin
    refine ⟨?_, ?_, ?_⟩ <;> omega
  · intro hin hlen
    obtain ⟨h1, h2⟩ := learn_all_fin_ok H self vs
      (fun t ht _ => fresh_fin_ok t (hfresh t ht)) t ht hin hlen
    refine ⟨?_, ?_⟩ <;> omega
  · intro hin h0
    obtain ⟨_, _, hinv⟩ := learn_all_fin_inv H
      (fun W => (W + 1) * H.FFSI_TPDF_CUMSUM / W) self vs
      (fun t0 ht0 hf => ⟨(h0 t0 ht0 hf).2.1, (h0 t0 ht0 hf).2.2,
        fresh_fin_inv _ _ t0 (hfresh t0 ht0) (h0 t0 ht0 hf).1 (fun _ => Nat.le_refl _)⟩)
      t ht hin
    obtain ⟨s1, s2, _⟩ := fin_inv_sum _ _ t hinv
    refine ⟨hinv.2.1, s1, s2, fun hnr => ?_⟩
    obtain ⟨_, _, hinv0⟩ := learn_all_fin_inv H (fun _ => 0) self vs
      (fun t0 ht0 hf => ⟨(h0 t0 ht0 hf).2.1, (h0 t0 ht0 hf).2.2,
        fresh_fin_inv _ _ t0 (hfresh t0 ht0) (h0 t0 ht0 hf).1
          (fun h => by rw [hnr t0 ht0 hf] at h; cases h)⟩)
      t ht hin
    exact (fin_inv_sum _ _ t hinv0).2.2 rfl

/-- Witness of C1 (amended): the two fresh levels of `ex_vessel` after five samples of
bucket 3; the level with a window of 2 has carved out and holds a sum of 5, within
`2 + 3 * 4 / 2`. -/
theorem learn_sum_bound_witness :
    (0 < ex_header.FFSI_TPDF_CUMSUM ∧ ex_header.FFSI_TPDF_CUMSUM < 4294967296 ∧
      (∀ t0 ∈ ex_vessel.tpdf_cascade, t0.win_infty = false →
        t0.cache = [] ∧ 0 < t0.window_size ∧ t0.window_size < 4294967296)) ∧
    (learn_all ex_header ex_vessel (List.replicate 5 ex_sample)).tpdf_cascade.map
        (fun t => (t.win_infty, t.qtbl.sum, t.window_count)) = [(true, 5, 4), (false, 5, 2)] ∧
    ∀ t ∈ (learn_all ex_header ex_vessel (List.replicate 5 ex_sample)).tpdf_cascade,
      (t.win_infty = true →
        t.qtbl.sum ≤ ex_header.FFSI_TPDF_CUMSUM + t.pc_cnt ∧
          t.pc_cnt < ex_header.FFSI_TPDF_CUMSUM ∧
          t.qtbl.sum < 2 * ex_header.FFSI_TPDF_CUMSUM) ∧
      (t.win_infty = false → (List.replicate 5 ex_sample).length ≤ t.window_size →
        t.qtbl.sum ≤ t.window_count ∧ t.window_count ≤ t.window_size) ∧
      (t.win_infty = false →
        (∀ t0 ∈ ex_vessel.tpdf_cascade, t0.win_infty = false →
          t0.cache = [] ∧ 0 < t0.window_size ∧ t0.window_size < 4294967296) →
        t.window_count ≤ t.window_size ∧
        t.qtbl.sum ≤
          t.window_count + (t.window_size + 1) * ex_header.FFSI_TPDF_CUMSUM / t.window_size ∧
        (t.need_rescale = true → t.qtbl.sum ≤ t.window_count) ∧
        ((∀ t0 ∈ ex_vessel.tpdf_cascade, t0.win_infty = false → t0.need_rescale = false) →
          t.qtbl.sum ≤ t.window_count)) :=
  ⟨by decide, by decide,
   learn_sum_bound ex_header (by decide) (by decide) ex_vessel (List.replicate 5 ex_sample)
     ex_fresh⟩

/-- Counterexample to C1 as stated.  With `FFSI_TPDF_CUMSUM = 4`, five samples in
bucket 3 bring both fresh levels of `ex_vessel`, the unbounded one and the one with a
window of 2, to a sum of 5. -/
theorem learn_sum_exceeds_cumsum :
    (∀ t ∈ ex_vessel.tpdf_cascade, t.fresh) ∧
    (learn_all ex_header ex_vessel (List.replicate 5 ex_sample)).tpdf_cascade.map
        (fun t => (t.win_infty, t.qtbl.sum)) = [(true, 5), (false, 5)] ∧
    ¬ (∀ t ∈ (learn_all ex_header ex_vessel (List.replicate 5 ex_sample)).tpdf_cascade,
        t.qtbl.sum ≤ ex_header.FFSI_TPDF_CUMSUM) := by
  refine ⟨ex_fresh, by decide, by decide⟩

/-- Claim C2.  A saturated sample (`nval == ubound`) leaves every level of the cascade
as it was: histogram, window count, rescale counter, ring buffer and all other
fields. -/
theorem learn_saturated_frame (H : ffsi_header) (self : ffsi_class) (v : rand_var)
    (h : v.nval = v.ubound) :
    (ffsi_job_probability_collapse H self v).tpdf_cascade = self.tpdf_cascade := by
  unfold ffsi_job_probability_collapse
  split_ifs <;> rfl

/-- Witness of C2: the saturated sample `ex_choke` on `ex_vessel`. -/
theorem learn_saturated_frame_witness :
    ex_choke.nval = ex_choke.ubound ∧
    (ffsi_job_probability_collapse ex_header ex_vessel ex_choke).tpdf_cascade =
      [ex_level_inf, ex_level_fin] :=
  ⟨rfl, learn_saturated_frame ex_header ex_vessel ex_choke rfl⟩

/-- Claim C3, as amended.  For a vessel with a non-empty cascade whose `choke_cnt` is
not the all-ones 32-bit pattern, a saturated sample increases `choke_cnt` by exactly
one. -/
theorem learn_saturated_choke (H : ffsi_header) (self : ffsi_class) (v : rand_var)
    (hne : self.tpdf_cascade ≠ []) (h : v.nval = v.ubound)
    (hmax : self.stats.choke_cnt < 4294967295) :
    (ffsi_job_probability_collapse H self v).stats.choke_cnt = self.stats.choke_cnt + 1 := by
  unfold ffsi_job_probability_collapse
  simp only [isEmpty_false_of_ne hne, h, if_true, Bool.false_eq_true, if_false]
  exact Nat.mod_eq_of_lt (by omega)

/-- Witness of C3 (amended): the saturated sample `ex_choke` on `ex_vessel`. -/
theorem learn_saturated_choke_witness :
    (ex_vessel.tpdf_cascade ≠ [] ∧ ex_choke.nval = ex_choke.ubound ∧
      ex_vessel.stats.choke_cnt < 4294967295) ∧
    (ffsi_job_probability_collapse ex_header ex_vessel ex_choke).stats.choke_cnt = 0 + 1 :=
  ⟨by decide, learn_saturated_choke ex_header ex_vessel ex_choke (by decide) rfl (by decide)⟩

/-- Counterexample to C3 as stated.  On a vessel with an empty cascade a saturated
sample leaves `choke_cnt` at 0; and a 32-bit `choke_cnt` which holds the all-ones
pattern becomes 0. -/
theorem learn_saturated_choke_not_counted :
    (ex_choke.nval = ex_choke.ubound ∧ new_vessel.stats.choke_cnt = 0 ∧
      (ffsi_job_probability_collapse ex_header new_vessel ex_choke).stats.choke_cnt ≠ 0 + 1) ∧
    (ffsi_job_probability_collapse ex_header
        { ex_vessel with stats := { ex_vessel.stats with choke_cnt := 4294967295 } }
        ex_choke).stats.choke_cnt = 0 := by
  decide

/-- Claim C4.  With a histogram `h` as both the learned and the reference histogram,
`kl_diversity` is 0, and so is `kl_asymm_diversity` on either plane (for a histogram
with at least one bucket). -/
theorem kl_diversity_self (h : tpdf) :
    kl_diversity h h.qtbl = 0 ∧
    (0 < h.qlvl → ∀ side : kld_plane, kl_asymm_diversity h h.qtbl side = 0) := by
  refine ⟨?_, fun _ side => ?_⟩
  · unfold kl_diversity
    rw [kl_fold_self]
    rfl
  · unfold kl_asymm_diversity
    simp only []
    rw [kl_fold_self]
    rfl

/-- Witness of C4: the histogram `ex_hist`, on both planes. -/
theorem kl_diversity_self_witness :
    0 < ex_hist.qlvl ∧
    kl_diversity ex_hist ex_hist.qtbl = 0 ∧
    kl_asymm_diversity ex_hist ex_hist.qtbl kld_plane.KLD_LPLANE = 0 ∧
    kl_asymm_diversity ex_hist ex_hist.qtbl kld_plane.KLD_RPLANE = 0 :=
  ⟨by decide, (kl_diversity_self ex_hist).1,
   (kl_diversity_self ex_hist).2 (by decide) kld_plane.KLD_LPLANE,
   (kl_diversity_self ex_hist).2 (by decide) kld_plane.KLD_RPLANE⟩

/-- The search whenever the divergence against reference 0 is not the sentinel: for a
resilience between 2 and 16 and fuel of at least 18, the search returns an index below the
resilience; and then `infer` returns an index below the resilience or
`FFSI_DIVERGING`, given that the stored indices were so. -/
theorem search_index_in_range (H : ffsi_header) (mold : List Nat) (r fuel : Nat)
    (h2 : 2 ≤ r) (h16 : r ≤ 16) (hf : 18 ≤ fuel) :
    (∀ targ : tpdf, kl_asymm_diversity targ mold kld_plane.KLD_RPLANE ≠ kld_unset →
      ∃ i, __gs_on_kld H targ mold r fuel = some i ∧ i < r) ∧
    (∀ self : ffsi_class, self.resilience = r →
      (∀ level ∈ self.tpdf_cascade, is_tpdf_prepared H level = true → level.pc_cnt = 0 →
        kl_asymm_diversity level mold kld_plane.KLD_RPLANE ≠ kld_unset) →
      (∀ level ∈ self.tpdf_cascade, level.irand < r ∨ level.irand = H.FFSI_DIVERGING) →
      ∃ i self', ffsi_search_nearest_job_tpdf H mold fuel self = some (i, self') ∧
        (i < r ∨ i = H.FFSI_DIVERGING)) := by
  refine ⟨fun targ h0 => gs_on_kld_some H targ mold r fuel h2 h16 hf h0, ?_⟩
  intro self hr h0 hi
  unfold ffsi_search_nearest_job_tpdf
  split_ifs with he
  · exact ⟨_, _, rfl, Or.inr rfl⟩
  · obtain ⟨levels', e, hl, ho⟩ := search_levels_ok H mold r fuel h2 h16 hf
      self.tpdf_cascade h0 hi
    rw [hr, e]
    cases levels' with
    | nil =>
      have : self.tpdf_cascade = [] := List.length_eq_zero.mp hl.symm
      rw [this] at he
      exact absurd rfl he
    | cons level rest =>
      exact ⟨_, _, rfl, ho level (List.mem_cons_self _ _)⟩

/-- Instance of the search on `ex_ready` and on `ex_ready_vessel`. -/
theorem search_index_in_range_witness :
    (2 ≤ 8 ∧ 8 ≤ 16 ∧ 18 ≤ 18) ∧
    (∃ i, __gs_on_kld ex_header ex_ready ex_mold 8 18 = some i ∧ i < 8) ∧
    (∃ i self', ffsi_search_nearest_job_tpdf ex_header ex_mold 18 ex_ready_vessel =
        some (i, self') ∧ (i < 8 ∨ i = ex_header.FFSI_DIVERGING)) :=
  ⟨by decide,
   (search_index_in_range ex_header ex_mold 8 18 (by decide) (by decide) (by decide)).1
     ex_ready (by decide),
   (search_index_in_range ex_header ex_mold 8 18 (by decide) (by decide) (by decide)).2
     ex_ready_vessel rfl (by decide) (by decide)⟩

/-- Beyond the bound of C5 on the histogram.  The level `hit_level` holds a count of
53356034, which a level can hold only when `FFSI_TPDF_CUMSUM` is of that order; its
right-plane divergence against row 0 of `hit_mold` is -269488145, the `int` which
compares equal to `__INFTY`, and the search with resilience 2 returns no index, whatever
the fuel. -/
theorem search_never_returns :
    kl_asymm_diversity hit_level (hit_mold.drop (0 * hit_header.FFSI_QUANT_STEP))
      kld_plane.KLD_RPLANE = -269488145 ∧
    ¬ ∃ fuel i, __gs_on_kld hit_header hit_level hit_mold 2 fuel = some i := by
  refine ⟨by decide, ?_⟩
  rintro ⟨fuel, i, h⟩
  have hn : __gs_on_kld hit_header hit_level hit_mold 2 fuel = none :=
    gs_on_none _ (by decide) 2 fuel (by decide) (by decide)
  rw [hn] at h
  cases h

/-- Claim C6.  For a non-empty cascade in which every level is diverging, the soft
bettor returns the legacy capacity, whatever it is. -/
theorem soft_bettor_all_diverging (H : ffsi_header) (self : ffsi_class) (v : rand_var)
    (cap_legacy : Nat) (hne : self.tpdf_cascade ≠ [])
    (hd : ∀ level ∈ self.tpdf_cascade, level.irand = H.FFSI_DIVERGING) :
    (ffsi_cap_soft_bettor H self v cap_legacy).1 = cap_legacy := by
  unfold ffsi_cap_soft_bettor
  simp only [isEmpty_false_of_ne hne, Bool.false_eq_true, if_false]
  split_ifs with h0
  · exact h0.symm
  · exact soft_fold_diverging H self cap_legacy _ _ _ hne hd 0

/-- Witness of C6: `ex_vessel`, whose two levels are diverging, with legacy 1000. -/
theorem soft_bettor_all_diverging_witness :
    (ex_vessel.tpdf_cascade ≠ [] ∧
      ∀ level ∈ ex_vessel.tpdf_cascade, level.irand = ex_header.FFSI_DIVERGING) ∧
    (ffsi_cap_soft_bettor ex_header ex_vessel ex_sample 1000).1 = 1000 :=
  ⟨by decide, soft_bettor_all_diverging ex_header ex_vessel ex_sample 1000 (by decide)
    (by decide)⟩

/-- Claim C7.  With non-zero elasticity denominators, both bettors return the legacy
capacity on an empty cascade, and 0 for a legacy capacity of 0 on a non-empty one; in
both cases the vessel (its `save_total` and every level) is left as it was. -/
theorem bettors_short_circuit (H : ffsi_header) (d2u : List Nat) (self : ffsi_class)
    (v : rand_var) (_hθ : self.elasticity.theta_denom ≠ 0)
    (_hγ : self.elasticity.gamma_denom ≠ 0) :
    (self.tpdf_cascade = [] → ∀ cap_legacy,
      ffsi_cap_soft_bettor H self v cap_legacy = (cap_legacy, self) ∧
      ffsi_cap_strict_bettor H d2u self v cap_legacy = (cap_legacy, self)) ∧
    (self.tpdf_cascade ≠ [] →
      ffsi_cap_soft_bettor H self v 0 = (0, self) ∧
      ffsi_cap_strict_bettor H d2u self v 0 = (0, self)) := by
  constructor
  · intro he cap_legacy
    unfold ffsi_cap_soft_bettor ffsi_cap_strict_bettor
    simp [he]
  · intro hne
    unfold ffsi_cap_soft_bettor ffsi_cap_strict_bettor
    simp [isEmpty_false_of_ne hne]

/-- Witness of C7: the empty `new_vessel` with legacy 1000, and `ex_vessel` with
legacy 0. -/
theorem bettors_short_circuit_witness :
    (ex_vessel.elasticity.theta_denom ≠ 0 ∧ ex_vessel.elasticity.gamma_denom ≠ 0) ∧
    (ffsi_cap_soft_bettor ex_header new_vessel ex_sample 1000 = (1000, new_vessel) ∧
      ffsi_cap_strict_bettor ex_header ex_mold new_vessel ex_sample 1000 =
        (1000, new_vessel)) ∧
    (ffsi_cap_soft_bettor ex_header ex_vessel ex_sample 0 = (0, ex_vessel) ∧
      ffsi_cap_strict_bettor ex_header ex_mold ex_vessel ex_sample 0 = (0, ex_vessel)) :=
  ⟨by decide,
   (bettors_short_circuit ex_header ex_mold new_vessel ex_sample (by decide) (by decide)).1
     rfl 1000,
   (bettors_short_circuit ex_header ex_mold ex_vessel ex_sample (by decide) (by decide)).2
     (by decide)⟩

/-- Claim C8, as amended.  For a non-empty cascade and a legacy capacity above 0, the
strict bettor returns `min_cap + cap_unit * steps` reduced modulo `2 ^ 32`, where
`min_cap = legacy * theta`, `max_cap = legacy * gamma`,
`cap_unit = (max_cap - min_cap) >> capa_denom` and `steps` is the sum over the levels
which are not diverging of `weight * (irand - opt_skew)`; the result lies between
`min_cap` and `max_cap` whenever `min_cap ≤ max_cap` and `steps ≤ 2 ^ capa_denom`. -/
theorem strict_bettor_bounds (H : ffsi_header) (d2u : List Nat) (self : ffsi_class)
    (v : rand_var) (cap_legacy : Nat) (hne : self.tpdf_cascade ≠ []) (hpos : 0 < cap_legacy) :
    (ffsi_cap_strict_bettor H d2u self v cap_legacy).1 =
      u32 (mult_frac cap_legacy self.elasticity.theta_numer self.elasticity.theta_denom +
        (usub (mult_frac cap_legacy self.elasticity.gamma_numer self.elasticity.gamma_denom)
            (mult_frac cap_legacy self.elasticity.theta_numer self.elasticity.theta_denom)
          >>> self.capa_denom) *
        strict_steps H d2u self v cap_legacy
          (usub (mult_frac cap_legacy self.elasticity.gamma_numer self.elasticity.gamma_denom)
            (mult_frac cap_legacy self.elasticity.theta_numer self.elasticity.theta_denom)
            >>> self.capa_denom) self.tpdf_cascade) ∧
    (mult_frac cap_legacy self.elasticity.theta_numer self.elasticity.theta_denom ≤
        mult_frac cap_legacy self.elasticity.gamma_numer self.elasticity.gamma_denom →
      strict_steps H d2u self v cap_legacy
          (usub (mult_frac cap_legacy self.elasticity.gamma_numer self.elasticity.gamma_denom)
            (mult_frac cap_legacy self.elasticity.theta_numer self.elasticity.theta_denom)
            >>> self.capa_denom) self.tpdf_cascade ≤ 2 ^ self.capa_denom →
      mult_frac cap_legacy self.elasticity.theta_numer self.elasticity.theta_denom ≤
          (ffsi_cap_strict_bettor H d2u self v cap_legacy).1 ∧
        (ffsi_cap_strict_bettor H d2u self v cap_legacy).1 ≤
          mult_frac cap_legacy self.elasticity.gamma_numer self.elasticity.gamma_denom) := by
  generalize hmin : mult_frac cap_legacy self.elasticity.theta_numer
    self.elasticity.theta_denom = min_cap
  generalize hmax : mult_frac cap_legacy self.elasticity.gamma_numer
    self.elasticity.gamma_denom = max_cap
  have hminlt : min_cap < 4294967296 := hmin ▸ mult_frac_lt _ _ _
  have hmaxlt : max_cap < 4294967296 := hmax ▸ mult_frac_lt _ _ _
  have hres : (ffsi_cap_strict_bettor H d2u self v cap_legacy).1 =
      self.tpdf_cascade.foldl
        (strict_level H d2u self v cap_legacy (usub max_cap min_cap >>> self.capa_denom))
        min_cap := by
    unfold ffsi_cap_strict_bettor
    simp only [isEmpty_false_of_ne hne, Bool.false_eq_true, if_false,
      if_neg (Nat.pos_iff_ne_zero.mp hpos), hmin, hmax]
  have hform : (ffsi_cap_strict_bettor H d2u self v cap_legacy).1 =
      u32 (min_cap + (usub max_cap min_cap >>> self.capa_denom) *
        strict_steps H d2u self v cap_legacy (usub max_cap min_cap >>> self.capa_denom)
          self.tpdf_cascade) := by
    rw [hres, ← strict_fold_mod]
    exact (u32_of_lt (strict_fold_lt H d2u self v cap_legacy _ _ _ hminlt)).symm
  refine ⟨hform, fun hle hsteps => ?_⟩
  have hsub : usub max_cap min_cap = max_cap - min_cap := by
    unfold usub u32; omega
  have hunit : (usub max_cap min_cap >>> self.capa_denom) *
      strict_steps H d2u self v cap_legacy (usub max_cap min_cap >>> self.capa_denom)
        self.tpdf_cascade ≤ max_cap - min_cap := by
    calc _ ≤ (usub max_cap min_cap >>> self.capa_denom) * 2 ^ self.capa_denom :=
          Nat.mul_le_mul_left _ hsteps
      _ = (max_cap - min_cap) / 2 ^ self.capa_denom * 2 ^ self.capa_denom := by
          rw [hsub, Nat.shiftRight_eq_div_pow]
      _ ≤ max_cap - min_cap := Nat.div_mul_le_self _ _
  rw [hform, u32_of_lt (by omega)]
  constructor <;> omega

/-- Witness of C8 (amended): `bet_vessel` with legacy 4000; the level at index 3 gets
skew 1, the result is 2000 + 1500 * 2. -/
theorem strict_bettor_bounds_witness :
    (bet_vessel.tpdf_cascade ≠ [] ∧ 0 < 4000) ∧
    (ffsi_cap_strict_bettor ex_header bet_table bet_vessel ex_sample 4000).1 = 5000 ∧
    mult_frac 4000 bet_vessel.elasticity.theta_numer bet_vessel.elasticity.theta_denom ≤
        (ffsi_cap_strict_bettor ex_header bet_table bet_vessel ex_sample 4000).1 ∧
      (ffsi_cap_strict_bettor ex_header bet_table bet_vessel ex_sample 4000).1 ≤
        mult_frac 4000 bet_vessel.elasticity.gamma_numer bet_vessel.elasticity.gamma_denom :=
  ⟨by decide,
   ((strict_bettor_bounds ex_header bet_table bet_vessel ex_sample 4000 (by decide)
      (by decide)).1).trans (by decide),
   (strict_bettor_bounds ex_header bet_table bet_vessel ex_sample 4000 (by decide)
      (by decide)).2 (by decide) (by decide)⟩

/-- Counterexample to C8 as stated.  With theta = 1/2, gamma = 1/1, legacy 2000 (so
`min_cap = 1000`, `max_cap = 2000`) and one level of weight 1: at index 6 with
`flat_table` the strict bettor returns 0, below `min_cap`; at index 7 with
`steep_table` it returns 8000, above `max_cap`. -/
theorem strict_bettor_out_of_bounds :
    (mult_frac 2000 1 2 = 1000 ∧ mult_frac 2000 1 1 = 2000 ∧
      6 < (tight_vessel 6).resilience ∧ 7 < (tight_vessel 7).resilience) ∧
    (ffsi_cap_strict_bettor ex_header flat_table (tight_vessel 6) ex_sample 2000).1 = 0 ∧
    (ffsi_cap_strict_bettor ex_header steep_table (tight_vessel 7) ex_sample 2000).1 = 8000 := by
  decide

/-- Claim C9, as amended.  The cascade holds its levels in the reverse of the order of
insertion: after `A`, `B`, `C` are added in that order to a vessel with an empty
cascade, the cascade is `C`, `B`, `A`; `learn` updates the levels in that order,
`infer` searches them in that order and returns the index of `C`, the level inserted
last, and the soft bettor accumulates `C`, then `B`, then `A`. -/
theorem cascade_order (H : ffsi_header) (mold : List Nat) (fuel : Nat) (vessel : ffsi_class)
    (A B C : tpdf) (v : rand_var) (cap_legacy : Nat)
    (hnil : vessel.tpdf_cascade = [])
    (h2 : 2 ≤ vessel.resilience) (h16 : vessel.resilience ≤ 16) (hf : 18 ≤ fuel)
    (h0 : ∀ level ∈ [A, B, C], is_tpdf_prepared H level = true → level.pc_cnt = 0 →
      kl_asymm_diversity level mold kld_plane.KLD_RPLANE ≠ kld_unset)
    (hv : v.nval ≠ v.ubound) (hpos : 0 < cap_legacy) :
    (ffsi_tpdf_cascading (ffsi_tpdf_cascading (ffsi_tpdf_cascading vessel A) B) C).tpdf_cascade
      = [C, B, A] ∧
    (ffsi_job_probability_collapse H
        (ffsi_tpdf_cascading (ffsi_tpdf_cascading (ffsi_tpdf_cascading vessel A) B) C)
        v).tpdf_cascade
      = [collapse_level H v C, collapse_level H v B, collapse_level H v A] ∧
    (∃ A' B' C', search_level H mold vessel.resilience fuel A = some A' ∧
      search_level H mold vessel.resilience fuel B = some B' ∧
      search_level H mold vessel.resilience fuel C = some C' ∧
      ffsi_search_nearest_job_tpdf H mold fuel
          (ffsi_tpdf_cascading (ffsi_tpdf_cascading (ffsi_tpdf_cascading vessel A) B) C)
        = some (C'.irand, { vessel with tpdf_cascade := [C', B', A'] })) ∧
    (ffsi_cap_soft_bettor H
        (ffsi_tpdf_cascading (ffsi_tpdf_cascading (ffsi_tpdf_cascading vessel A) B) C)
        v cap_legacy).1
      = soft_level H
          (ffsi_tpdf_cascading (ffsi_tpdf_cascading (ffsi_tpdf_cascading vessel A) B) C)
          cap_legacy
          (mult_frac cap_legacy vessel.elasticity.theta_numer vessel.elasticity.theta_denom)
          (mult_frac cap_legacy vessel.elasticity.gamma_numer vessel.elasticity.gamma_denom)
          (soft_level H
            (ffsi_tpdf_cascading (ffsi_tpdf_cascading (ffsi_tpdf_cascading vessel A) B) C)
            cap_legacy
            (mult_frac cap_legacy vessel.elasticity.theta_numer vessel.elasticity.theta_denom)
            (mult_frac cap_legacy vessel.elasticity.gamma_numer vessel.elasticity.gamma_denom)
            (soft_level H
              (ffsi_tpdf_cascading (ffsi_tpdf_cascading (ffsi_tpdf_cascading vessel A) B) C)
              cap_legacy
              (mult_frac cap_legacy vessel.elasticity.theta_numer vessel.elasticity.theta_denom)
              (mult_frac cap_legacy vessel.elasticity.gamma_numer vessel.elasticity.gamma_denom)
              0 C) B) A := by
  have hc : (ffsi_tpdf_cascading (ffsi_tpdf_cascading (ffsi_tpdf_cascading vessel A) B)
      C).tpdf_cascade = [C, B, A] := by
    simp [ffsi_tpdf_cascading, list_add, hnil]
  refine ⟨hc, ?_, ?_, ?_⟩
  · unfold ffsi_job_probability_collapse
    rw [hc]
    simp [hv]
  · obtain ⟨A', eA, _⟩ := search_level_some H mold _ fuel h2 h16 hf A
      (h0 A (by simp))
    obtain ⟨B', eB, _⟩ := search_level_some H mold _ fuel h2 h16 hf B
      (h0 B (by simp))
    obtain ⟨C', eC, _⟩ := search_level_some H mold _ fuel h2 h16 hf C
      (h0 C (by simp))
    refine ⟨A', B', C', eA, eB, eC, ?_⟩
    have hr : (ffsi_tpdf_cascading (ffsi_tpdf_cascading (ffsi_tpdf_cascading vessel A) B)
        C).resilience = vessel.resilience := rfl
    unfold ffsi_search_nearest_job_tpdf
    rw [hc, hr]
    simp only [search_levels, eA, eB, eC, List.isEmpty_cons, Bool.false_eq_true, if_false]
    rfl
  · unfold ffsi_cap_soft_bettor
    rw [hc]
    simp only [List.isEmpty_cons, Bool.false_eq_true, if_false,
      if_neg (Nat.pos_iff_ne_zero.mp hpos), List.foldl_cons, List.foldl_nil]
    rfl

/-- Witness of C9 (amended): `lvl_a`, `lvl_b`, `lvl_c` added to `new_vessel`; `infer`
returns 3, the index of `lvl_c`. -/
theorem cascade_order_witness :
    (new_vessel.tpdf_cascade = [] ∧ ex_sample.nval ≠ ex_sample.ubound) ∧
    (ffsi_tpdf_cascading (ffsi_tpdf_cascading (ffsi_tpdf_cascading new_vessel lvl_a) lvl_b)
      lvl_c).tpdf_cascade = [lvl_c, lvl_b, lvl_a] :=
  ⟨by decide,
   (cascade_order ex_header ex_mold 18 new_vessel lvl_a lvl_b lvl_c ex_sample 1000 rfl
      (by decide) (by decide) (by decide) (by decide) (by decide) (by decide)).1⟩

/-- Counterexample to C9 as stated.  After `lvl_a`, `lvl_b`, `lvl_c` are added in that
order, the cascade is not `lvl_a`, `lvl_b`, `lvl_c` but its reverse, as
`ffsi_build_tpdf_cascade` leaves it too, and `infer` returns 3, the index of `lvl_c`, and
not 1, the index of `lvl_a`. -/
theorem cascade_order_reversed :
    (ffsi_tpdf_cascading (ffsi_tpdf_cascading (ffsi_tpdf_cascading new_vessel lvl_a) lvl_b)
      lvl_c).tpdf_cascade ≠ [lvl_a, lvl_b, lvl_c] ∧
    (ffsi_build_tpdf_cascade new_vessel lvl_a lvl_b lvl_c).tpdf_cascade =
      [lvl_c, lvl_b, lvl_a] ∧
    (ffsi_search_nearest_job_tpdf ex_header ex_mold 18
      (ffsi_tpdf_cascading (ffsi_tpdf_cascading (ffsi_tpdf_cascading new_vessel lvl_a) lvl_b)
        lvl_c)).map (fun x => x.1) = some 3 ∧
    lvl_a.irand = 1 ∧ lvl_c.irand = 3 := by
  decide

/-- Claim C10, the code at the failing input.  For the histogram `ex_mid`, whose only
count is in bucket `qlvl / 2 = 2`, the left plane of `kl_asymm_diversity` is 2 and not
the sum 0 over the buckets `[0, qlvl / 2)`; it changes with the count of bucket
`qlvl / 2`; and left plus right is 4, while `kl_diversity` is 2. -/
theorem kl_asymm_lower_reads_middle :
    kl_asymm_diversity ex_mid [0, 0, 1, 0] kld_plane.KLD_LPLANE = 2 ∧
    kl_over ex_mid [0, 0, 1, 0] 0 (ex_mid.qlvl / 2) = 0 ∧
    kl_asymm_diversity { ex_mid with qtbl := [0, 0, 0, 0] } [0, 0, 1, 0]
      kld_plane.KLD_LPLANE = 0 ∧
    kl_asymm_diversity ex_mid [0, 0, 1, 0] kld_plane.KLD_RPLANE = 2 ∧
    kl_over ex_mid [0, 0, 1, 0] (ex_mid.qlvl / 2) ex_mid.qlvl = 2 ∧
    kl_diversity ex_mid [0, 0, 1, 0] = 2 := by
  decide

/-- Claim C11.  A finite-window level which has learned as many samples as its window
holds (`window_count = window_size`) answers every further learned sample with one
carve-out: the bucket of the sample is incremented, the sample is recorded, the rescaler
runs (it changes nothing once the pending rescale is done), the oldest recorded bucket
leaves the ring buffer and its count is decremented, floored at zero; `window_count`
stays at the window size.  Hence a cascade whose finite levels start with
`window_count ≤ window_size` keeps it so under every sequence of `learn` calls. -/
theorem carve_out_on_full_window (H : ffsi_header) :
    (∀ (v : rand_var) (level : tpdf), level.win_infty = false →
      level.window_count = level.window_size →
      ¬ u32 (H.RV_TAILORED level v) < level.qlvl / 2 →
      collapse_level H v level =
        ffsi_tpdf_carving_out H
          { level with
            qtbl := qtbl_incr level.qtbl (u32 (H.RV_TAILORED level v)),
            cache := tfifo_in level.cache (u32 (H.RV_TAILORED level v)) } ∧
      (collapse_level H v level).qtbl =
        qtbl_decr
          (ffsi_tpdf_rescaler H
            { level with
              qtbl := qtbl_incr level.qtbl (u32 (H.RV_TAILORED level v)) }).qtbl
          ((level.cache ++ [u32 (H.RV_TAILORED level v)]).headD 0) ∧
      (level.need_rescale = false →
        (collapse_level H v level).qtbl =
          qtbl_decr (qtbl_incr level.qtbl (u32 (H.RV_TAILORED level v)))
            ((level.cache ++ [u32 (H.RV_TAILORED level v)]).headD 0)) ∧
      (collapse_level H v level).cache =
        (level.cache ++ [u32 (H.RV_TAILORED level v)]).tail ∧
      (∀ oldest rest, level.cache = oldest :: rest →
        (level.cache ++ [u32 (H.RV_TAILORED level v)]).headD 0 = oldest ∧
        (collapse_level H v level).cache = rest ++ [u32 (H.RV_TAILORED level v)]) ∧
      (collapse_level H v level).window_count = level.window_size ∧
      (collapse_level H v level).window_size = level.window_size) ∧
    (∀ (self : ffsi_class) (vs : List rand_var),
      (∀ t ∈ self.tpdf_cascade, t.win_infty = false → t.window_count ≤ t.window_size) →
      ∀ t ∈ (learn_all H self vs).tpdf_cascade,
        t.win_infty = false → t.window_count ≤ t.window_size) := by
  refine ⟨?_, fun self vs h0 => learn_all_count_le H self vs h0⟩
  intro v level hfin hfull hsc
  have hstep : collapse_level H v level =
      ffsi_tpdf_carving_out H
        { level with
          qtbl := qtbl_incr level.qtbl (u32 (H.RV_TAILORED level v)),
          cache := tfifo_in level.cache (u32 (H.RV_TAILORED level v)) } := by
    unfold collapse_level
    simp only [hfin, Bool.false_eq_true, if_false, if_neg hsc]
    rw [if_pos (by omega)]
  rw [hstep]
  refine ⟨rfl, ?_, ?_, ?_, ?_, ?_, ?_⟩
  · unfold ffsi_tpdf_carving_out ffsi_tpdf_rescaler tfifo_out tfifo_in
    dsimp only
    split_ifs <;> rfl
  · intro hn
    unfold ffsi_tpdf_carving_out ffsi_tpdf_rescaler tfifo_out tfifo_in
    simp [hn]
  · unfold ffsi_tpdf_carving_out ffsi_tpdf_rescaler tfifo_out tfifo_in
    dsimp only
    split_ifs <;> rfl
  · intro oldest rest hc
    unfold ffsi_tpdf_carving_out ffsi_tpdf_rescaler tfifo_out tfifo_in
    dsimp only
    rw [hc]
    split_ifs <;> simp
  · unfold ffsi_tpdf_carving_out ffsi_tpdf_rescaler
    dsimp only
    split_ifs <;> exact hfull
  · unfold ffsi_tpdf_carving_out ffsi_tpdf_rescaler
    dsimp only
    split_ifs <;> rfl

/-- Witness of C11: a window of 4 samples and five samples in the buckets 8 to 12.  The
first four fill the window; the fifth evicts bucket 8, whose count goes back to 0, and
`window_count` stays 4. -/
theorem carve_out_on_full_window_witness :
    learn_level ex_header ring_level
        [ring_sample 8, ring_sample 9, ring_sample 10, ring_sample 11] = ring_full ∧
    (learn_all ex_header ring_vessel
        [ring_sample 8, ring_sample 9, ring_sample 10, ring_sample 11,
          ring_sample 12]).tpdf_cascade =
      [collapse_level ex_header (ring_sample 12) ring_full] ∧
    (collapse_level ex_header (ring_sample 12) ring_full).qtbl =
      [0, 0, 0, 0, 0, 0, 0, 0, 0, 1, 1, 1, 1, 0, 0, 0] ∧
    ((ring_full.cache ++ [u32 (ex_header.RV_TAILORED ring_full (ring_sample 12))]).headD 0 = 8 ∧
      (collapse_level ex_header (ring_sample 12) ring_full).cache =
        [9, 10, 11] ++ [u32 (ex_header.RV_TAILORED ring_full (ring_sample 12))]) ∧
    (collapse_level ex_header (ring_sample 12) ring_full).window_count =
      ring_full.window_size :=
  ⟨by decide, by decide, by decide,
    ((carve_out_on_full_window ex_header).1 (ring_sample 12) ring_full (by decide) (by decide)
      (by decide)).2.2.2.2.1 8 [9, 10, 11] rfl,
    ((carve_out_on_full_window ex_header).1 (ring_sample 12) ring_full (by decide) (by decide)
      (by decide)).2.2.2.2.2.1⟩

/-- Claim C13.  The cascade after `stop` is the cascade before with `stop_level` applied
to every level.  For a finite-window level the table has as many buckets as before, all
zero, the rescale counter `pc_cnt` and the window occupancy are zero, and the window size
and the kind of window are kept; an unbounded-window level is left exactly as it was, in
every field. -/
theorem stopper_frame (self : ffsi_class) :
    (ffsi_stopper self).tpdf_cascade = self.tpdf_cascade.map stop_level ∧
    (∀ cur : tpdf, cur.win_infty = false →
      (stop_level cur).qtbl = List.replicate cur.qlvl 0 ∧
      (∀ q ∈ (stop_level cur).qtbl, q = 0) ∧ (stop_level cur).qlvl = cur.qlvl ∧
      (stop_level cur).pc_cnt = 0 ∧ (stop_level cur).window_count = 0 ∧
      (stop_level cur).window_size = cur.window_size ∧
      (stop_level cur).win_infty = false) ∧
    (∀ cur : tpdf, cur.win_infty = true → stop_level cur = cur) := by
  refine ⟨rfl, fun cur hfin => ?_, fun cur hinf => ?_⟩
  · unfold stop_level
    rw [if_pos hfin]
    refine ⟨rfl, ?_, ?_, rfl, rfl, rfl, hfin⟩
    · intro q hq
      exact (List.mem_replicate.mp hq).2
    · simp [tpdf.qlvl]
  · unfold stop_level
    rw [if_neg (by simp [hinf])]

/-- Claim C14.  With `ASYMMETRIC_INFERENCE` compiled in, a sample whose bucket is below
`qlvl / 2` leaves a level unchanged in every field.  A sample whose bucket `b` is at or
above `qlvl / 2` is learned: `qtbl[b]` is set to `qtbl[b] + 1` (32-bit), and then the
window is advanced by the count, the equilibrator, the ring buffer or the carve-out, as
the kind and occupancy of the window demand.  While the window has not filled, a sample
of a bucket of the table leaves `qtbl[b] + 1` in its bucket, the other buckets as they
were and `window_count` one higher, so the level is not the level it was.  A sample which
is not saturated runs this on every level of the cascade. -/
theorem learn_ignores_lower_half (H : ffsi_header) (v : rand_var) :
    (∀ level : tpdf, u32 (H.RV_TAILORED level v) < level.qlvl / 2 →
      collapse_level H v level = level) ∧
    (∀ level : tpdf, ¬ u32 (H.RV_TAILORED level v) < level.qlvl / 2 →
      (level.win_infty = true → level.window_count < H.FFSI_TPDF_CUMSUM →
        collapse_level H v level =
          { level with
            qtbl := level.qtbl.set (u32 (H.RV_TAILORED level v))
              (u32 (level.qtbl.getD (u32 (H.RV_TAILORED level v)) 0 + 1)),
            window_count := level.window_count + 1 }) ∧
      (level.win_infty = true → H.FFSI_TPDF_CUMSUM ≤ level.window_count →
        collapse_level H v level =
          ffsi_tpdf_equilibrator H
            { level with
              qtbl := level.qtbl.set (u32 (H.RV_TAILORED level v))
                (u32 (level.qtbl.getD (u32 (H.RV_TAILORED level v)) 0 + 1)) }) ∧
      (level.win_infty = false → level.window_count < level.window_size →
        collapse_level H v level =
          { level with
            qtbl := level.qtbl.set (u32 (H.RV_TAILORED level v))
              (u32 (level.qtbl.getD (u32 (H.RV_TAILORED level v)) 0 + 1)),
            cache := level.cache ++ [u32 (H.RV_TAILORED level v)],
            window_count := level.window_count + 1 }) ∧
      (level.win_infty = false → level.window_size ≤ level.window_count →
        collapse_level H v level =
          ffsi_tpdf_carving_out H
            { level with
              qtbl := level.qtbl.set (u32 (H.RV_TAILORED level v))
                (u32 (level.qtbl.getD (u32 (H.RV_TAILORED level v)) 0 + 1)),
              cache := level.cache ++ [u32 (H.RV_TAILORED level v)] }) ∧
      ((level.win_infty = true ∧ level.window_count < H.FFSI_TPDF_CUMSUM ∨
          level.win_infty = false ∧ level.window_count < level.window_size) →
        u32 (H.RV_TAILORED level v) < level.qlvl →
        (collapse_level H v level).qtbl.getD (u32 (H.RV_TAILORED level v)) 0 =
          u32 (level.qtbl.getD (u32 (H.RV_TAILORED level v)) 0 + 1) ∧
        (∀ j, j ≠ u32 (H.RV_TAILORED level v) →
          (collapse_level H v level).qtbl.getD j 0 = level.qtbl.getD j 0) ∧
        (collapse_level H v level).window_count = level.window_count + 1 ∧
        collapse_level H v level ≠ level)) ∧
    (∀ self : ffsi_class, v.nval ≠ v.ubound →
      (ffsi_job_probability_collapse H self v).tpdf_cascade =
        self.tpdf_cascade.map (collapse_level H v)) := by
  have c1 : ∀ level : tpdf, ¬ u32 (H.RV_TAILORED level v) < level.qlvl / 2 →
      level.win_infty = true → level.window_count < H.FFSI_TPDF_CUMSUM →
      collapse_level H v level =
        { level with
          qtbl := level.qtbl.set (u32 (H.RV_TAILORED level v))
            (u32 (level.qtbl.getD (u32 (H.RV_TAILORED level v)) 0 + 1)),
          window_count := level.window_count + 1 } := by
    intro level h hi hc
    unfold collapse_level qtbl_incr
    simp only [h, if_false, hi, if_true]
    rw [if_neg (by omega)]
  have c3 : ∀ level : tpdf, ¬ u32 (H.RV_TAILORED level v) < level.qlvl / 2 →
      level.win_infty = false → level.window_count < level.window_size →
      collapse_level H v level =
        { level with
          qtbl := level.qtbl.set (u32 (H.RV_TAILORED level v))
            (u32 (level.qtbl.getD (u32 (H.RV_TAILORED level v)) 0 + 1)),
          cache := level.cache ++ [u32 (H.RV_TAILORED level v)],
          window_count := level.window_count + 1 } := by
    intro level h hi hc
    unfold collapse_level qtbl_incr tfifo_in
    simp only [h, if_false, hi, Bool.false_eq_true]
    rw [if_neg (by omega)]
  refine ⟨fun level h => ?_, fun level h => ⟨c1 level h, ?_, c3 level h, ?_, ?_⟩,
    fun self hv => ?_⟩
  · unfold collapse_level
    simp only [h, if_true]
  · intro hi hc
    unfold collapse_level qtbl_incr
    simp only [h, if_false, hi, if_true]
    rw [if_pos (by omega)]
  · intro hi hc
    unfold collapse_level qtbl_incr tfifo_in
    simp only [h, if_false, hi, Bool.false_eq_true]
    rw [if_pos (by omega)]
  · intro hcase hb
    have hq : (collapse_level H v level).qtbl =
        level.qtbl.set (u32 (H.RV_TAILORED level v))
          (u32 (level.qtbl.getD (u32 (H.RV_TAILORED level v)) 0 + 1)) ∧
        (collapse_level H v level).window_count = level.window_count + 1 := by
      rcases hcase with ⟨hi, hc⟩ | ⟨hi, hc⟩
      · rw [c1 level h hi hc]; exact ⟨rfl, rfl⟩
      · rw [c3 level h hi hc]; exact ⟨rfl, rfl⟩
    refine ⟨by rw [hq.1]; exact getD_set_self _ _ _ hb,
      fun j hj => by rw [hq.1]; exact getD_set_other _ _ _ _ hj, hq.2, fun he => ?_⟩
    have := hq.2
    rw [he] at this
    omega
  · unfold ffsi_job_probability_collapse
    cases hc : self.tpdf_cascade with
    | nil => simp [hc]
    | cons a l => simp [hv]

/-- Witness of C14: with 4 buckets, a sample of bucket 1 leaves both levels of `ex_vessel`
and the vessel as they were; a sample of bucket 3 leaves `[0, 0, 0, 1]` in both levels,
counts 1 and records bucket 3 in the ring buffer of the finite window; five samples of
bucket 3 run the equilibrator of the unbounded window once and carve out of the window of
2. -/
theorem learn_ignores_lower_half_witness :
    collapse_level ex_header low_sample ex_level_inf = ex_level_inf ∧
    collapse_level ex_header low_sample ex_level_fin = ex_level_fin ∧
    learn_all ex_header ex_vessel [low_sample] = ex_vessel ∧
    (collapse_level ex_header ex_sample ex_level_inf).qtbl = [0, 0, 0, 1] ∧
    (collapse_level ex_header ex_sample ex_level_inf).window_count = 1 ∧
    (collapse_level ex_header ex_sample ex_level_fin).qtbl = [0, 0, 0, 1] ∧
    (collapse_level ex_header ex_sample ex_level_fin).cache = [3] ∧
    (collapse_level ex_header ex_sample ex_level_fin).window_count = 1 ∧
    (learn_all ex_header ex_vessel [low_sample, ex_sample]).tpdf_cascade.map
        (fun t => (t.qtbl, t.window_count, t.cache)) =
      [([0, 0, 0, 1], 1, []), ([0, 0, 0, 1], 1, [3])] ∧
    (learn_all ex_header ex_vessel (List.replicate 5 ex_sample)).tpdf_cascade.map
        (fun t => (t.qtbl, t.window_count, t.pc_cnt, t.cache)) =
      [([0, 0, 0, 5], 4, 1, []), ([0, 0, 0, 5], 2, 0, [3, 3])] :=
  ⟨(learn_ignores_lower_half ex_header low_sample).1 ex_level_inf (by decide),
    (learn_ignores_lower_half ex_header low_sample).1 ex_level_fin (by decide),
    by decide, by decide, by decide, by decide, by decide, by decide, by decide, by decide⟩

/-- Claim C16, amended.  For a non-empty cascade and a legacy capacity above 0: when no
level is diverging, the result of the soft bettor is the 32-bit sum of the contributions
of all levels; when a level is diverging, the result is the legacy capacity plus the
contributions of the levels visited after the last diverging level (modulo `2 ^ 32`),
whatever the levels visited before it contribute, and it is the legacy capacity itself
when the diverging level is visited last. -/
theorem soft_bettor_sum (H : ffsi_header) (self : ffsi_class) (v : rand_var)
    (cap_legacy : Nat) (hne : self.tpdf_cascade ≠ []) (hpos : 0 < cap_legacy) :
    ((∀ level ∈ self.tpdf_cascade, level.irand ≠ H.FFSI_DIVERGING) →
      (ffsi_cap_soft_bettor H self v cap_legacy).1 =
        u32 ((self.tpdf_cascade.map (soft_contrib H self cap_legacy
          (mult_frac cap_legacy self.elasticity.theta_numer self.elasticity.theta_denom)
          (mult_frac cap_legacy self.elasticity.gamma_numer
            self.elasticity.gamma_denom))).sum)) ∧
    (∀ (pre post : List tpdf) (d : tpdf), self.tpdf_cascade = pre ++ d :: post →
      d.irand = H.FFSI_DIVERGING → (∀ level ∈ post, level.irand ≠ H.FFSI_DIVERGING) →
      (post = [] → (ffsi_cap_soft_bettor H self v cap_legacy).1 = cap_legacy) ∧
      u32 (ffsi_cap_soft_bettor H self v cap_legacy).1 =
        u32 (cap_legacy + (post.map (soft_contrib H self cap_legacy
          (mult_frac cap_legacy self.elasticity.theta_numer self.elasticity.theta_denom)
          (mult_frac cap_legacy self.elasticity.gamma_numer
            self.elasticity.gamma_denom))).sum)) := by
  refine ⟨fun hd => soft_sum_no_diverging H self v cap_legacy hne hpos hd, ?_⟩
  intro pre post d hc hdd hpost
  rw [soft_result H self v cap_legacy hne hpos, hc,
    soft_fold_after_diverging H self cap_legacy _ _ pre post d hdd]
  exact ⟨fun hp => by rw [hp]; rfl, soft_fold_sum H self cap_legacy _ _ post hpost cap_legacy⟩

/-- Witness of C16: a diverging level followed by a level at index 3 with weight 1, legacy
capacity 8000; the result is 8000 + 1750. -/
theorem soft_bettor_sum_witness :
    late_vessel.tpdf_cascade ≠ [] ∧ 0 < 8000 ∧
    u32 (ffsi_cap_soft_bettor ex_header late_vessel ex_sample 8000).1 =
      u32 (8000 + ([bet_level 3 1].map (soft_contrib ex_header late_vessel 8000
        (mult_frac 8000 late_vessel.elasticity.theta_numer late_vessel.elasticity.theta_denom)
        (mult_frac 8000 late_vessel.elasticity.gamma_numer
          late_vessel.elasticity.gamma_denom))).sum) ∧
    (ffsi_cap_soft_bettor ex_header late_vessel ex_sample 8000).1 = 9750 :=
  ⟨by decide, by decide,
    ((soft_bettor_sum ex_header late_vessel ex_sample 8000 (by decide) (by decide)).2 []
      [bet_level 3 1] (bet_level 4294967295 2) rfl rfl (by decide)).2,
    by decide⟩

/-- Counterexample to C16 as worded: a level at index 3, whose contribution is 1750,
followed by a diverging level, legacy capacity 8000.  The soft bettor returns 8000, not
the sum 1750 + 8000 of the contributions. -/
theorem soft_bettor_diverging_discards :
    bet_vessel.tpdf_cascade = [bet_level 3 1, bet_level 4294967295 2] ∧
    soft_contrib ex_header bet_vessel 8000
      (mult_frac 8000 bet_vessel.elasticity.theta_numer bet_vessel.elasticity.theta_denom)
      (mult_frac 8000 bet_vessel.elasticity.gamma_numer bet_vessel.elasticity.gamma_denom)
      (bet_level 3 1) = 1750 ∧
    (ffsi_cap_soft_bettor ex_header bet_vessel ex_sample 8000).1 = 8000 ∧
    ¬ ((ffsi_cap_soft_bettor ex_header bet_vessel ex_sample 8000).1 = u32 (1750 + 8000)) := by
  decide

/-- Claim C17, amended.  For a non-empty cascade all of whose levels are at the neutral
index (which is not the diverging one) and a legacy capacity above 0, the soft bettor
returns `total_weight * (legacy >> capa_denom)` modulo `2 ^ 32`.  It returns the legacy
capacity when, in addition, the legacy capacity is a 32-bit value and a multiple of
`2 ^ capa_denom`, and the total weight is `2 ^ capa_denom`. -/
theorem soft_bettor_neutral (H : ffsi_header) (self : ffsi_class) (v : rand_var)
    (cap_legacy : Nat) (hne : self.tpdf_cascade ≠ []) (hpos : 0 < cap_legacy)
    (hall : ∀ level ∈ self.tpdf_cascade,
      level.irand = self.stats.rand_neutral ∧ level.irand ≠ H.FFSI_DIVERGING) :
    (ffsi_cap_soft_bettor H self v cap_legacy).1 =
      u32 ((self.tpdf_cascade.map (fun l => l.weight)).sum *
        (cap_legacy >>> self.capa_denom)) ∧
    (cap_legacy < 4294967296 → 2 ^ self.capa_denom ∣ cap_legacy →
      (self.tpdf_cascade.map (fun l => l.weight)).sum = 2 ^ self.capa_denom →
      (ffsi_cap_soft_bettor H self v cap_legacy).1 = cap_legacy) := by
  have h1 := soft_sum_no_diverging H self v cap_legacy hne hpos (fun l hl => (hall l hl).2)
  have hmap : self.tpdf_cascade.map (soft_contrib H self cap_legacy
      (mult_frac cap_legacy self.elasticity.theta_numer self.elasticity.theta_denom)
      (mult_frac cap_legacy self.elasticity.gamma_numer self.elasticity.gamma_denom)) =
      self.tpdf_cascade.map (fun l => u32 (l.weight * (cap_legacy >>> self.capa_denom))) := by
    apply List.map_congr_left
    intro l hl
    exact soft_contrib_neutral H self cap_legacy _ _ l (hall l hl).1 (hall l hl).2
  have hres : (ffsi_cap_soft_bettor H self v cap_legacy).1 =
      u32 ((self.tpdf_cascade.map (fun l => l.weight)).sum *
        (cap_legacy >>> self.capa_denom)) := by
    rw [h1, hmap, sum_u32_mul]
  refine ⟨hres, fun hlt hdvd hw => ?_⟩
  rw [hres, hw, Nat.shiftRight_eq_div_pow, Nat.mul_div_cancel' hdvd]
  exact u32_of_lt hlt

/-- Witness of C17: the cascade built from the weights 2, 1 and 1 (total weight 4,
`capa_denom = 2`), every level at the neutral index, legacy capacity 8000. -/
theorem soft_bettor_neutral_witness :
    pow_vessel.tpdf_cascade ≠ [] ∧ 0 < 8000 ∧
    (∀ level ∈ pow_vessel.tpdf_cascade,
      level.irand = pow_vessel.stats.rand_neutral ∧ level.irand ≠ ex_header.FFSI_DIVERGING) ∧
    pow_vessel.capa_denom = 2 ∧
    (ffsi_cap_soft_bettor ex_header pow_vessel ex_sample 8000).1 = 8000 :=
  ⟨by decide, by decide, by decide, by decide,
    (soft_bettor_neutral ex_header pow_vessel ex_sample 8000 (by decide) (by decide)
      (by decide)).2 (by decide) (by decide) (by decide)⟩

/-- Counterexample to C17 as worded: the cascade built from the weights 4, 2 and 1 has
`capa_denom = floor (log2 (7 + 1)) = 3`; with every level at the neutral index and the
legacy capacity 8000, a multiple of 8, the soft bettor returns 7000. -/
theorem soft_bettor_neutral_shrinks :
    odd_vessel.tpdf_cascade ≠ [] ∧
    odd_vessel.capa_denom = ilog2 (4 + 2 + 1 + 1) ∧ odd_vessel.capa_denom = 3 ∧
    (∀ level ∈ odd_vessel.tpdf_cascade, level.irand = odd_vessel.stats.rand_neutral) ∧
    8000 % 2 ^ odd_vessel.capa_denom = 0 ∧
    (ffsi_cap_soft_bettor ex_header odd_vessel ex_sample 8000).1 = 7000 := by
  decide

/-- Claim C18.  On an empty cascade `infer` returns `FFSI_DIVERGING` and leaves the vessel
as it is.  On a cascade all of whose levels are short of samples (`window_count` below the
window size of a finite window, below `FFSI_TPDF_CUMSUM` for an unbounded one) it returns
the index the first level already had and leaves the vessel as it is.  Whenever `infer`
returns, the vessel differs in its cascade only, every level differs in `irand` only
(so no histogram changes), and a level short of samples is unchanged.  With
`2 ≤ resilience ≤ 16`, 18 rounds of fuel and no prepared level whose divergence against
reference 0 is the sentinel, `infer` returns. -/
theorem infer_frame (H : ffsi_header) (mold : List Nat) (fuel : Nat) (self : ffsi_class) :
    (self.tpdf_cascade = [] →
      ffsi_search_nearest_job_tpdf H mold fuel self = some (H.FFSI_DIVERGING, self)) ∧
    (∀ first rest, self.tpdf_cascade = first :: rest →
      (∀ l ∈ self.tpdf_cascade, short_of_samples H l) →
      ffsi_search_nearest_job_tpdf H mold fuel self = some (first.irand, self)) ∧
    (∀ i self', ffsi_search_nearest_job_tpdf H mold fuel self = some (i, self') →
      self' = { self with tpdf_cascade := self'.tpdf_cascade } ∧
      List.Forall₂ (infer_keeps H) self.tpdf_cascade self'.tpdf_cascade) ∧
    (2 ≤ self.resilience → self.resilience ≤ 16 → 18 ≤ fuel →
      (∀ level ∈ self.tpdf_cascade, is_tpdf_prepared H level = true → level.pc_cnt = 0 →
        kl_asymm_diversity level mold kld_plane.KLD_RPLANE ≠ kld_unset) →
      ∃ i self', ffsi_search_nearest_job_tpdf H mold fuel self = some (i, self')) := by
  refine ⟨fun he => ?_, fun first rest hc hs => ?_, fun i self' h => ?_, fun h2 h16 hf h0 => ?_⟩
  · unfold ffsi_search_nearest_job_tpdf
    simp [he]
  · unfold ffsi_search_nearest_job_tpdf
    rw [search_levels_idle H mold _ fuel _ hs, hc]
    simp only [List.isEmpty_cons, Bool.false_eq_true, if_false]
    rw [← hc]
  · unfold ffsi_search_nearest_job_tpdf at h
    by_cases he : self.tpdf_cascade.isEmpty = true
    · rw [if_pos he] at h
      injection h with h
      injection h with h1 h2
      subst h2
      have : self.tpdf_cascade = [] := List.isEmpty_iff.mp he
      refine ⟨rfl, ?_⟩
      rw [this]
      exact List.Forall₂.nil
    · rw [if_neg he] at h
      cases hs : search_levels H mold self.resilience fuel self.tpdf_cascade with
      | none => rw [hs] at h; cases h
      | some ls =>
        rw [hs] at h
        cases ls with
        | nil => cases h
        | cons l rest =>
          simp only at h
          injection h with h
          injection h with h1 h2
          subst h2
          exact ⟨rfl, search_levels_frame H mold _ fuel _ _ hs⟩
  · obtain ⟨ls, hs⟩ := search_levels_some H mold _ fuel h2 h16 hf self.tpdf_cascade h0
    have hfr := search_levels_frame H mold _ fuel _ _ hs
    unfold ffsi_search_nearest_job_tpdf
    by_cases he : self.tpdf_cascade.isEmpty = true
    · rw [if_pos he]
      exact ⟨_, _, rfl⟩
    · rw [if_neg he, hs]
      cases ls with
      | nil =>
        have := List.Forall₂.length_eq hfr
        have hnil : self.tpdf_cascade = [] := List.length_eq_zero.mp this
        rw [hnil] at he
        exact absurd rfl he
      | cons l rest => exact ⟨_, _, rfl⟩

/-- The final scan whenever the divergence against reference 0 is not the sentinel
0xEFEFEFEF, for `2 ≤ r ≤ 16`: the search returns an index `i < r` which was evaluated
during probing (its memo entry holds its divergence, not the sentinel).  The index is 0 or
its `|divergence|` is below 269488145, the `abs` of the sentinel; among the evaluated
indices with a `|divergence|` below 269488145, `i` has the least `|divergence|` and is
the lowest such index. -/
theorem search_picks_least (H : ffsi_header) (targ : tpdf) (mold : List Nat) (r fuel : Nat)
    (h2 : 2 ≤ r) (h16 : r ≤ 16) (hf : 18 ≤ fuel)
    (h0 : kld_at H targ mold 0 ≠ kld_unset) :
    ∃ kld i, gs_memo (kld_at H targ mold) r fuel = some kld ∧
      __gs_on_kld H targ mold r fuel = some i ∧ i < r ∧
      (∀ j, j < 16 → kld.getD j 0 = kld_unset ∨ kld.getD j 0 = kld_at H targ mold j) ∧
      kld.getD 0 0 = kld_at H targ mold 0 ∧
      kld.getD i 0 ≠ kld_unset ∧ kld.getD i 0 = kld_at H targ mold i ∧
      (i = 0 ∨ abs_int (kld_at H targ mold i) < kld_top) ∧
      (∀ j, j < r → kld.getD j 0 ≠ kld_unset → abs_int (kld_at H targ mold j) < kld_top →
        abs_int (kld_at H targ mold i) ≤ abs_int (kld_at H targ mold j) ∧
        (abs_int (kld_at H targ mold j) = abs_int (kld_at H targ mold i) → i ≤ j)) :=
  gs_on_least (kld_at H targ mold) h0 r fuel h2 h16 hf

/-- Instance of the final scan: resilience 8, the histogram `ex_ready` and the table
`probe_mold`. -/
theorem search_picks_least_witness :
    (2 ≤ 8 ∧ 8 ≤ 16 ∧ 18 ≤ 18 ∧ kld_at ex_header ex_ready probe_mold 0 ≠ kld_unset) ∧
    ∃ kld i, gs_memo (kld_at ex_header ex_ready probe_mold) 8 18 = some kld ∧
      __gs_on_kld ex_header ex_ready probe_mold 8 18 = some i ∧ i < 8 ∧
      (∀ j, j < 16 →
        kld.getD j 0 = kld_unset ∨ kld.getD j 0 = kld_at ex_header ex_ready probe_mold j) ∧
      kld.getD 0 0 = kld_at ex_header ex_ready probe_mold 0 ∧
      kld.getD i 0 ≠ kld_unset ∧ kld.getD i 0 = kld_at ex_header ex_ready probe_mold i ∧
      (i = 0 ∨ abs_int (kld_at ex_header ex_ready probe_mold i) < kld_top) ∧
      (∀ j, j < 8 → kld.getD j 0 ≠ kld_unset →
        abs_int (kld_at ex_header ex_ready probe_mold j) < kld_top →
        abs_int (kld_at ex_header ex_ready probe_mold i) ≤
          abs_int (kld_at ex_header ex_ready probe_mold j) ∧
        (abs_int (kld_at ex_header ex_ready probe_mold j) =
          abs_int (kld_at ex_header ex_ready probe_mold i) → i ≤ j)) :=
  ⟨⟨by decide, by decide, by decide, by decide⟩,
    search_picks_least ex_header ex_ready probe_mold 8 18 (by decide) (by decide) (by decide)
      (by decide)⟩

/-- Beyond the bound of C19 on the histogram: resilience 2, the histogram `big_level`,
which holds a count of 16777216, and the table `big_mold`.  Both indices are evaluated,
with the divergences 402653184 and 285212672, neither below 269488145, the `abs` of the
sentinel with which the final scan starts; the scan accepts neither, and the search
returns index 0, whose `|divergence|` is the larger one. -/
theorem search_skips_large_divergence :
    gs_memo (kld_at hit_header big_level big_mold) 2 18 =
      some (402653184 :: 285212672 :: List.replicate 14 kld_unset) ∧
    __gs_on_kld hit_header big_level big_mold 2 18 = some 0 ∧
    abs_int (kld_at hit_header big_level big_mold 1) <
      abs_int (kld_at hit_header big_level big_mold 0) := by
  decide

/-- Claim C20 at the failing input: resilience 8, the histogram `ex_ready` and the table
`probe_mold`, whose divergences are -24, -20, -16, -12, -8, -4, 0 and -4.  The first
pass evaluates the indices 0, 2, 4, 6 and 7, the best of them being 6; the bracket after
the pass is `[1, 1]` (narrowed around `min_idx = 0`), the loop ends, index 5 is never
evaluated, and the final scan returns 6. -/
theorem search_bracket_ignores_best :
    (List.range 8).map (kld_at ex_header ex_ready probe_mold) =
      [-24, -20, -16, -12, -8, -4, 0, -4] ∧
    gs_probe (kld_at ex_header ex_ready probe_mold) 7 2 18 0 (List.replicate 16 kld_unset) =
      some probe_memo ∧
    gs_narrow 0
        { lmost := 0, rmost := 7, hop_width := 2, kld_ref := List.replicate 16 kld_unset }
        probe_memo =
      { lmost := 1, rmost := 1, hop_width := 2, kld_ref := probe_memo } ∧
    gs_memo (kld_at ex_header ex_ready probe_mold) 8 18 = some probe_memo ∧
    probe_memo.getD 5 0 = kld_unset ∧
    __gs_on_kld ex_header ex_ready probe_mold 8 18 = some 6 := by
  decide

/-- Claim C22.  For a non-empty cascade all of whose levels are diverging and a legacy
capacity above 0, the strict bettor returns its baseline
`mult_frac (legacy, theta_numer, theta_denom)`, which is `legacy * theta_numer / theta_denom`
rounded down when no 32-bit product wraps, and leaves the vessel as it was but for
`save_total`, to which `(legacy - baseline) / 1000` is added (as a `long long`; exactly so
when the sum is in the range of the type). -/
theorem strict_bettor_all_diverging (H : ffsi_header) (d2u : List Nat) (self : ffsi_class)
    (v : rand_var) (cap_legacy : Nat) (hne : self.tpdf_cascade ≠ []) (hpos : 0 < cap_legacy)
    (hd : ∀ level ∈ self.tpdf_cascade, level.irand = H.FFSI_DIVERGING) :
    (ffsi_cap_strict_bettor H d2u self v cap_legacy).1 =
      mult_frac cap_legacy self.elasticity.theta_numer self.elasticity.theta_denom ∧
    (0 < self.elasticity.theta_denom →
      cap_legacy * self.elasticity.theta_numer < 4294967296 →
      (ffsi_cap_strict_bettor H d2u self v cap_legacy).1 =
        cap_legacy * self.elasticity.theta_numer / self.elasticity.theta_denom) ∧
    (ffsi_cap_strict_bettor H d2u self v cap_legacy).2 =
      save_total_add self cap_legacy
        (mult_frac cap_legacy self.elasticity.theta_numer self.elasticity.theta_denom) ∧
    (ffsi_cap_strict_bettor H d2u self v cap_legacy).2.stats.save_total =
      s64 (self.stats.save_total +
        Int.tdiv ((cap_legacy : Int) -
          (mult_frac cap_legacy self.elasticity.theta_numer self.elasticity.theta_denom : Nat))
          1000) ∧
    (-9223372036854775808 ≤ self.stats.save_total +
        Int.tdiv ((cap_legacy : Int) -
          (mult_frac cap_legacy self.elasticity.theta_numer self.elasticity.theta_denom : Nat))
          1000 →
      self.stats.save_total +
        Int.tdiv ((cap_legacy : Int) -
          (mult_frac cap_legacy self.elasticity.theta_numer self.elasticity.theta_denom : Nat))
          1000 < 9223372036854775808 →
      (ffsi_cap_strict_bettor H d2u self v cap_legacy).2.stats.save_total =
        self.stats.save_total +
          Int.tdiv ((cap_legacy : Int) -
            (mult_frac cap_legacy self.elasticity.theta_numer self.elasticity.theta_denom : Nat))
            1000) := by
  have hres : ffsi_cap_strict_bettor H d2u self v cap_legacy =
      (mult_frac cap_legacy self.elasticity.theta_numer self.elasticity.theta_denom,
        save_total_add self cap_legacy
          (mult_frac cap_legacy self.elasticity.theta_numer self.elasticity.theta_denom)) := by
    unfold ffsi_cap_strict_bettor
    simp only [isEmpty_false_of_ne hne, Bool.false_eq_true, if_false,
      if_neg (Nat.pos_iff_ne_zero.mp hpos),
      strict_fold_diverging H d2u self v cap_legacy _ self.tpdf_cascade hd]
  rw [hres]
  refine ⟨rfl, fun hθ hprod => ?_, rfl, rfl, fun h1 h2 => ?_⟩
  · have hq : cap_legacy / self.elasticity.theta_denom * self.elasticity.theta_numer ≤
        cap_legacy * self.elasticity.theta_numer :=
      Nat.mul_le_mul_right _ (Nat.div_le_self _ _)
    have hm : cap_legacy % self.elasticity.theta_denom * self.elasticity.theta_numer ≤
        cap_legacy * self.elasticity.theta_numer :=
      Nat.mul_le_mul_right _ (Nat.mod_le _ _)
    exact mult_frac_exact _ _ _ hθ (by omega) (by omega)
      (lt_of_le_of_lt (Nat.div_le_self _ _) hprod)
  · exact s64_of_range _ h1 h2

/-- Witness of C22: `ex_vessel`, whose two levels are diverging, with theta = 1/2 and the
legacy capacity 8000: the baseline is 4000 and `save_total` grows by 4. -/
theorem strict_bettor_all_diverging_witness :
    (ex_vessel.tpdf_cascade ≠ [] ∧ 0 < 8000 ∧
      ∀ level ∈ ex_vessel.tpdf_cascade, level.irand = ex_header.FFSI_DIVERGING) ∧
    (ffsi_cap_strict_bettor ex_header bet_table ex_vessel ex_sample 8000).1 =
      mult_frac 8000 ex_vessel.elasticity.theta_numer ex_vessel.elasticity.theta_denom ∧
    (ffsi_cap_strict_bettor ex_header bet_table ex_vessel ex_sample 8000).1 = 4000 ∧
    (ffsi_cap_strict_bettor ex_header bet_table ex_vessel ex_sample 8000).2.stats.save_total =
      ex_vessel.stats.save_total + 4 :=
  ⟨by decide,
    (strict_bettor_all_diverging ex_header bet_table ex_vessel ex_sample 8000 (by decide)
      (by decide) (by decide)).1,
    by decide, by decide⟩

/-- The checks of the search pass on every input: for a resilience between 2 and 16 and
a fuel of at least 18, whatever the divergences, no probe loop runs out of fuel,
`hop_total` is never zero where it divides, `hop_width` is never below 2, and every index
at which the memo table is read or written in the loops is below the resilience.  The
`do ... while` loop ends, with the memo table of `gs_memo`, when the divergence against
reference 0 is not the sentinel; when it is the sentinel, the loop needs more passes than
any fuel allows. -/
theorem search_checks_pass (kl : Nat → Int) (r fuel : Nat) (h2 : 2 ≤ r) (h16 : r ≤ 16)
    (hf : 18 ≤ fuel) :
    ((gs_memo_chk kl r fuel = gs_run.more ∧ gs_memo kl r fuel = none) ∨
      ∃ kld, gs_memo_chk kl r fuel = gs_run.done kld ∧ gs_memo kl r fuel = some kld) ∧
    (kl 0 ≠ kld_unset → ∃ kld, gs_memo_chk kl r fuel = gs_run.done kld) ∧
    (kl 0 = kld_unset → gs_memo_chk kl r fuel = gs_run.more) := by
  obtain ⟨e1, e2, e3, e4⟩ := ilog2_cases16 r h2 h16
  have hu : usub r 1 = r - 1 := by
    unfold usub u32; omega
  have ht : ilog2 r ≠ 0 := by
    intro h
    rw [h] at e1
    simp at e1
  have hmain := gs_descend_chk_ok kl r fuel h16 hf fuel
    { lmost := 0, rmost := usub r 1, hop_width := u32 (2 ^ ilog2 r) / ilog2 r,
      kld_ref := List.replicate 16 kld_unset } (Nat.zero_le 1)
    (show 0 < usub r 1 from e3) (show usub r 1 < r by rw [hu]; omega) e1 e2
    (fun h => absurd (show (0 : Nat) = 1 from h) (by decide))
  have hchk : gs_memo_chk kl r fuel = gs_descend_chk kl r 0 fuel fuel
      { lmost := 0, rmost := usub r 1, hop_width := u32 (2 ^ ilog2 r) / ilog2 r,
        kld_ref := List.replicate 16 kld_unset } := by
    unfold gs_memo_chk
    simp only [ht, if_false]
    rw [if_neg (by omega)]
  have hmemo : gs_memo kl r fuel = gs_descend kl 0 fuel fuel
      { lmost := 0, rmost := usub r 1, hop_width := u32 (2 ^ ilog2 r) / ilog2 r,
        kld_ref := List.replicate 16 kld_unset } := rfl
  rw [hchk, hmemo]
  refine ⟨hmain, fun h0 => ?_, fun h0 => ?_⟩
  · obtain ⟨kld, hk⟩ := gs_descend_some kl h0 r fuel h2 h16 hf
    rcases hmain with ⟨_, hn⟩ | ⟨kld', hd, _⟩
    · rw [hk] at hn; cases hn
    · exact ⟨kld', hd⟩
  · have hk : (List.replicate 16 kld_unset).getD 0 0 = kld_unset := by
      simp [List.replicate]
    have hnone := gs_descend_none kl h0 fuel fuel
      { lmost := 0, rmost := usub r 1, hop_width := u32 (2 ^ ilog2 r) / ilog2 r,
        kld_ref := List.replicate 16 kld_unset } rfl e3 e4 e1 e2 hk
    rcases hmain with ⟨hm, _⟩ | ⟨kld', _, hs⟩
    · exact hm
    · rw [hnone] at hs; cases hs

/-- Instance of the checks of the search: resilience 8, the histogram `ex_ready` and the
table `probe_mold`. -/
theorem search_checks_pass_witness :
    (2 ≤ 8 ∧ 8 ≤ 16 ∧ 18 ≤ 18) ∧
    gs_memo_chk (kld_at ex_header ex_ready probe_mold) 8 18 = gs_run.done probe_memo ∧
    ((gs_memo_chk (kld_at ex_header ex_ready probe_mold) 8 18 = gs_run.more ∧
        gs_memo (kld_at ex_header ex_ready probe_mold) 8 18 = none) ∨
      ∃ kld, gs_memo_chk (kld_at ex_header ex_ready probe_mold) 8 18 = gs_run.done kld ∧
        gs_memo (kld_at ex_header ex_ready probe_mold) 8 18 = some kld) :=
  ⟨by decide, by decide,
    (search_checks_pass (kld_at ex_header ex_ready probe_mold) 8 18 (by decide) (by decide)
      (by decide)).1⟩

/-- Beyond the bound of C23 on the histogram: resilience 2, the histogram `hit_level`,
which holds a count of 53356034, and the table `hit_mold`, where the divergence against
reference 0 is the value of the sentinel.  Every pass of the `do ... while` loop ends and
leaves the loop in the state `hit_state`, in which `rmost > lmost`: the first pass leads
from the initial state to it, and a pass from it leads back to it.  With its checks, the
run needs more passes whatever the fuel. -/
theorem search_loop_never_ends :
    kld_at hit_header hit_level hit_mold 0 = kld_unset ∧
    gs_probe (kld_at hit_header hit_level hit_mold) 1 2 18 0 (List.replicate 16 kld_unset) =
      some hit_state.kld_ref ∧
    gs_narrow 0
        { lmost := 0, rmost := 1, hop_width := 2, kld_ref := List.replicate 16 kld_unset }
        hit_state.kld_ref = hit_state ∧
    gs_probe (kld_at hit_header hit_level hit_mold) hit_state.rmost hit_state.hop_width 18
      hit_state.lmost hit_state.kld_ref = some hit_state.kld_ref ∧
    gs_narrow 0 hit_state hit_state.kld_ref = hit_state ∧
    hit_state.rmost > hit_state.lmost ∧
    ¬ ∃ fuel, 18 ≤ fuel ∧
      gs_memo_chk (kld_at hit_header hit_level hit_mold) 2 fuel ≠ gs_run.more := by
  refine ⟨by decide, by decide, by decide, by decide, by decide, by decide, ?_⟩
  rintro ⟨fuel, hf, h⟩
  exact h ((search_checks_pass (kld_at hit_header hit_level hit_mold) 2 fuel (by decide)
    (by decide) hf).2.2 (by decide))

/-- Claim C24.  Let the resilience be a 32-bit value, the elasticity denominators
non-zero and every level of the cascade at an index below the resilience or diverging.
Then no division of the soft bettor has a zero divisor: the bettor with its divisions
checked returns what `ffsi_cap_soft_bettor` returns.  The round of a level with its
divisions checked divides by the neutral index only when the index of the level is below
it, and by `resilience - neutral - 1` only when the index is above the neutral one, where
that divisor is at least 1. -/
theorem soft_bettor_divisors (H : ffsi_header) (self : ffsi_class) (v : rand_var)
    (cap_legacy : Nat) (hr : self.resilience < 4294967296)
    (hθ : self.elasticity.theta_denom ≠ 0) (hγ : self.elasticity.gamma_denom ≠ 0)
    (hi : ∀ level ∈ self.tpdf_cascade,
      level.irand < self.resilience ∨ level.irand = H.FFSI_DIVERGING) :
    ffsi_cap_soft_bettor_chk H self v cap_legacy =
      some (ffsi_cap_soft_bettor H self v cap_legacy) ∧
    (∀ (min_cap max_cap new_cap : Nat) (level : tpdf),
      level.irand < self.resilience ∨ level.irand = H.FFSI_DIVERGING →
      soft_level_chk H self cap_legacy min_cap max_cap new_cap level =
        some (soft_level H self cap_legacy min_cap max_cap new_cap level) ∧
      (level.irand ≠ H.FFSI_DIVERGING → level.irand < self.stats.rand_neutral →
        self.stats.rand_neutral ≠ 0) ∧
      (level.irand ≠ H.FFSI_DIVERGING → level.irand > self.stats.rand_neutral →
        1 ≤ usub (usub self.resilience self.stats.rand_neutral) 1 ∧
        usub (usub self.resilience self.stats.rand_neutral) 1 =
          self.resilience - self.stats.rand_neutral - 1)) := by
  constructor
  · unfold ffsi_cap_soft_bettor_chk ffsi_cap_soft_bettor
    simp only [mult_frac_chk_some _ _ _ hθ, mult_frac_chk_some _ _ _ hγ,
      soft_levels_chk_some H self cap_legacy _ _ hr self.tpdf_cascade 0 hi]
    split_ifs <;> rfl
  · intro min_cap max_cap new_cap level hl
    refine ⟨soft_level_chk_some H self cap_legacy min_cap max_cap new_cap level hr hl,
      fun _ h1 => by omega, fun hd h2 => ?_⟩
    exact soft_divisor_pos _ _ _ hr (hl.resolve_right hd) h2

/-- Witness of C24: a vessel with levels on both sides of the neutral index, at it, and
a diverging one.  For comparison, the level of `edge_vessel`, at index 8 with resilience 8
and neutral index 7, divides by `8 - 7 - 1 = 0`. -/
theorem soft_bettor_divisors_witness :
    (span_vessel.resilience < 4294967296 ∧ span_vessel.elasticity.theta_denom ≠ 0 ∧
      span_vessel.elasticity.gamma_denom ≠ 0 ∧
      ∀ level ∈ span_vessel.tpdf_cascade,
        level.irand < span_vessel.resilience ∨ level.irand = ex_header.FFSI_DIVERGING) ∧
    ffsi_cap_soft_bettor_chk ex_header span_vessel ex_sample 8000 =
      some (ffsi_cap_soft_bettor ex_header span_vessel ex_sample 8000) ∧
    ffsi_cap_soft_bettor_chk ex_header edge_vessel ex_sample 8000 = none :=
  ⟨by decide,
    (soft_bettor_divisors ex_header span_vessel ex_sample 8000 (by decide) (by decide)
      (by decide) (by decide)).1,
    by decide⟩

/-- Claim C25.  Let `min_cap ≤ legacy ≤ max_cap` be 32-bit values, the resilience a
32-bit value and no index below the resilience the diverging one.  For a level and
indices `i ≤ j` below the resilience at which no 32-bit product of the round wraps, the
contribution of the level at index `i` is at most its contribution at index `j`; so the
contribution at the neutral index, when that is below the resilience, lies between the
contributions at the indices below it and at those above it.  The contribution at an
index is the weight times the shifted capacity interpolated in exact arithmetic. -/
theorem soft_contrib_monotone (H : ffsi_header) (self : ffsi_class)
    (cap_legacy min_cap max_cap : Nat) (level : tpdf)
    (hmin : min_cap ≤ cap_legacy) (hmax : cap_legacy ≤ max_cap) (h32 : max_cap < 4294967296)
    (hr : self.resilience < 4294967296) (hdiv : self.resilience ≤ H.FFSI_DIVERGING) :
    (∀ i j, i ≤ j → j < self.resilience →
      soft_no_wrap self cap_legacy min_cap max_cap level.weight i →
      soft_no_wrap self cap_legacy min_cap max_cap level.weight j →
      soft_contrib H self cap_legacy min_cap max_cap { level with irand := i } ≤
        soft_contrib H self cap_legacy min_cap max_cap { level with irand := j }) ∧
    (self.stats.rand_neutral < self.resilience →
      soft_no_wrap self cap_legacy min_cap max_cap level.weight self.stats.rand_neutral →
      soft_contrib H self cap_legacy min_cap max_cap
          { level with irand := self.stats.rand_neutral } =
        level.weight * (cap_legacy >>> self.capa_denom) ∧
      ∀ i, i < self.resilience →
        soft_no_wrap self cap_legacy min_cap max_cap level.weight i →
        (i ≤ self.stats.rand_neutral →
          soft_contrib H self cap_legacy min_cap max_cap { level with irand := i } ≤
            level.weight * (cap_legacy >>> self.capa_denom)) ∧
        (self.stats.rand_neutral ≤ i →
          level.weight * (cap_legacy >>> self.capa_denom) ≤
            soft_contrib H self cap_legacy min_cap max_cap { level with irand := i })) ∧
    (∀ i, i < self.resilience →
      soft_no_wrap self cap_legacy min_cap max_cap level.weight i →
      soft_contrib H self cap_legacy min_cap max_cap { level with irand := i } =
        level.weight *
          (soft_cap_exact self cap_legacy min_cap max_cap i >>> self.capa_denom)) := by
  have hex := fun i hi hw =>
    soft_contrib_exact H self cap_legacy min_cap max_cap level i hmin hmax h32 hr hdiv hi hw
  have hmono : ∀ i j, i ≤ j → j < self.resilience →
      soft_no_wrap self cap_legacy min_cap max_cap level.weight i →
      soft_no_wrap self cap_legacy min_cap max_cap level.weight j →
      soft_contrib H self cap_legacy min_cap max_cap { level with irand := i } ≤
        soft_contrib H self cap_legacy min_cap max_cap { level with irand := j } := by
    intro i j hij hj hwi hwj
    rw [hex i (by omega) hwi, hex j hj hwj, Nat.shiftRight_eq_div_pow,
      Nat.shiftRight_eq_div_pow]
    exact Nat.mul_le_mul_left _ (Nat.div_le_div_right
      (soft_cap_exact_mono self cap_legacy min_cap max_cap hmin hmax i j hij hj))
  refine ⟨hmono, fun hn hwn => ?_, hex⟩
  have en : soft_contrib H self cap_legacy min_cap max_cap
      { level with irand := self.stats.rand_neutral } =
      level.weight * (cap_legacy >>> self.capa_denom) := by
    rw [hex _ hn hwn]
    unfold soft_cap_exact
    rw [if_neg (lt_irrefl _), if_neg (lt_irrefl _)]
  refine ⟨en, fun i hi hwi => ⟨fun hle => ?_, fun hle => ?_⟩⟩
  · rw [← en]; exact hmono i _ hle hn hwi hwn
  · rw [← en]; exact hmono _ i hle hi hwn hwi

/-- Witness of C25: resilience 8, neutral index 4, theta = 1/2, gamma = 2/1,
`capa_denom = 2`, a level of weight 1 and the legacy capacity 8000: the contributions at
the indices 0 to 7 are 1000, 1250, 1500, 1750, 2000, 2666, 3333 and 4000. -/
theorem soft_contrib_monotone_witness :
    (4000 ≤ 8000 ∧ 8000 ≤ 16000 ∧ 16000 < 4294967296 ∧ bet_vessel.resilience < 4294967296 ∧
      bet_vessel.resilience ≤ ex_header.FFSI_DIVERGING) ∧
    (List.range 8).map (fun i =>
      soft_contrib ex_header bet_vessel 8000 4000 16000 { bet_level 0 1 with irand := i }) =
      [1000, 1250, 1500, 1750, 2000, 2666, 3333, 4000] ∧
    soft_contrib ex_header bet_vessel 8000 4000 16000 { bet_level 0 1 with irand := 3 } ≤
      soft_contrib ex_header bet_vessel 8000 4000 16000 { bet_level 0 1 with irand := 5 } :=
  ⟨by decide, by decide,
    (soft_contrib_monotone ex_header bet_vessel 8000 4000 16000 (bet_level 0 1) (by decide)
      (by decide) (by decide) (by decide) (by decide)).1 3 5 (by decide) (by decide)
      (by unfold soft_no_wrap; decide) (by unfold soft_no_wrap; decide)⟩

/-- Claim C26.  For every 32-bit count `p ≥ 1`, `pbase = 1 << ilog2 p` is the largest
power of two not above `p` (`pbase ≤ p < 2 * pbase`), and the index
`mult_frac (p - pbase, ONE2TWO_RES, pbase)` at which the divergence functions read `__lb2`
is below 64, the number of entries of the table; the product inside `mult_frac` is taken
modulo `2 ^ 32`, as the code computes it. -/
theorem lb2_index_in_table (p : Nat) (h1 : 1 ≤ p) (h32 : p < 4294967296) :
    u32 (2 ^ ilog2 p) = 2 ^ ilog2 p ∧ u32 (2 ^ ilog2 p) ≤ p ∧ p < 2 * u32 (2 ^ ilog2 p) ∧
    mult_frac (usub p (u32 (2 ^ ilog2 p))) ONE2TWO_RES (u32 (2 ^ ilog2 p)) < 64 ∧
    mult_frac (usub p (u32 (2 ^ ilog2 p))) ONE2TWO_RES (u32 (2 ^ ilog2 p)) < __lb2.length ∧
    (p ≠ u32 (2 ^ ilog2 p) → ∀ q,
      kl_ent q p = u32 (u32 (q * ilog2 p) +
        u32 (q * __lb2.getD (mult_frac (usub p (u32 (2 ^ ilog2 p))) ONE2TWO_RES
          (u32 (2 ^ ilog2 p))) 0) >>> LOG_UPSCALE_SHIFT)) := by
  obtain ⟨a, b, c⟩ := ilog2_spec p h1 h32
  have hs : usub p (u32 (2 ^ ilog2 p)) = p - 2 ^ ilog2 p := by
    rw [c]; exact usub_of_le h32 a
  have hm : mult_frac (usub p (u32 (2 ^ ilog2 p))) ONE2TWO_RES (u32 (2 ^ ilog2 p)) < 64 := by
    rw [hs, c]
    exact mult_frac_below _ _ (by omega) (by omega)
  refine ⟨c, by rw [c]; exact a, by rw [c]; exact b, hm, hm, fun hne q => ?_⟩
  unfold kl_ent
  simp only [if_neg hne]

/-- Witness of C26: `p = 3 * 2 ^ 30`, where `pbase = 2 ^ 31` and the product
`(p - pbase) * 64 = 2 ^ 36` wraps to 0; the index is 0. -/
theorem lb2_index_in_table_witness :
    (1 ≤ 3221225472 ∧ 3221225472 < 4294967296) ∧
    u32 (2 ^ ilog2 3221225472) = 2147483648 ∧
    u32 (usub 3221225472 (u32 (2 ^ ilog2 3221225472)) * 64) = 0 ∧
    mult_frac (usub 3221225472 (u32 (2 ^ ilog2 3221225472))) ONE2TWO_RES
      (u32 (2 ^ ilog2 3221225472)) < 64 :=
  ⟨by decide, by decide, by decide,
    (lb2_index_in_table 3221225472 (by decide) (by decide)).2.2.2.1⟩

end FFSI
